import Mathlib

/-!
TalentFlow mock backend: request handlers over the local store.

A shallow embedding of `src/mocks/handlers.js` and of the seed data of
`src/services/database.js`.

Modelling conventions.

* A Dexie table is a list of records whose primary keys (`id`) are pairwise
  distinct; the list is kept in insertion order.  `Table.add` rejects a record
  whose key is already stored (Dexie's ConstraintError), `Table.update` applies
  a change to the records with the given key, `Table.modifyWhere` is
  `where(..).modify(..)`: every record that matches when the call starts is
  changed exactly once.
* JavaScript numbers that hold ids, orders and clock readings are integers
  (`Int`); dates are milliseconds since the epoch.  Path parameters are taken
  after `parseInt` and are numbers.  Sums and differences are exact, which is
  what the floating-point arithmetic of the source gives on safe integers
  (absolute value below 2^53); `SafeOrders` states that range for the orders.
* A field that a JSON body may leave out is an `Option`; `none` is "not
  supplied".  Update bodies do not carry the primary key.
* The values read from the outside world by one handler run (the number drawn
  by `Math.random()` in `shouldError`, `Date.now()` and `new Date()`) are the
  fields of `Env`.  The awaited `delay()` has no effect on the store and is not
  modelled.
* The function `String.prototype.toLowerCase` of the JavaScript engine, used by
  the two list handlers, is the parameter `lower` of `listJobs` and
  `listCandidates`; `toLowerCase` is its restriction to ASCII letters.
-/

namespace TalentFlow

/-! ## Records of the five collections -/

/-- A record of the `jobs` table. -/
structure Job where
  id : Int
  title : Option String
  slug : Option String
  status : Option String
  tags : Option (List String)
  order : Int
  createdAt : Int
deriving DecidableEq

/-- A record of the `candidates` table. -/
structure Candidate where
  id : Int
  name : Option String
  email : Option String
  stage : Option String
  jobId : Option Int
  notes : Option String
  createdAt : Option Int
deriving DecidableEq

/-- A record of the `candidateTimeline` table. -/
structure TimelineEntry where
  id : Int
  candidateId : Int
  stage : String
  timestamp : Int
  notes : String
deriving DecidableEq

/-- A question of an assessment section. -/
structure Question where
  id : Int
  type : String
  question : String
  options : Option (List String)
  maxLength : Option Int
  min : Option Int
  max : Option Int
  required : Bool
deriving DecidableEq

/-- A section of an assessment. -/
structure Section where
  id : Int
  title : String
  questions : List Question
deriving DecidableEq

/-- A record of the `assessments` table. -/
structure Assessment where
  id : Int
  jobId : Int
  title : Option String
  sections : Option (List Section)
  createdAt : Int
deriving DecidableEq

/-- An answer to one question: the text of an input or the chosen options. -/
inductive Answer where
  | text (value : String)
  | choices (values : List String)
deriving DecidableEq

/-- A record of the `assessmentResponses` table. -/
structure AssessmentResponse where
  id : Int
  assessmentId : Int
  candidateId : Option Int
  responses : Option (List (Int × Answer))
  submittedAt : Int
deriving DecidableEq

/-- The five collections of `TalentFlowDB`. -/
structure Store where
  jobs : List Job
  candidates : List Candidate
  candidateTimeline : List TimelineEntry
  assessments : List Assessment
  assessmentResponses : List AssessmentResponse
deriving DecidableEq

/-! ## Request bodies -/

/-- The JSON body of `POST /api/jobs`; it is spread into the new record, so it
may carry any field of a job, `id`, `order` and `createdAt` included. -/
structure JobData where
  id : Option Int
  title : Option String
  slug : Option String
  status : Option String
  tags : Option (List String)
  order : Option Int
  createdAt : Option Int
deriving DecidableEq

/-- The JSON body of `PATCH /api/jobs/:id`: the fields to overwrite. -/
structure JobUpdates where
  title : Option String
  slug : Option String
  status : Option String
  tags : Option (List String)
  order : Option Int
  createdAt : Option Int
deriving DecidableEq

/-- The JSON body of `PATCH /api/candidates/:id`: the fields to overwrite. -/
structure CandidateUpdates where
  name : Option String
  email : Option String
  stage : Option String
  jobId : Option Int
  notes : Option String
  createdAt : Option Int
deriving DecidableEq

/-- The JSON body of `PUT /api/assessments/:jobId`. -/
structure AssessmentData where
  jobId : Option Int
  title : Option String
  sections : Option (List Section)
  createdAt : Option Int
deriving DecidableEq

/-- The JSON body of `POST /api/assessments/:jobId/submit`. -/
structure SubmissionData where
  candidateId : Option Int
  responses : Option (List (Int × Answer))
deriving DecidableEq

/-! ## Responses and the outside world -/

/-- The JSON payload of a response of a write handler.  `job none` is
`ctx.json(undefined)`: the body sent when `get` found no record. -/
inductive Body where
  | error (message : String)
  | success
  | job (record : Option Job)
  | candidate (record : Option Candidate)
  | assessment (record : Option Assessment)
  | submitted (submissionId : Int)
deriving DecidableEq

/-- An HTTP response: `res(ctx.status(..), ctx.json(..))`; the status is 200
when the handler sets none. -/
structure Response where
  status : Nat
  body : Body
deriving DecidableEq

/-- What one handler run reads from the outside world. -/
structure Env where
  /-- The number `Math.random()` returns inside `shouldError`. -/
  random : ℚ
  /-- The value of `Date.now()`. -/
  now : Int
  /-- The time of `new Date()`. -/
  date : Int

/-- The function `shouldError` of `handlers.js`, on the number drawn. -/
def shouldError (writeOperation : Bool) (random : ℚ) : Bool :=
  let errorRate : ℚ := if writeOperation then 1 / 10 else 1 / 20
  decide (random < errorRate)

/-! ## The table operations used by the handlers -/

/-- The message of the error Dexie raises when `add` meets a stored key. -/
def constraintErrorMessage : String := "Key already exists in the object store."

/-- Dexie `table.add(record)` with an explicit primary key. -/
def Table.add {α : Type} (key : α → Int) (rows : List α) (record : α) :
    Except String (List α) :=
  if rows.any (fun r => key r == key record) then .error constraintErrorMessage
  else .ok (rows ++ [record])

/-- Dexie `table.get(key)`. -/
def Table.get {α : Type} (key : α → Int) (rows : List α) (k : Int) : Option α :=
  rows.find? (fun r => key r == k)

/-- Dexie `collection.modify(change)` on the records matching `p`. -/
def Table.modifyWhere {α : Type} (p : α → Bool) (change : α → α) (rows : List α) :
    List α :=
  rows.map (fun r => if p r then change r else r)

/-- Dexie `table.update(key, changes)`, which is
`where(':id').equals(key).modify(changes)`. -/
def Table.update {α : Type} (key : α → Int) (rows : List α) (k : Int)
    (change : α → α) : List α :=
  Table.modifyWhere (fun r => key r == k) change rows

/-- The key the `++id` generator hands out: one more than the largest key
stored so far (no handler deletes a record), and at least 1. -/
def Table.nextKey {α : Type} (key : α → Int) (rows : List α) : Int :=
  (rows.foldl (fun m r => max m (key r)) 0) + 1

/-- The order of the `order` index: by `order`, ties by primary key. -/
def Job.orderLE (a b : Job) : Prop :=
  a.order < b.order ∨ (a.order = b.order ∧ a.id ≤ b.id)

instance Job.orderLE.decidable : DecidableRel Job.orderLE :=
  fun a b => inferInstanceAs (Decidable (a.order < b.order ∨ (a.order = b.order ∧ a.id ≤ b.id)))

/-- The array `db.jobs.orderBy('order').toArray()`. -/
def orderByOrder (jobs : List Job) : List Job :=
  jobs.insertionSort Job.orderLE

/-- JavaScript `x || 0` on a number that may be undefined. -/
def orZero (x : Option Int) : Int :=
  match x with
  | some v => if v = 0 then 0 else v
  | none => 0

/-- JavaScript truthiness of a string that may be undefined. -/
def truthy (x : Option String) : Bool :=
  match x with
  | some v => v != ""
  | none => false

/-- The effect of `update(id, updates)` on one job. -/
def Job.merge (u : JobUpdates) (j : Job) : Job :=
  { id := j.id
    title := u.title.orElse (fun _ => j.title)
    slug := u.slug.orElse (fun _ => j.slug)
    status := u.status.orElse (fun _ => j.status)
    tags := u.tags.orElse (fun _ => j.tags)
    order := u.order.getD j.order
    createdAt := u.createdAt.getD j.createdAt }

/-- The effect of `update(id, updates)` on one candidate. -/
def Candidate.merge (u : CandidateUpdates) (c : Candidate) : Candidate :=
  { id := c.id
    name := u.name.orElse (fun _ => c.name)
    email := u.email.orElse (fun _ => c.email)
    stage := u.stage.orElse (fun _ => c.stage)
    jobId := u.jobId.orElse (fun _ => c.jobId)
    notes := u.notes.orElse (fun _ => c.notes)
    createdAt := u.createdAt.orElse (fun _ => c.createdAt) }

/-- The effect of `update(id, assessmentData)` on one assessment. -/
def Assessment.merge (d : AssessmentData) (a : Assessment) : Assessment :=
  { id := a.id
    jobId := d.jobId.getD a.jobId
    title := d.title.orElse (fun _ => a.title)
    sections := d.sections.orElse (fun _ => a.sections)
    createdAt := d.createdAt.getD a.createdAt }

/-- The record `db.assessments.where('jobId').equals(jobId).first()`: among the
assessments of the job, the one with the least primary key. -/
def firstAssessmentOfJob (rows : List Assessment) (jobId : Int) : Option Assessment :=
  ((rows.filter (fun a => a.jobId == jobId)).insertionSort (fun a b => a.id ≤ b.id)).head?

/-! ## The write handlers -/

/-- The handler `rest.post('/api/jobs')`.  The numbers of the source are
modelled as integers and `+ 1` is the exact sum: that is the sum the source
computes as long as the greatest stored order is a safe integer (see
`SafeOrders`); from 2^53 on the source's floating-point sum is rounded. -/
def createJob (env : Env) (s : Store) (jobData : JobData) : Response × Store :=
  if shouldError true env.random then
    (⟨500, .error "Failed to create job"⟩, s)
  else
    let maxOrder := (orderByOrder s.jobs).getLast?
    let job : Job :=
      { id := env.now
        title := jobData.title
        slug := jobData.slug
        status := jobData.status
        tags := jobData.tags
        order := orZero (maxOrder.map (fun j => j.order)) + 1
        createdAt := env.date }
    match Table.add (fun j => j.id) s.jobs job with
    | .ok jobs => (⟨200, .job (some job)⟩, { s with jobs := jobs })
    | .error message => (⟨400, .error message⟩, s)

/-- The handler `rest.patch('/api/jobs/:id')`. -/
def updateJob (env : Env) (s : Store) (id : Int) (updates : JobUpdates) : Response × Store :=
  if shouldError true env.random then
    (⟨500, .error "Failed to update job"⟩, s)
  else
    let jobs := Table.update (fun j => j.id) s.jobs id (Job.merge updates)
    let updatedJob := Table.get (fun j => j.id) jobs id
    (⟨200, .job updatedJob⟩, { s with jobs := jobs })

/-- The handler `rest.patch('/api/jobs/:id/reorder')`. -/
def reorderJob (env : Env) (s : Store) (id : Int) (fromOrder toOrder : Int) :
    Response × Store :=
  if shouldError true env.random then
    (⟨500, .error "Reorder failed"⟩, s)
  else
    let jobs := orderByOrder s.jobs
    let jobToMove := jobs.find? (fun j => j.id == id)
    match jobToMove with
    | none => (⟨404, .error "Job not found"⟩, s)
    | some _ =>
      let shifted :=
        if fromOrder < toOrder then
          Table.modifyWhere (fun j => decide (fromOrder + 1 ≤ j.order ∧ j.order ≤ toOrder))
            (fun job => { job with order := job.order - 1 }) s.jobs
        else
          Table.modifyWhere (fun j => decide (toOrder ≤ j.order ∧ j.order ≤ fromOrder - 1))
            (fun job => { job with order := job.order + 1 }) s.jobs
      let moved := Table.update (fun j => j.id) shifted id
        (fun job => { job with order := toOrder })
      (⟨200, .success⟩, { s with jobs := moved })

/-- The handler `rest.patch('/api/candidates/:id')`. -/
def updateCandidate (env : Env) (s : Store) (id : Int) (updates : CandidateUpdates) :
    Response × Store :=
  if shouldError true env.random then
    (⟨500, .error "Failed to update candidate"⟩, s)
  else
    let candidates := Table.update (fun c => c.id) s.candidates id (Candidate.merge updates)
    let timeline :=
      if truthy updates.stage then
        s.candidateTimeline ++
          [{ id := Table.nextKey (fun e => e.id) s.candidateTimeline
             candidateId := id
             stage := updates.stage.getD ""
             timestamp := env.date
             notes :=
               if truthy updates.notes then updates.notes.getD ""
               else "Moved to " ++ updates.stage.getD "" ++ " stage" }]
      else s.candidateTimeline
    let updatedCandidate := Table.get (fun c => c.id) candidates id
    (⟨200, .candidate updatedCandidate⟩,
      { s with candidates := candidates, candidateTimeline := timeline })

/-- The handler `rest.put('/api/assessments/:jobId')`. -/
def upsertAssessment (env : Env) (s : Store) (jobId : Int) (assessmentData : AssessmentData) :
    Response × Store :=
  if shouldError true env.random then
    (⟨500, .error "Failed to save assessment"⟩, s)
  else
    match firstAssessmentOfJob s.assessments jobId with
    | some existingAssessment =>
      let assessments := Table.update (fun a => a.id) s.assessments existingAssessment.id
        (Assessment.merge assessmentData)
      let updated := Table.get (fun a => a.id) assessments existingAssessment.id
      (⟨200, .assessment updated⟩, { s with assessments := assessments })
    | none =>
      let assessment : Assessment :=
        { id := env.now
          jobId := jobId
          title := assessmentData.title
          sections := assessmentData.sections
          createdAt := env.date }
      match Table.add (fun a => a.id) s.assessments assessment with
      | .ok assessments =>
        (⟨200, .assessment (some assessment)⟩, { s with assessments := assessments })
      | .error message => (⟨400, .error message⟩, s)

/-- The handler `rest.post('/api/assessments/:jobId/submit')`. -/
def submitAssessment (env : Env) (s : Store) (jobId : Int) (data : SubmissionData) :
    Response × Store :=
  if shouldError true env.random then
    (⟨500, .error "Failed to submit assessment"⟩, s)
  else
    let submission : AssessmentResponse :=
      { id := env.now
        assessmentId := jobId
        candidateId := data.candidateId
        responses := data.responses
        submittedAt := env.date }
    match Table.add (fun r => r.id) s.assessmentResponses submission with
    | .ok rows => (⟨200, .submitted submission.id⟩, { s with assessmentResponses := rows })
    | .error message => (⟨400, .error message⟩, s)

/-! ## Seed data and the ordering invariant -/

/-- The array `seedData.jobs` of `database.js`. -/
def seedJobs : List Job :=
  [ { id := 1, title := some "Senior Frontend Developer", slug := some "senior-frontend-developer",
      status := some "active", tags := some ["React", "TypeScript", "CSS"], order := 1,
      createdAt := 1705276800000 },
    { id := 2, title := some "Full Stack Engineer", slug := some "full-stack-engineer",
      status := some "active", tags := some ["Node.js", "React", "PostgreSQL"], order := 2,
      createdAt := 1705708800000 },
    { id := 3, title := some "UI/UX Designer", slug := some "ui-ux-designer",
      status := some "active", tags := some ["Figma", "Design Systems", "User Research"],
      order := 3, createdAt := 1706745600000 },
    { id := 4, title := some "DevOps Engineer", slug := some "devops-engineer",
      status := some "archived", tags := some ["AWS", "Docker", "Kubernetes"], order := 4,
      createdAt := 1704844800000 },
    { id := 5, title := some "Product Manager", slug := some "product-manager",
      status := some "active", tags := some ["Strategy", "Analytics", "Leadership"], order := 5,
      createdAt := 1707523200000 } ]

/-- The list 1, 2, ..., n. -/
def oneTo (n : Nat) : List Int :=
  (List.range n).map (fun (i : Nat) => (i : Int) + 1)

/-- The order values of the jobs are exactly 1..N, N the number of jobs: the
list of orders is a rearrangement of 1, 2, ..., N. -/
def DenseOrders (jobs : List Job) : Prop :=
  (jobs.map (fun j => j.order)).Perm (oneTo jobs.length)

instance DenseOrders.decidable (jobs : List Job) : Decidable (DenseOrders jobs) :=
  inferInstanceAs (Decidable ((jobs.map (fun j : Job => j.order)).Perm (oneTo jobs.length)))

/-- The primary keys of a jobs table are pairwise distinct. -/
def UniqueIds (jobs : List Job) : Prop :=
  (jobs.map (fun j => j.id)).Nodup

instance UniqueIds.decidable (jobs : List Job) : Decidable (UniqueIds jobs) :=
  inferInstanceAs (Decidable ((jobs.map (fun j : Job => j.id)).Nodup))

/-- The orders of the jobs are safe integers in the sense of
`Number.isSafeInteger`: between -(2^53 - 1) and 2^53 - 1, the range in which
adding 1 to an integer is exact in JavaScript. -/
def SafeOrders (jobs : List Job) : Prop :=
  ∀ j ∈ jobs, -9007199254740991 ≤ j.order ∧ j.order ≤ 9007199254740991

instance SafeOrders.decidable (jobs : List Job) : Decidable (SafeOrders jobs) :=
  inferInstanceAs
    (Decidable (∀ j ∈ jobs, -9007199254740991 ≤ j.order ∧ j.order ≤ 9007199254740991))

/-- What a successful reorder request does to one job record: the shift of the
jobs between the two positions, then the move of the job with the given id. -/
def reorderRecord (id fromOrder toOrder : Int) (j : Job) : Job :=
  let shifted : Job :=
    if fromOrder < toOrder then
      (if decide (fromOrder + 1 ≤ j.order ∧ j.order ≤ toOrder) then { j with order := j.order - 1 }
       else j)
    else
      (if decide (toOrder ≤ j.order ∧ j.order ≤ fromOrder - 1) then { j with order := j.order + 1 }
       else j)
  if shifted.id == id then { shifted with order := toOrder } else shifted

/-- A store holding `jobs` and nothing else. -/
def storeOfJobs (jobs : List Job) : Store :=
  { jobs := jobs, candidates := [], candidateTimeline := [], assessments := [],
    assessmentResponses := [] }

/-- An environment in which no failure is injected. -/
def calmEnv (now : Int) : Env :=
  { random := 1 / 2, now := now, date := now }

/-- An environment in which `shouldError(true)` is true. -/
def failingEnv (now : Int) : Env :=
  { random := 1 / 50, now := now, date := now }

/-- A request to one of the two handlers that write job orders. -/
inductive JobRequest where
  | create (env : Env) (jobData : JobData)
  | reorder (env : Env) (id fromOrder toOrder : Int)

/-- The handler run a request stands for. -/
def JobRequest.run (s : Store) : JobRequest → Response × Store
  | .create env jobData => createJob env s jobData
  | .reorder env id fromOrder toOrder => reorderJob env s id fromOrder toOrder

/-- The store after a sequence of create and reorder requests, served one
after the other. -/
def runAll (s : Store) (requests : List JobRequest) : Store :=
  requests.foldl (fun st r => (r.run st).2) s

/-- Every request of the sequence is answered with status 200. -/
def AllSucceed (s : Store) : List JobRequest → Prop
  | [] => True
  | r :: rest => (r.run s).1.status = 200 ∧ AllSucceed (r.run s).2 rest

/-- Every reorder request of the sequence, at the moment it is served, names a
stored job, gives that job's current order as `fromOrder`, and has a `toOrder`
between 1 and the number of jobs. -/
def ValidReorders (s : Store) : List JobRequest → Prop
  | [] => True
  | .create env jobData :: rest => ValidReorders (createJob env s jobData).2 rest
  | .reorder env id fromOrder toOrder :: rest =>
    ((∃ j ∈ s.jobs, j.id = id ∧ j.order = fromOrder) ∧ 1 ≤ toOrder ∧ toOrder ≤ s.jobs.length) ∧
      ValidReorders (reorderJob env s id fromOrder toOrder).2 rest

/-- A job body with a title only. -/
def titleOnly (title : String) : JobData :=
  { id := none, title := some title, slug := none, status := none, tags := none, order := none,
    createdAt := none }

/-- A job body that carries its own id, order and createdAt. -/
def crowdedBody : JobData :=
  { id := some 3, title := some "QA Engineer", slug := some "qa-engineer",
    status := some "active", tags := some ["Testing"], order := some 1, createdAt := some 0 }

/-- An update body that sets the status only. -/
def statusOnly (status : String) : JobUpdates :=
  { title := none, slug := none, status := some status, tags := none, order := none,
    createdAt := none }

/-- An update body that sets the stage only. -/
def stageOnly (stage : String) : CandidateUpdates :=
  { name := none, email := none, stage := some stage, jobId := none, notes := none,
    createdAt := none }

instance Job.orderLE.isTotal : IsTotal Job Job.orderLE :=
  ⟨fun a b => by unfold Job.orderLE; omega⟩

instance Job.orderLE.isTrans : IsTrans Job Job.orderLE :=
  ⟨fun a b c h1 h2 => by unfold Job.orderLE at *; omega⟩

/-! ## The read handlers -/

/-- JavaScript `text.toLowerCase()` on text whose letters are ASCII: the
letters A to Z are mapped to a to z and every other character is left as it
is.  On such text it is the function of the JavaScript engine; the engine also
lower-cases the cased letters outside ASCII, which this function leaves as
they are.  The list handlers, which lower-case stored text and the search
text, take the engine's function as the parameter `lower`. -/
def toLowerCase (text : String) : String :=
  String.mk (text.data.map Char.toLower)

/-- JavaScript `text.includes(part)`: `part` occurs in `text` as a run of
consecutive characters. -/
def includes (text part : String) : Bool :=
  text.data.tails.any (fun rest => part.data.isPrefixOf rest)

/-- The index an argument of `Array.prototype.slice` stands for in an array of
the given length: a negative argument counts from the end. -/
def relativeIndex (length : Nat) (i : Int) : Nat :=
  if i < 0 then ((length : Int) + i).toNat else min i.toNat length

/-- JavaScript `array.slice(start, stop)`. -/
def jsSlice {α : Type} (array : List α) (start stop : Int) : List α :=
  let first := relativeIndex array.length start
  let final := relativeIndex array.length stop
  (array.drop first).take (final - first)

/-- JavaScript `parseInt(text) || fallback`; the parsed number is `none` when
the parameter is absent or not a number. -/
def orDefault (parsed : Option Int) (fallback : Int) : Int :=
  match parsed with
  | some v => if v = 0 then fallback else v
  | none => fallback

/-- JavaScript `text || fallback` on a query parameter that may be absent. -/
def orText (text : Option String) (fallback : String) : String :=
  match text with
  | some v => if v = "" then fallback else v
  | none => fallback

/-- JavaScript `Math.ceil(a / b)` on integers, `b` not zero. -/
def ceilDiv (a b : Int) : Int :=
  -((-a).fdiv b)

/-- The message of the TypeError raised by reading a property of `undefined`. -/
def cannotReadMessage (property : String) : String :=
  "Cannot read properties of undefined (reading '" ++ property ++ "')"

/-- The message of the error Dexie raises for `orderBy` on a field that is not
in the schema of the table. -/
def notIndexedMessage (sort table : String) : String :=
  "KeyPath " ++ sort ++ " on object store " ++ table ++ " is not indexed"

/-- JavaScript `array.filter(test)` with a test that may throw: the first
exception ends the call. -/
def filterThrowing {α : Type} (test : α → Except String Bool) : List α → Except String (List α)
  | [] => .ok []
  | x :: rest =>
    match test x with
    | .error message => .error message
    | .ok keep =>
      match filterThrowing test rest with
      | .error message => .error message
      | .ok kept => .ok (if keep then x :: kept else kept)

/-- The records that have a key in an index, in the order of the index: by
key, ties by primary key. -/
def indexOrder {κ : Type} (before : κ → κ → Bool) [DecidableEq κ] (key : Job → Option κ)
    (jobs : List Job) : List Job :=
  (jobs.filter (fun j => (key j).isSome)).insertionSort
    (fun a b =>
      (match key a, key b with
       | some x, some y => before x y || (decide (x = y) && decide (a.id ≤ b.id))
       | _, _ => true) = true)

/-- The array `db.jobs.orderBy(sort).toArray()` for the fields of the schema
`++id, title, slug, status, tags, order, createdAt`; any other field is not
indexed. -/
def orderBy (sort : String) (jobs : List Job) : Except String (List Job) :=
  if sort = "order" then .ok (orderByOrder jobs)
  else if sort = "id" then
    .ok (indexOrder (fun x y : Int => decide (x < y)) (fun j => some j.id) jobs)
  else if sort = "createdAt" then
    .ok (indexOrder (fun x y : Int => decide (x < y)) (fun j => some j.createdAt) jobs)
  else if sort = "title" then
    .ok (indexOrder (fun x y : String => decide (x < y)) (fun j => j.title) jobs)
  else if sort = "slug" then
    .ok (indexOrder (fun x y : String => decide (x < y)) (fun j => j.slug) jobs)
  else if sort = "status" then
    .ok (indexOrder (fun x y : String => decide (x < y)) (fun j => j.status) jobs)
  else if sort = "tags" then
    .ok (indexOrder (fun x y : List String => decide (x < y)) (fun j => j.tags) jobs)
  else .error (notIndexedMessage sort "jobs")

/-- The query parameters of `GET /api/jobs`; `page` and `pageSize` are the
results of `parseInt`. -/
structure JobsQuery where
  search : Option String
  status : Option String
  page : Option Int
  pageSize : Option Int
  sort : Option String

/-- The query parameters of `GET /api/candidates`. -/
structure CandidatesQuery where
  search : Option String
  stage : Option String
  page : Option Int
  pageSize : Option Int

/-- The JSON payload of a list response; `items` is its `jobs` or `candidates`
array. -/
structure Page (α : Type) where
  items : List α
  total : Int
  page : Int
  pageSize : Int
  totalPages : Int
deriving DecidableEq

/-- The response of a list handler. -/
inductive ListResponse (α : Type) where
  | ok (payload : Page α)
  | error (status : Nat) (message : String)
deriving DecidableEq

/-- The test of the search filter of list-jobs:
`job.title.toLowerCase().includes(..) || job.tags.some(tag => ..)`. -/
def jobMatchesSearch (lower : String → String) (search : String) (job : Job) :
    Except String Bool :=
  match job.title with
  | none => .error (cannotReadMessage "toLowerCase")
  | some title =>
    if includes (lower title) (lower search) then .ok true
    else
      match job.tags with
      | none => .error (cannotReadMessage "some")
      | some tags => .ok (tags.any (fun tag => includes (lower tag) (lower search)))

/-- The two filters of list-jobs, applied to the sorted array; `lower` is the
engine's `toLowerCase`. -/
def filterJobs (lower : String → String) (search status : String) (jobs : List Job) :
    Except String (List Job) :=
  match (if search ≠ "" then filterThrowing (jobMatchesSearch lower search) jobs
         else .ok jobs) with
  | .error message => .error message
  | .ok found =>
    .ok (if status ≠ "" then found.filter (fun job => job.status == some status) else found)

/-- The pagination step shared by the two list handlers. -/
def paginate {α : Type} (records : List α) (page pageSize : Int) : Page α :=
  let total : Int := records.length
  let startIndex := (page - 1) * pageSize
  let endIndex := startIndex + pageSize
  { items := jsSlice records startIndex endIndex
    total := total
    page := page
    pageSize := pageSize
    totalPages := ceilDiv total pageSize }

/-- The handler `rest.get('/api/jobs')`.  The function `lower` is
`String.prototype.toLowerCase` of the JavaScript engine, which lower-cases
every cased letter of Unicode. -/
def listJobs (lower : String → String) (env : Env) (s : Store) (q : JobsQuery) :
    ListResponse Job :=
  if shouldError false env.random then
    .error 500 "Server error"
  else
    let search := q.search.getD ""
    let status := q.status.getD ""
    let page := orDefault q.page 1
    let pageSize := orDefault q.pageSize 10
    let sort := orText q.sort "order"
    match orderBy sort s.jobs with
    | .error message => .error 500 message
    | .ok jobs =>
      match filterJobs lower search status jobs with
      | .error message => .error 500 message
      | .ok jobs => .ok (paginate jobs page pageSize)

/-- The test of the search filter of list-candidates:
`candidate.name.toLowerCase().includes(..) || candidate.email.toLowerCase().includes(..)`. -/
def candidateMatchesSearch (lower : String → String) (search : String)
    (candidate : Candidate) : Except String Bool :=
  match candidate.name with
  | none => .error (cannotReadMessage "toLowerCase")
  | some name =>
    if includes (lower name) (lower search) then .ok true
    else
      match candidate.email with
      | none => .error (cannotReadMessage "toLowerCase")
      | some email => .ok (includes (lower email) (lower search))

/-- The two filters of list-candidates; `lower` is the engine's `toLowerCase`. -/
def filterCandidates (lower : String → String) (search stage : String)
    (candidates : List Candidate) : Except String (List Candidate) :=
  match (if search ≠ "" then filterThrowing (candidateMatchesSearch lower search) candidates
         else .ok candidates) with
  | .error message => .error message
  | .ok found =>
    .ok (if stage ≠ "" then found.filter (fun c => c.stage == some stage) else found)

/-- The array `db.candidates.toArray()`: the records by primary key. -/
def candidatesToArray (candidates : List Candidate) : List Candidate :=
  candidates.insertionSort (fun a b => a.id ≤ b.id)

/-- The handler `rest.get('/api/candidates')`; `lower` is the engine's
`toLowerCase`. -/
def listCandidates (lower : String → String) (env : Env) (s : Store) (q : CandidatesQuery) :
    ListResponse Candidate :=
  if shouldError false env.random then
    .error 500 "Server error"
  else
    let search := q.search.getD ""
    let stage := q.stage.getD ""
    let page := orDefault q.page 1
    let pageSize := orDefault q.pageSize 50
    match filterCandidates lower search stage (candidatesToArray s.candidates) with
    | .error message => .error 500 message
    | .ok candidates => .ok (paginate candidates page pageSize)

/-- The query `?search=..&page=..&pageSize=..` with no status and no sort. -/
def searchQuery (search : String) (page pageSize : Int) : JobsQuery :=
  { search := some search, status := none, page := some page, pageSize := some pageSize,
    sort := none }

/-- A read environment in which no failure is injected. -/
def calmRead : Env :=
  { random := 1 / 2, now := 0, date := 0 }

/-- The message of the TypeError raised by
`db.candidateTimeline.where('candidateId').equals(..).orderBy('timestamp')`:
`equals` returns a Dexie Collection, which has the method `sortBy` but no
method `orderBy` (that one belongs to tables). -/
def orderByNotAFunctionMessage : String :=
  "db.candidateTimeline.where(...).equals(...).orderBy is not a function"

/-- The response of `GET /api/candidates/:id/timeline`. -/
inductive TimelineResponse where
  | ok (entries : List TimelineEntry)
  | error (status : Nat) (message : String)
deriving DecidableEq

/-- The handler `rest.get('/api/candidates/:id/timeline')`.  The call of
`orderBy` on the collection throws inside the `try` block, so the `catch`
answers. -/
def getTimeline (env : Env) (_s : Store) (_id : Int) : TimelineResponse :=
  if shouldError false env.random then
    .error 500 "Server error"
  else
    .error 500 orderByNotAFunctionMessage

/-- The entries of one candidate by ascending timestamp (ties by primary key):
the array the query of get-timeline is written to produce. -/
def timelineByTimestamp (entries : List TimelineEntry) (id : Int) : List TimelineEntry :=
  (entries.filter (fun e => e.candidateId == id)).insertionSort
    (fun a b => a.timestamp < b.timestamp ∨ (a.timestamp = b.timestamp ∧ a.id ≤ b.id))

/-! ## Predicates of the filter, in the words of the specification -/

/-- The text `part` occurs in `text` as a substring. -/
def IsSubstring (part text : String) : Prop :=
  ∃ before after : List Char, text.data = before ++ part.data ++ after

/-- A job passes the filters of list-jobs: the search is empty, or the
lower-cased title or some lower-cased tag contains the lower-cased search; and
the status is empty or equals the job's status.  The lower-casing `lower` is
that of the engine. -/
def JobPasses (lower : String → String) (search status : String) (job : Job) : Prop :=
  (search = "" ∨
    (∃ title, job.title = some title ∧ IsSubstring (lower search) (lower title)) ∨
    (∃ tags tag, job.tags = some tags ∧ tag ∈ tags ∧
      IsSubstring (lower search) (lower tag))) ∧
  (status = "" ∨ job.status = some status)

/-- The executable form of `JobPasses`. -/
def jobPasses (lower : String → String) (search status : String) (job : Job) : Bool :=
  (search == "" ||
    (match job.title with
     | some title => includes (lower title) (lower search)
     | none => false) ||
    (match job.tags with
     | some tags => tags.any (fun tag => includes (lower tag) (lower search))
     | none => false)) &&
  (status == "" || job.status == some status)

/-- A candidate passes the filters of list-candidates: the search is empty or
the lower-cased name or email contains the lower-cased search; and the stage
is empty or equals the candidate's stage. -/
def candidatePasses (lower : String → String) (search stage : String)
    (candidate : Candidate) : Bool :=
  (search == "" ||
    (match candidate.name with
     | some name => includes (lower name) (lower search)
     | none => false) ||
    (match candidate.email with
     | some email => includes (lower email) (lower search)
     | none => false)) &&
  (stage == "" || candidate.stage == some stage)

/-- Every job has a title and tags, as every job made by the job form has. -/
def JobsHaveText (jobs : List Job) : Prop :=
  ∀ job ∈ jobs, job.title.isSome = true ∧ job.tags.isSome = true

instance JobsHaveText.decidable (jobs : List Job) : Decidable (JobsHaveText jobs) :=
  inferInstanceAs (Decidable (∀ job ∈ jobs, job.title.isSome = true ∧ job.tags.isSome = true))

/-- Every candidate has a name and an email. -/
def CandidatesHaveText (candidates : List Candidate) : Prop :=
  ∀ c ∈ candidates, c.name.isSome = true ∧ c.email.isSome = true

instance CandidatesHaveText.decidable (candidates : List Candidate) :
    Decidable (CandidatesHaveText candidates) :=
  inferInstanceAs (Decidable (∀ c ∈ candidates, c.name.isSome = true ∧ c.email.isSome = true))

/-! ## Seeded assessments and sequences of upserts -/

/-- The array `seedData.assessments` of `database.js`. -/
def seedAssessments : List Assessment :=
  [ { id := 1, jobId := 1, title := some "Frontend Developer Assessment",
      sections := some
        [ { id := 1, title := "Technical Knowledge",
            questions :=
              [ { id := 1, type := "single-choice",
                  question := "Which React hook is used for side effects?",
                  options := some ["useState", "useEffect", "useMemo", "useCallback"],
                  maxLength := none, min := none, max := none, required := true },
                { id := 2, type := "multi-choice",
                  question := "Select all valid CSS display values:",
                  options := some ["block", "inline", "flex", "grid", "table"],
                  maxLength := none, min := none, max := none, required := true },
                { id := 3, type := "short-text",
                  question := "What is your experience with TypeScript?",
                  options := none, maxLength := some 200, min := none, max := none,
                  required := true } ] },
          { id := 2, title := "Problem Solving",
            questions :=
              [ { id := 4, type := "long-text",
                  question :=
                    "Describe how you would optimize a React application's performance.",
                  options := none, maxLength := some 1000, min := none, max := none,
                  required := true },
                { id := 5, type := "numeric",
                  question := "How many years of React experience do you have?",
                  options := none, maxLength := none, min := some 0, max := some 20,
                  required := true } ] } ],
      createdAt := 1705276800000 },
    { id := 2, jobId := 2, title := some "Full Stack Assessment",
      sections := some
        [ { id := 1, title := "Backend Knowledge",
            questions :=
              [ { id := 1, type := "single-choice",
                  question := "Which is NOT a HTTP method?",
                  options := some ["GET", "POST", "FETCH", "DELETE"],
                  maxLength := none, min := none, max := none, required := true },
                { id := 2, type := "short-text",
                  question := "Explain REST API principles briefly:",
                  options := none, maxLength := some 300, min := none, max := none,
                  required := true } ] } ],
      createdAt := 1705708800000 } ]

/-- One `PUT /api/assessments/:jobId` request. -/
structure UpsertRequest where
  env : Env
  jobId : Int
  data : AssessmentData

/-- The store after a sequence of upsert-assessment requests. -/
def runUpserts (s : Store) (requests : List UpsertRequest) : Store :=
  requests.foldl (fun st r => (upsertAssessment r.env st r.jobId r.data).2) s

/-- No two assessments share a jobId. -/
def DistinctJobIds (assessments : List Assessment) : Prop :=
  (assessments.map (fun a => a.jobId)).Nodup

instance DistinctJobIds.decidable (assessments : List Assessment) :
    Decidable (DistinctJobIds assessments) :=
  inferInstanceAs (Decidable ((assessments.map (fun a : Assessment => a.jobId)).Nodup))

/-- The primary keys of an assessments table are pairwise distinct. -/
def UniqueAssessmentIds (assessments : List Assessment) : Prop :=
  (assessments.map (fun a => a.id)).Nodup

instance UniqueAssessmentIds.decidable (assessments : List Assessment) :
    Decidable (UniqueAssessmentIds assessments) :=
  inferInstanceAs (Decidable ((assessments.map (fun a : Assessment => a.id)).Nodup))

/-- The body of the request carries no jobId, or the jobId of the path. -/
def UpsertRequest.KeepsJobId (r : UpsertRequest) : Prop :=
  r.data.jobId = none ∨ r.data.jobId = some r.jobId

/-- A store holding the seeded jobs and assessments. -/
def seededStore : Store :=
  { jobs := seedJobs, candidates := [], candidateTimeline := [],
    assessments := seedAssessments, assessmentResponses := [] }

/-- An assessment body with a title only. -/
def titledAssessment (title : String) : AssessmentData :=
  { jobId := none, title := some title, sections := none, createdAt := none }

/-- An assessment body that carries a jobId of its own. -/
def assessmentForJob (jobId : Int) : AssessmentData :=
  { jobId := some jobId, title := none, sections := none, createdAt := none }

/-- A candidate of job 1 in the stage `applied`. -/
def sampleCandidate : Candidate :=
  { id := 1, name := some "John Smith", email := some "john.smith1@email.com",
    stage := some "applied", jobId := some 1, notes := none, createdAt := some 1709251200000 }

/-- A store with the seeded jobs, one candidate and the entry of its
application. -/
def candidateStore : Store :=
  { jobs := seedJobs, candidates := [sampleCandidate],
    candidateTimeline :=
      [{ id := 1, candidateId := 1, stage := "applied", timestamp := 1709251200000,
         notes := "Application submitted" }],
    assessments := seedAssessments, assessmentResponses := [] }

/-- An update body with a stage and notes. -/
def stageWithNotes (stage notes : String) : CandidateUpdates :=
  { name := none, email := none, stage := some stage, jobId := none, notes := some notes,
    createdAt := none }

/-- A list of `n` candidates with ids 1 to `n`. -/
def numberedCandidates (n : Nat) : List Candidate :=
  (List.range n).map (fun (i : Nat) =>
    { id := (i : Int) + 1, name := some "Jane Brown", email := some "jane.brown@email.com",
      stage := some "screen", jobId := some 1, notes := none, createdAt := none })

/-- A store whose only records are the given candidates. -/
def storeOfCandidates (candidates : List Candidate) : Store :=
  { jobs := [], candidates := candidates, candidateTimeline := [], assessments := [],
    assessmentResponses := [] }

/-- The record update-candidate passes to `db.candidateTimeline.add` when the
stage of the body is truthy. -/
def stageEntry (env : Env) (s : Store) (id : Int) (updates : CandidateUpdates) : TimelineEntry :=
  { id := Table.nextKey (fun e => e.id) s.candidateTimeline
    candidateId := id
    stage := updates.stage.getD ""
    timestamp := env.date
    notes :=
      if truthy updates.notes then updates.notes.getD ""
      else "Moved to " ++ updates.stage.getD "" ++ " stage" }

/-- The outcome of a test that did not throw; `false` when it threw. -/
def holds {α : Type} (test : α → Except String Bool) (x : α) : Bool :=
  match test x with
  | .ok keep => keep
  | .error _ => false

/-- The `jobs` or `candidates` array of a list response; empty for an error
response. -/
def ListResponse.items {α : Type} : ListResponse α → List α
  | .ok payload => payload.items
  | .error _ _ => []

/-- The query `?page=..&pageSize=..` of list-candidates with no filter. -/
def pageQuery (page pageSize : Int) : CandidatesQuery :=
  { search := none, stage := none, page := some page, pageSize := some pageSize }

/-! ## Seeding the database -/

/-- A number returned by `Math.random()`: at least 0 and below 1. -/
structure Draw where
  value : ℚ
  nonneg : 0 ≤ value
  below : value < 1

/-- The index `Math.floor(Math.random() * n)`. -/
def Draw.index (d : Draw) (n : Nat) : Nat :=
  (Int.floor (d.value * (n : ℚ))).toNat

/-- The array `firstNames` of `generateCandidates`. -/
def firstNames : List String :=
  ["John", "Jane", "Mike", "Sarah", "David", "Emily", "Chris", "Lisa", "Tom", "Anna"]

/-- The array `lastNames` of `generateCandidates`. -/
def lastNames : List String :=
  ["Smith", "Johnson", "Williams", "Brown", "Jones", "Garcia", "Miller", "Davis", "Rodriguez",
   "Martinez"]

/-- The array `stages` of `generateCandidates`: the six stages of a candidate. -/
def stages : List String :=
  ["applied", "screen", "tech", "offer", "hired", "rejected"]

/-- A candidate as `generateCandidates` builds it: every field is present. -/
structure SeedCandidate where
  id : Int
  name : String
  email : String
  stage : String
  jobId : Int
  createdAt : Int
deriving DecidableEq

/-- The record stored for a generated candidate. -/
def SeedCandidate.toCandidate (c : SeedCandidate) : Candidate :=
  { id := c.id, name := some c.name, email := some c.email, stage := some c.stage,
    jobId := some c.jobId, notes := none, createdAt := some c.createdAt }

/-- The candidate pushed in round `i` of the loop of `generateCandidates`.  The
round makes six calls of `Math.random()`, for the first name, the last name,
the job, the stage, the month and the day; `random k` is the `k`-th call of
the run (from 0) and `localDate y m d` is the time of `new Date(y, m, d)` in
the time zone of the browser. -/
def generatedCandidate (random : Nat → Draw) (localDate : Int → Int → Int → Int) (i : Nat) :
    SeedCandidate :=
  let firstName := firstNames.getD ((random (6 * (i - 1))).index firstNames.length) ""
  let lastName := lastNames.getD ((random (6 * (i - 1) + 1)).index lastNames.length) ""
  let jobId : Int := ((random (6 * (i - 1) + 2)).index 5 : Nat) + 1
  let stage := stages.getD ((random (6 * (i - 1) + 3)).index stages.length) ""
  { id := (i : Int)
    name := firstName ++ " " ++ lastName
    email := toLowerCase firstName ++ "." ++ toLowerCase lastName ++ toString i ++ "@email.com"
    stage := stage
    jobId := jobId
    createdAt := localDate 2024 ((random (6 * (i - 1) + 4)).index 12 : Nat)
      (((random (6 * (i - 1) + 5)).index 28 : Nat) + 1) }

/-- The function `generateCandidates` of `database.js`: the candidates of the
rounds 1 to 1000. -/
def generateCandidates (random : Nat → Draw) (localDate : Int → Int → Int → Int) :
    List SeedCandidate :=
  (List.range 1000).map (fun k => generatedCandidate random localDate (k + 1))

/-- The array `stages` of `generateCandidateTimelines`: the stages after
`applied`, in their fixed order. -/
def progression : List String :=
  ["screen", "tech", "offer", "hired", "rejected"]

/-- JavaScript `stages.indexOf(stage)` on `progression`: -1 when absent. -/
def indexOfStage (stage : String) : Int :=
  if stage ∈ progression then (progression.indexOf stage : Nat) else -1

/-- The entries `generateCandidateTimelines` pushes for one candidate when the
counter `timelineId` has the given value; `addDays t n` is the time of the
date `t` after `setDate(getDate() + n)`. -/
def candidateEntries (addDays : Int → Int → Int) (timelineId : Int) (candidate : SeedCandidate) :
    List TimelineEntry :=
  let applied : TimelineEntry :=
    { id := timelineId, candidateId := candidate.id, stage := "applied",
      timestamp := candidate.createdAt, notes := "Application submitted" }
  let currentStageIndex := indexOfStage candidate.stage
  if currentStageIndex ≥ 0 then
    applied :: (List.range (currentStageIndex.toNat + 1)).map (fun (i : Nat) =>
      { id := timelineId + 1 + (i : Int)
        candidateId := candidate.id
        stage := progression.getD i ""
        timestamp := addDays candidate.createdAt (((i : Int) + 1) * 7)
        notes := "Moved to " ++ progression.getD i "" ++ " stage" })
  else [applied]

/-- The loop of `generateCandidateTimelines` from a value of the counter. -/
def generateCandidateTimelinesFrom (addDays : Int → Int → Int) :
    Int → List SeedCandidate → List TimelineEntry
  | _, [] => []
  | timelineId, candidate :: rest =>
    candidateEntries addDays timelineId candidate ++
      generateCandidateTimelinesFrom addDays
        (timelineId + ((candidateEntries addDays timelineId candidate).length : Int)) rest

/-- The function `generateCandidateTimelines` of `database.js`. -/
def generateCandidateTimelines (addDays : Int → Int → Int) (candidates : List SeedCandidate) :
    List TimelineEntry :=
  generateCandidateTimelinesFrom addDays 1 candidates

/-- Dexie `table.bulkAdd(records)` outside a transaction: the records whose
key is not stored yet are added; the flag tells that some key was stored, in
which case the call rejects. -/
def Table.bulkAdd {α : Type} (key : α → Int) (rows records : List α) : List α × Bool :=
  records.foldl
    (fun acc r =>
      if acc.1.any (fun x => key x == key r) then (acc.1, true) else (acc.1 ++ [r], acc.2))
    (rows, false)

/-- The message of the error Dexie raises when a `bulkAdd` met a stored key. -/
def bulkErrorMessage (table : String) : String :=
  table ++ ".bulkAdd(): some operations failed. " ++ constraintErrorMessage

/-- The store `initializeDatabase` leaves, and the message of the error it
rethrows, if any. -/
structure InitOutcome where
  store : Store
  error : Option String
deriving DecidableEq

/-- The function `initializeDatabase` of `database.js`. -/
def initializeDatabase (random : Nat → Draw) (localDate : Int → Int → Int → Int)
    (addDays : Int → Int → Int) (s : Store) : InitOutcome :=
  let jobCount := s.jobs.length
  if jobCount = 0 then
    let jobs := Table.bulkAdd (fun j => j.id) s.jobs seedJobs
    if jobs.2 then { store := { s with jobs := jobs.1 }, error := some (bulkErrorMessage "jobs") }
    else
      let candidates := generateCandidates random localDate
      let stored := Table.bulkAdd (fun c => c.id) s.candidates
        (candidates.map SeedCandidate.toCandidate)
      if stored.2 then
        { store := { s with jobs := jobs.1, candidates := stored.1 },
          error := some (bulkErrorMessage "candidates") }
      else
        let timelines := generateCandidateTimelines addDays candidates
        let entries := Table.bulkAdd (fun e => e.id) s.candidateTimeline timelines
        if entries.2 then
          { store := { s with jobs := jobs.1, candidates := stored.1,
                              candidateTimeline := entries.1 },
            error := some (bulkErrorMessage "candidateTimeline") }
        else
          let assessments := Table.bulkAdd (fun a => a.id) s.assessments seedAssessments
          if assessments.2 then
            { store := { s with jobs := jobs.1, candidates := stored.1,
                                candidateTimeline := entries.1, assessments := assessments.1 },
              error := some (bulkErrorMessage "assessments") }
          else
            { store := { s with jobs := jobs.1, candidates := stored.1,
                                candidateTimeline := entries.1, assessments := assessments.1 },
              error := none }
  else
    { store := s, error := none }

/-- A store with no record. -/
def emptyStore : Store :=
  { jobs := [], candidates := [], candidateTimeline := [], assessments := [],
    assessmentResponses := [] }

/-- The draw 0. -/
def zeroDraw : Draw :=
  { value := 0, nonneg := le_refl 0, below := by norm_num }

/-- The time of `new Date(2024, month, day)` in a browser on UTC. -/
def utcDate (_year month day : Int) : Int :=
  1704067200000 +
    (([0, 31, 60, 91, 121, 152, 182, 213, 244, 274, 305, 335] : List Int).getD month.toNat 0
      + day - 1) * 86400000

/-- The effect of `setDate(getDate() + days)` in a browser on UTC. -/
def utcAddDays (time days : Int) : Int :=
  time + days * 86400000

/-- One `PATCH /api/candidates/:id` request. -/
structure CandidateRequest where
  env : Env
  id : Int
  updates : CandidateUpdates

/-- The store after a sequence of update-candidate requests. -/
def runCandidateUpdates (s : Store) (requests : List CandidateRequest) : Store :=
  requests.foldl (fun st r => (updateCandidate r.env st r.id r.updates).2) s

/-- The stage of every candidate is one of the six stages. -/
def StagesValid (candidates : List Candidate) : Prop :=
  ∀ c ∈ candidates, ∃ v ∈ stages, c.stage = some v

/-- The body of the request carries no stage, or one of the six stages. -/
def CandidateRequest.StageAllowed (r : CandidateRequest) : Prop :=
  r.updates.stage = none ∨ ∃ v ∈ stages, r.updates.stage = some v

/-- The six question types of the assessment builder. -/
def questionTypes : List String :=
  ["single-choice", "multi-choice", "short-text", "long-text", "numeric", "file-upload"]

/-- The types of the questions of a list of assessments. -/
def typesOfQuestions (assessments : List Assessment) : List String :=
  assessments.flatMap (fun a =>
    (a.sections.getD []).flatMap (fun part => part.questions.map (fun q => q.type)))

/-- The stages of `progression` up to and including the given stage; none
when the stage is not among them (as for `applied`). -/
def stagesUpTo (stage : String) : List String :=
  if stage ∈ progression then progression.take (progression.indexOf stage + 1) else []

/-- The candidate id, stage, timestamp and notes of a timeline entry. -/
def TimelineEntry.content (e : TimelineEntry) : Int × String × Int × String :=
  (e.candidateId, e.stage, e.timestamp, e.notes)

/-- A generated candidate of job 3 in the stage `rejected`. -/
def rejectedCandidate : SeedCandidate :=
  { id := 12, name := "Lisa Garcia", email := "lisa.garcia12@email.com", stage := "rejected",
    jobId := 3, createdAt := 1704067200000 }

/-! ## The jobs board: drag and drop, slugs -/

/-- The argument of `handleDragEnd`: the parsed `draggableId`, the index of
the source and the index of the destination (`none` when the drop has no
destination). -/
structure DragResult where
  draggableId : Int
  sourceIndex : Nat
  destIndex : Option Nat

/-- What `handleDragEnd` does when it does not return early: the list it
passes to `setJobs` and the reorder request it sends. -/
structure DragOutcome where
  jobs : List Job
  jobId : Int
  fromOrder : Int
  toOrder : Int
deriving DecidableEq

/-- The function `handleDragEnd` of `JobsBoard.js` up to the request it sends.
`newJobs.splice(sourceIndex, 1)` takes the moved job out and
`newJobs.splice(destIndex, 0, movedJob)` puts it in at the destination.  The
source index is an index of the list (the drag library reports one); for any
other index the model returns `none`. -/
def handleDragEnd (jobs : List Job) (result : DragResult) : Option DragOutcome :=
  match result.destIndex with
  | none => none
  | some destIndex =>
    if result.sourceIndex = destIndex then none
    else
      match jobs[result.sourceIndex]? with
      | none => none
      | some movedJob =>
        let removed := jobs.take result.sourceIndex ++ jobs.drop (result.sourceIndex + 1)
        let newJobs := removed.take destIndex ++ movedJob :: removed.drop destIndex
        some { jobs := newJobs, jobId := result.draggableId, fromOrder := movedJob.order,
               toOrder := (destIndex : Int) + 1 }

/-- The characters the class `\s` of a JavaScript regular expression matches,
which are also the characters `trim` removes. -/
def isJsWhitespace (c : Char) : Bool :=
  c.toNat == 9 || c.toNat == 10 || c.toNat == 11 || c.toNat == 12 || c.toNat == 13 ||
  c.toNat == 32 || c.toNat == 160 || c.toNat == 5760 ||
  (decide (8192 ≤ c.toNat) && decide (c.toNat ≤ 8202)) ||
  c.toNat == 8232 || c.toNat == 8233 || c.toNat == 8239 || c.toNat == 8287 ||
  c.toNat == 12288 || c.toNat == 65279

/-- A lowercase ASCII letter, a digit or a hyphen: the class `[a-z0-9-]`. -/
def isSlugChar (c : Char) : Bool :=
  (decide (97 ≤ c.toNat) && decide (c.toNat ≤ 122)) ||
  (decide (48 ≤ c.toNat) && decide (c.toNat ≤ 57)) || c.toNat == 45

/-- The characters the class `[a-z0-9\s-]` matches. -/
def isSlugSource (c : Char) : Bool :=
  isSlugChar c || isJsWhitespace c

/-- The hyphen. -/
def isHyphen (c : Char) : Bool :=
  c.toNat == 45

/-- JavaScript `text.replace(/X+/g, '-')` for a character class X: every
maximal run of characters of the class becomes one hyphen.  The flag tells
that the character before belonged to a run. -/
def collapseRuns (inClass : Char → Bool) : Bool → List Char → List Char
  | _, [] => []
  | inRun, c :: rest =>
    if inClass c then
      (if inRun then collapseRuns inClass true rest else '-' :: collapseRuns inClass true rest)
    else c :: collapseRuns inClass false rest

/-- JavaScript `text.trim()`. -/
def jsTrim (chars : List Char) : List Char :=
  ((chars.dropWhile isJsWhitespace).reverse.dropWhile isJsWhitespace).reverse

/-- The four steps of `generateSlug` after `toLowerCase`: the characters
outside `[a-z0-9\s-]` are removed, every run of whitespace becomes a hyphen,
every run of hyphens becomes one hyphen, and the result is trimmed. -/
def slugOfLowered (lowered : String) : String :=
  String.mk (jsTrim (collapseRuns isHyphen false
    (collapseRuns isJsWhitespace false (lowered.data.filter isSlugSource))))

/-- The function `generateSlug` of `JobModal.js`, with the lower-casing of
ASCII letters; `slugOfLowered` is the rest of the function, on whatever text
the engine's `toLowerCase` returns. -/
def generateSlug (title : String) : String :=
  slugOfLowered (toLowerCase title)

/-- A text made of lowercase ASCII letters, digits and hyphens only, with no
two hyphens next to each other. -/
def SlugShaped (text : String) : Prop :=
  (∀ c ∈ text.data, isSlugChar c = true) ∧
  text.data.Chain' (fun a b => ¬ (isHyphen a = true ∧ isHyphen b = true))

/-! ## Auxiliary facts -/

theorem shouldError_calmEnv (now : Int) : shouldError true (calmEnv now).random = false := by
  norm_num [shouldError, calmEnv]

theorem shouldError_failingEnv (now : Int) : shouldError true (failingEnv now).random = true := by
  norm_num [shouldError, failingEnv]

theorem mem_orderByOrder (jobs : List Job) (j : Job) : j ∈ orderByOrder jobs ↔ j ∈ jobs :=
  (List.perm_insertionSort Job.orderLE jobs).mem_iff

theorem find_orderByOrder_isSome (jobs : List Job) (id : Int) :
    ((orderByOrder jobs).find? (fun j => j.id == id)).isSome = true ↔ ∃ j ∈ jobs, j.id = id := by
  rw [List.find?_isSome]
  constructor
  · rintro ⟨x, hx, hid⟩
    exact ⟨x, (mem_orderByOrder jobs x).1 hx, by simpa using hid⟩
  · rintro ⟨x, hx, hid⟩
    exact ⟨x, (mem_orderByOrder jobs x).2 hx, by simpa using hid⟩

theorem reorder_lists_eq (jobs : List Job) (id fromOrder toOrder : Int) :
    Table.update (fun j => j.id)
      (if fromOrder < toOrder then
          Table.modifyWhere (fun j => decide (fromOrder + 1 ≤ j.order ∧ j.order ≤ toOrder))
            (fun job => { job with order := job.order - 1 }) jobs
        else
          Table.modifyWhere (fun j => decide (toOrder ≤ j.order ∧ j.order ≤ fromOrder - 1))
            (fun job => { job with order := job.order + 1 }) jobs) id
      (fun job => { job with order := toOrder })
    = jobs.map (reorderRecord id fromOrder toOrder) := by
  unfold Table.update Table.modifyWhere reorderRecord
  split_ifs with h <;> simp only [List.map_map] <;> apply List.map_congr_left <;> intro a _ <;>
    simp only [Function.comp]

/-- A reorder request that passes the failure injection and names a stored job
succeeds and maps `reorderRecord` over the jobs. -/
theorem reorderJob_of_found (env : Env) (s : Store) (id fromOrder toOrder : Int)
    (hE : shouldError true env.random = false) (hj : ∃ j ∈ s.jobs, j.id = id) :
    reorderJob env s id fromOrder toOrder =
      (⟨200, .success⟩, { s with jobs := s.jobs.map (reorderRecord id fromOrder toOrder) }) := by
  have hsome := (find_orderByOrder_isSome s.jobs id).2 hj
  obtain ⟨x, hx⟩ := Option.isSome_iff_exists.1 hsome
  simp only [reorderJob, hE, hx, Bool.false_eq_true, if_false, reorder_lists_eq]

/-- A reorder request that passes the failure injection and names no stored job
is answered 404 and changes nothing. -/
theorem reorderJob_of_absent (env : Env) (s : Store) (id fromOrder toOrder : Int)
    (hE : shouldError true env.random = false) (hj : ∀ j ∈ s.jobs, j.id ≠ id) :
    reorderJob env s id fromOrder toOrder = (⟨404, .error "Job not found"⟩, s) := by
  have hnone : (orderByOrder s.jobs).find? (fun j => j.id == id) = none := by
    rw [List.find?_eq_none]
    intro x hx
    simpa using hj x ((mem_orderByOrder s.jobs x).1 hx)
  simp only [reorderJob, hE, hnone, Bool.false_eq_true, if_false]

theorem reorderJob_of_fail (env : Env) (s : Store) (id fromOrder toOrder : Int)
    (hE : shouldError true env.random = true) :
    reorderJob env s id fromOrder toOrder = (⟨500, .error "Reorder failed"⟩, s) := by
  simp only [reorderJob, hE, if_true]

/-! ## The dense ordering -/

theorem mem_oneTo (n : Nat) (o : Int) : o ∈ oneTo n ↔ 1 ≤ o ∧ o ≤ n := by
  unfold oneTo
  simp only [List.mem_map, List.mem_range]
  constructor
  · rintro ⟨i, hi, rfl⟩
    omega
  · rintro ⟨h1, h2⟩
    exact ⟨(o - 1).toNat, by omega, by omega⟩

theorem nodup_oneTo (n : Nat) : (oneTo n).Nodup := by
  unfold oneTo
  apply List.Nodup.map_on _ (List.nodup_range n)
  intro x _ y _ h
  omega

theorem length_oneTo (n : Nat) : (oneTo n).length = n := by
  simp [oneTo]

/-- The orders are a rearrangement of 1..N exactly when they are pairwise
distinct and all lie between 1 and N. -/
theorem denseOrders_iff (jobs : List Job) :
    DenseOrders jobs ↔
      (jobs.map (fun j => j.order)).Nodup ∧ ∀ j ∈ jobs, 1 ≤ j.order ∧ j.order ≤ jobs.length := by
  unfold DenseOrders
  constructor
  · intro h
    refine ⟨h.nodup_iff.2 (nodup_oneTo _), ?_⟩
    intro j hj
    exact (mem_oneTo _ _).1 (h.mem_iff.1 (List.mem_map_of_mem _ hj))
  · rintro ⟨hn, hb⟩
    apply List.Subperm.perm_of_length_le
    · apply List.subperm_of_subset hn
      intro o ho
      obtain ⟨j, hj, rfl⟩ := List.mem_map.1 ho
      exact (mem_oneTo _ _).2 (hb j hj)
    · simp [length_oneTo]

theorem reorderRecord_order (id fromOrder toOrder : Int) (j : Job) :
    (reorderRecord id fromOrder toOrder j).order =
      if j.id = id then toOrder
      else if fromOrder < toOrder then
        (if fromOrder + 1 ≤ j.order ∧ j.order ≤ toOrder then j.order - 1 else j.order)
      else (if toOrder ≤ j.order ∧ j.order ≤ fromOrder - 1 then j.order + 1 else j.order) := by
  unfold reorderRecord
  by_cases hid : j.id = id <;> by_cases h : fromOrder < toOrder <;>
    by_cases h1 : fromOrder + 1 ≤ j.order ∧ j.order ≤ toOrder <;>
    by_cases h2 : toOrder ≤ j.order ∧ j.order ≤ fromOrder - 1 <;>
    simp [hid, h, h1, h2]

theorem reorderRecord_frame (id fromOrder toOrder : Int) (j : Job) :
    { reorderRecord id fromOrder toOrder j with order := j.order } = j := by
  unfold reorderRecord
  obtain ⟨jid, jtitle, jslug, jstatus, jtags, jorder, jcreated⟩ := j
  by_cases h : fromOrder < toOrder <;>
    by_cases h1 : fromOrder + 1 ≤ jorder ∧ jorder ≤ toOrder <;>
    by_cases h2 : toOrder ≤ jorder ∧ jorder ≤ fromOrder - 1 <;>
    by_cases hid : jid = id <;>
    simp [hid, h, h1, h2]

theorem reorderRecord_id (id fromOrder toOrder : Int) (j : Job) :
    (reorderRecord id fromOrder toOrder j).id = j.id := by
  have h := congrArg Job.id (reorderRecord_frame id fromOrder toOrder j)
  simpa using h

/-- In a table with distinct keys and distinct orders, the job with a given id
is the only job at its order. -/
theorem id_eq_iff_order_eq (jobs : List Job) (hu : UniqueIds jobs)
    (hn : (jobs.map (fun j => j.order)).Nodup) (j x : Job) (hj : j ∈ jobs) (hx : x ∈ jobs) :
    x.id = j.id ↔ x.order = j.order := by
  constructor
  · intro h
    have := List.inj_on_of_nodup_map hu hx hj h
    rw [this]
  · intro h
    have := List.inj_on_of_nodup_map hn hx hj h
    rw [this]

/-- A valid move keeps the orders dense. -/
theorem denseOrders_map_reorderRecord (jobs : List Job) (id fromOrder toOrder : Int)
    (hu : UniqueIds jobs) (hd : DenseOrders jobs)
    (hj : ∃ j ∈ jobs, j.id = id ∧ j.order = fromOrder)
    (h1 : 1 ≤ toOrder) (h2 : toOrder ≤ jobs.length) :
    DenseOrders (jobs.map (reorderRecord id fromOrder toOrder)) := by
  obtain ⟨j, hj, hid, hord⟩ := hj
  obtain ⟨hn, hb⟩ := (denseOrders_iff jobs).1 hd
  have key : ∀ x ∈ jobs, (x.id = id ↔ x.order = fromOrder) := by
    intro x hx
    rw [← hid, ← hord]
    exact id_eq_iff_order_eq jobs hu hn j x hj hx
  have hjb := hb j hj
  rw [denseOrders_iff]
  refine ⟨?_, ?_⟩
  · rw [List.map_map]
    refine List.Nodup.map_on ?_ (List.Nodup.of_map _ hn)
    · intro x hx y hy hxy
      simp only [Function.comp, reorderRecord_order] at hxy
      have kx := key x hx
      have ky := key y hy
      have hxb := hb x hx
      have hyb := hb y hy
      have : x.order = y.order := by
        split_ifs at hxy <;> omega
      exact List.inj_on_of_nodup_map hn hx hy this
  · intro y hy
    obtain ⟨x, hx, rfl⟩ := List.mem_map.1 hy
    have kx := key x hx
    have hxb := hb x hx
    rw [reorderRecord_order, List.length_map]
    split_ifs <;> omega

theorem reorderJob_snd_cases (env : Env) (s : Store) (id fromOrder toOrder : Int) :
    (reorderJob env s id fromOrder toOrder).2 = s ∨
    (reorderJob env s id fromOrder toOrder).2 =
      { s with jobs := s.jobs.map (reorderRecord id fromOrder toOrder) } := by
  cases hE : shouldError true env.random
  · by_cases hj : ∃ j ∈ s.jobs, j.id = id
    · right
      rw [reorderJob_of_found env s id fromOrder toOrder hE hj]
    · left
      rw [reorderJob_of_absent env s id fromOrder toOrder hE (by simpa using hj)]
  · left
    rw [reorderJob_of_fail env s id fromOrder toOrder hE]

/-! ## The reorder handler -/

/-- C1: on a jobs table whose orders are exactly 1..N, a reorder request that
names a stored job, gives that job's current order as `fromOrder` and a
`toOrder` between 1 and N leaves the orders exactly 1..N; and the request
succeeds whenever no failure is injected. -/
theorem reorderJob_keeps_dense (env : Env) (s : Store) (id fromOrder toOrder : Int)
    (hu : UniqueIds s.jobs) (hd : DenseOrders s.jobs)
    (hj : ∃ j ∈ s.jobs, j.id = id ∧ j.order = fromOrder)
    (h1 : 1 ≤ toOrder) (h2 : toOrder ≤ s.jobs.length) :
    DenseOrders (reorderJob env s id fromOrder toOrder).2.jobs ∧
    (shouldError true env.random = false →
      (reorderJob env s id fromOrder toOrder).1 = ⟨200, .success⟩) := by
  constructor
  · rcases reorderJob_snd_cases env s id fromOrder toOrder with h | h
    · rw [h]
      exact hd
    · rw [h]
      exact denseOrders_map_reorderRecord s.jobs id fromOrder toOrder hu hd hj h1 h2
  · intro hE
    obtain ⟨j, hj, hid, _⟩ := hj
    rw [reorderJob_of_found env s id fromOrder toOrder hE ⟨j, hj, hid⟩]

theorem reorderJob_keeps_dense_witness :
    DenseOrders (reorderJob (calmEnv 7) (storeOfJobs seedJobs) 2 2 5).2.jobs ∧
    (shouldError true (calmEnv 7).random = false →
      (reorderJob (calmEnv 7) (storeOfJobs seedJobs) 2 2 5).1 = ⟨200, .success⟩) :=
  reorderJob_keeps_dense (calmEnv 7) (storeOfJobs seedJobs) 2 2 5 (by decide) (by decide)
    (by decide) (by decide) (by decide)

/-- C3: a reorder request that passes the failure injection, names a stored job
and moves it later (`fromOrder < toOrder`, `fromOrder` its current order)
succeeds; every other job whose order was in `(fromOrder, toOrder]` ends one
lower, every job whose order was outside `[fromOrder, toOrder]` keeps its
order, and the moved job ends at `toOrder`. -/
theorem reorderJob_moving_later (env : Env) (s : Store) (id fromOrder toOrder : Int)
    (hE : shouldError true env.random = false) (hu : UniqueIds s.jobs)
    (hj : ∃ j ∈ s.jobs, j.id = id ∧ j.order = fromOrder)
    (hlt : fromOrder < toOrder) :
    (reorderJob env s id fromOrder toOrder).1 = ⟨200, .success⟩ ∧
    (reorderJob env s id fromOrder toOrder).2.jobs.length = s.jobs.length ∧
    ∀ (i : Nat) (x : Job), s.jobs[i]? = some x →
      ∃ y, (reorderJob env s id fromOrder toOrder).2.jobs[i]? = some y ∧ y.id = x.id ∧
        (x.id = id → y.order = toOrder) ∧
        (x.id ≠ id → fromOrder < x.order ∧ x.order ≤ toOrder → y.order = x.order - 1) ∧
        (x.order < fromOrder ∨ toOrder < x.order → y.order = x.order) := by
  obtain ⟨j, hj, hid, hord⟩ := hj
  rw [reorderJob_of_found env s id fromOrder toOrder hE ⟨j, hj, hid⟩]
  refine ⟨rfl, by simp, ?_⟩
  intro i x hx
  refine ⟨reorderRecord id fromOrder toOrder x, by simp [hx], ?_, ?_, ?_, ?_⟩
  · exact reorderRecord_id id fromOrder toOrder x
  · intro h
    rw [reorderRecord_order, if_pos h]
  · intro hne hin
    rw [reorderRecord_order, if_neg hne, if_pos hlt, if_pos ⟨by omega, hin.2⟩]
  · intro hout
    have hx' : x ∈ s.jobs := List.getElem?_mem hx
    have hne : x.id ≠ id := by
      intro h
      have : x = j := List.inj_on_of_nodup_map hu hx' hj (h.trans hid.symm)
      rw [this] at hout
      omega
    rw [reorderRecord_order, if_neg hne, if_pos hlt, if_neg (by omega)]

theorem reorderJob_moving_later_witness :
    (reorderJob (calmEnv 7) (storeOfJobs seedJobs) 2 2 4).1 = ⟨200, .success⟩ ∧
    (reorderJob (calmEnv 7) (storeOfJobs seedJobs) 2 2 4).2.jobs.length
      = (storeOfJobs seedJobs).jobs.length ∧
    ∀ (i : Nat) (x : Job), (storeOfJobs seedJobs).jobs[i]? = some x →
      ∃ y, (reorderJob (calmEnv 7) (storeOfJobs seedJobs) 2 2 4).2.jobs[i]? = some y ∧
        y.id = x.id ∧
        (x.id = 2 → y.order = 4) ∧
        (x.id ≠ 2 → 2 < x.order ∧ x.order ≤ 4 → y.order = x.order - 1) ∧
        (x.order < 2 ∨ 4 < x.order → y.order = x.order) :=
  reorderJob_moving_later (calmEnv 7) (storeOfJobs seedJobs) 2 2 4 (shouldError_calmEnv 7)
    (by decide) (by decide) (by decide)

/-- C4: a reorder request that passes the failure injection, names a stored job
and moves it earlier (`fromOrder > toOrder`, `fromOrder` its current order)
succeeds; every other job whose order was in `[toOrder, fromOrder)` ends one
higher, every job whose order was outside `[toOrder, fromOrder]` keeps its
order, and the moved job ends at `toOrder`.  In particular, from 3 to 1 the
jobs at 1 and 2 end at 2 and 3, the jobs at 4 and 5 stay and the moved job
ends at 1. -/
theorem reorderJob_moving_earlier (env : Env) (s : Store) (id fromOrder toOrder : Int)
    (hE : shouldError true env.random = false) (hu : UniqueIds s.jobs)
    (hj : ∃ j ∈ s.jobs, j.id = id ∧ j.order = fromOrder)
    (hgt : toOrder < fromOrder) :
    (reorderJob env s id fromOrder toOrder).1 = ⟨200, .success⟩ ∧
    (reorderJob env s id fromOrder toOrder).2.jobs.length = s.jobs.length ∧
    (∀ (i : Nat) (x : Job), s.jobs[i]? = some x →
      ∃ y, (reorderJob env s id fromOrder toOrder).2.jobs[i]? = some y ∧ y.id = x.id ∧
        (x.id = id → y.order = toOrder) ∧
        (x.id ≠ id → toOrder ≤ x.order ∧ x.order < fromOrder → y.order = x.order + 1) ∧
        (x.order < toOrder ∨ fromOrder < x.order → y.order = x.order)) ∧
    (fromOrder = 3 → toOrder = 1 → ∀ (i : Nat) (x : Job), s.jobs[i]? = some x →
      ∃ y, (reorderJob env s id fromOrder toOrder).2.jobs[i]? = some y ∧
        (x.id = id → y.order = 1) ∧ (x.order = 1 → y.order = 2) ∧ (x.order = 2 → y.order = 3) ∧
        (x.order = 4 → y.order = 4) ∧ (x.order = 5 → y.order = 5)) := by
  obtain ⟨j, hj, hid, hord⟩ := hj
  have hother : ∀ x ∈ s.jobs, x.order ≠ fromOrder → x.id ≠ id := by
    intro x hx hne h
    have : x = j := List.inj_on_of_nodup_map hu hx hj (h.trans hid.symm)
    rw [this] at hne
    exact hne hord
  rw [reorderJob_of_found env s id fromOrder toOrder hE ⟨j, hj, hid⟩]
  refine ⟨rfl, by simp, ?_, ?_⟩
  · intro i x hx
    have hx' : x ∈ s.jobs := List.getElem?_mem hx
    refine ⟨reorderRecord id fromOrder toOrder x, by simp [hx],
      reorderRecord_id id fromOrder toOrder x, ?_, ?_, ?_⟩
    · intro h
      rw [reorderRecord_order, if_pos h]
    · intro hne hin
      rw [reorderRecord_order, if_neg hne, if_neg (by omega), if_pos ⟨hin.1, by omega⟩]
    · intro hout
      rw [reorderRecord_order, if_neg (hother x hx' (by omega)), if_neg (by omega),
        if_neg (by omega)]
  · intro hf ht i x hx
    have hx' : x ∈ s.jobs := List.getElem?_mem hx
    subst hf ht
    refine ⟨reorderRecord id 3 1 x, by simp [hx], ?_, ?_, ?_, ?_, ?_⟩
    · intro h
      rw [reorderRecord_order, if_pos h]
    · intro h
      rw [reorderRecord_order, if_neg (hother x hx' (by omega)), if_neg (by omega),
        if_pos (by omega)]
      omega
    · intro h
      rw [reorderRecord_order, if_neg (hother x hx' (by omega)), if_neg (by omega),
        if_pos (by omega)]
      omega
    · intro h
      rw [reorderRecord_order, if_neg (hother x hx' (by omega)), if_neg (by omega),
        if_neg (by omega)]
      omega
    · intro h
      rw [reorderRecord_order, if_neg (hother x hx' (by omega)), if_neg (by omega),
        if_neg (by omega)]
      omega

theorem reorderJob_moving_earlier_witness :
    ((reorderJob (calmEnv 7) (storeOfJobs seedJobs) 3 3 1).1 = ⟨200, .success⟩ ∧
    (reorderJob (calmEnv 7) (storeOfJobs seedJobs) 3 3 1).2.jobs.length
      = (storeOfJobs seedJobs).jobs.length ∧
    (∀ (i : Nat) (x : Job), (storeOfJobs seedJobs).jobs[i]? = some x →
      ∃ y, (reorderJob (calmEnv 7) (storeOfJobs seedJobs) 3 3 1).2.jobs[i]? = some y ∧
        y.id = x.id ∧
        (x.id = 3 → y.order = 1) ∧
        (x.id ≠ 3 → (1 : Int) ≤ x.order ∧ x.order < 3 → y.order = x.order + 1) ∧
        (x.order < 1 ∨ 3 < x.order → y.order = x.order)) ∧
    ((3 : Int) = 3 → (1 : Int) = 1 → ∀ (i : Nat) (x : Job), (storeOfJobs seedJobs).jobs[i]? = some x →
      ∃ y, (reorderJob (calmEnv 7) (storeOfJobs seedJobs) 3 3 1).2.jobs[i]? = some y ∧
        (x.id = 3 → y.order = 1) ∧ (x.order = 1 → y.order = 2) ∧ (x.order = 2 → y.order = 3) ∧
        (x.order = 4 → y.order = 4) ∧ (x.order = 5 → y.order = 5))) ∧
    (reorderJob (calmEnv 7) (storeOfJobs seedJobs) 3 3 1).2.jobs.map (fun j => (j.id, j.order))
      = [(1, 2), (2, 3), (3, 1), (4, 4), (5, 5)] :=
  ⟨reorderJob_moving_earlier (calmEnv 7) (storeOfJobs seedJobs) 3 3 1 (shouldError_calmEnv 7)
    (by decide) (by decide) (by decide),
   by rw [reorderJob_of_found (calmEnv 7) (storeOfJobs seedJobs) 3 3 1 (shouldError_calmEnv 7)
        (by decide)]; decide⟩

/-- C5: for a stored job whose current order is `k`, a reorder request with
`fromOrder = toOrder = k` leaves every job record (so every order) unchanged,
and it succeeds whenever no failure is injected. -/
theorem reorderJob_same_position (env : Env) (s : Store) (id k : Int)
    (hu : UniqueIds s.jobs) (hj : ∃ j ∈ s.jobs, j.id = id ∧ j.order = k) :
    (reorderJob env s id k k).2 = s ∧
    (reorderJob env s id k k).2.jobs.map (fun j => j.order) = s.jobs.map (fun j => j.order) ∧
    (shouldError true env.random = false → (reorderJob env s id k k).1 = ⟨200, .success⟩) := by
  obtain ⟨j, hj, hid, hord⟩ := hj
  have hfix : ∀ x ∈ s.jobs, reorderRecord id k k x = x := by
    intro x hx
    have hframe := reorderRecord_frame id k k x
    have horder : (reorderRecord id k k x).order = x.order := by
      rw [reorderRecord_order]
      by_cases h : x.id = id
      · have : x = j := List.inj_on_of_nodup_map hu hx hj (h.trans hid.symm)
        rw [if_pos h, this, hord]
      · rw [if_neg h, if_neg (by omega), if_neg (by omega)]
    rw [← horder] at hframe
    exact hframe
  have hmap : s.jobs.map (reorderRecord id k k) = s.jobs := by
    conv_rhs => rw [← List.map_id s.jobs]
    exact List.map_congr_left hfix
  have hsame : (reorderJob env s id k k).2 = s := by
    rcases reorderJob_snd_cases env s id k k with h | h
    · exact h
    · rw [h, hmap]
  refine ⟨hsame, by rw [hsame], ?_⟩
  intro hE
  rw [reorderJob_of_found env s id k k hE ⟨j, hj, hid⟩]

theorem reorderJob_same_position_witness :
    (reorderJob (calmEnv 7) (storeOfJobs seedJobs) 1 1 1).2 = storeOfJobs seedJobs ∧
    (reorderJob (calmEnv 7) (storeOfJobs seedJobs) 1 1 1).2.jobs.map (fun j => j.order)
      = (storeOfJobs seedJobs).jobs.map (fun j => j.order) ∧
    (shouldError true (calmEnv 7).random = false →
      (reorderJob (calmEnv 7) (storeOfJobs seedJobs) 1 1 1).1 = ⟨200, .success⟩) :=
  reorderJob_same_position (calmEnv 7) (storeOfJobs seedJobs) 1 1 (by decide) (by decide)

/-- C7: whatever the request, the reorder handler changes no field of a job
other than `order` (id, title, slug, status, tags and createdAt stay), neither
adds nor removes a job, and leaves the other four collections alone. -/
theorem reorderJob_changes_only_order (env : Env) (s : Store) (id fromOrder toOrder : Int) :
    (reorderJob env s id fromOrder toOrder).2.jobs.length = s.jobs.length ∧
    (∀ (i : Nat) (x : Job), s.jobs[i]? = some x →
      ∃ y, (reorderJob env s id fromOrder toOrder).2.jobs[i]? = some y ∧
        y.id = x.id ∧ y.title = x.title ∧ y.slug = x.slug ∧ y.status = x.status ∧
        y.tags = x.tags ∧ y.createdAt = x.createdAt) ∧
    (∀ (i : Nat) (y : Job), (reorderJob env s id fromOrder toOrder).2.jobs[i]? = some y →
      ∃ x, s.jobs[i]? = some x ∧ { y with order := x.order } = x) ∧
    (reorderJob env s id fromOrder toOrder).2.candidates = s.candidates ∧
    (reorderJob env s id fromOrder toOrder).2.candidateTimeline = s.candidateTimeline ∧
    (reorderJob env s id fromOrder toOrder).2.assessments = s.assessments ∧
    (reorderJob env s id fromOrder toOrder).2.assessmentResponses = s.assessmentResponses := by
  rcases reorderJob_snd_cases env s id fromOrder toOrder with h | h
  · rw [h]
    refine ⟨rfl, ?_, ?_, rfl, rfl, rfl, rfl⟩
    · intro i x hx
      exact ⟨x, hx, rfl, rfl, rfl, rfl, rfl, rfl⟩
    · intro i y hy
      exact ⟨y, hy, rfl⟩
  · rw [h]
    refine ⟨by simp, ?_, ?_, rfl, rfl, rfl, rfl⟩
    · intro i x hx
      have hf := reorderRecord_frame id fromOrder toOrder x
      refine ⟨reorderRecord id fromOrder toOrder x, by simp [hx], ?_, ?_, ?_, ?_, ?_, ?_⟩
      · simpa using congrArg Job.id hf
      · simpa using congrArg Job.title hf
      · simpa using congrArg Job.slug hf
      · simpa using congrArg Job.status hf
      · simpa using congrArg Job.tags hf
      · simpa using congrArg Job.createdAt hf
    · intro i y hy
      simp only [List.getElem?_map, Option.map_eq_some'] at hy
      obtain ⟨x, hx, rfl⟩ := hy
      exact ⟨x, hx, reorderRecord_frame id fromOrder toOrder x⟩

/-- C6 (as stated, refuted): job 1 of the seeded jobs is at order 1, so no job
with id 1 is located at order 3; yet the request to move job 1 from 3 to 5 is
answered with success and the job records change. -/
theorem reorderJob_ignores_fromOrder :
    (¬ ∃ j ∈ (storeOfJobs seedJobs).jobs, j.id = 1 ∧ j.order = 3) ∧
    (reorderJob (calmEnv 7) (storeOfJobs seedJobs) 1 3 5).1 = ⟨200, .success⟩ ∧
    (reorderJob (calmEnv 7) (storeOfJobs seedJobs) 1 3 5).2 ≠ storeOfJobs seedJobs ∧
    (reorderJob (calmEnv 7) (storeOfJobs seedJobs) 1 3 5).2.jobs.map (fun j => (j.id, j.order))
      = [(1, 5), (2, 2), (3, 3), (4, 3), (5, 4)] := by
  rw [reorderJob_of_found (calmEnv 7) (storeOfJobs seedJobs) 1 3 5 (shouldError_calmEnv 7)
    (by decide)]
  decide

/-- C6 (amended): a reorder request that passes the failure injection and whose
id matches no stored job is answered 404 "Job not found" and leaves the store
unchanged. -/
theorem reorderJob_unknown_id_notFound (env : Env) (s : Store) (id fromOrder toOrder : Int)
    (hE : shouldError true env.random = false) (hj : ∀ j ∈ s.jobs, j.id ≠ id) :
    reorderJob env s id fromOrder toOrder = (⟨404, .error "Job not found"⟩, s) := by
  have hnone : (orderByOrder s.jobs).find? (fun j => j.id == id) = none := by
    rw [List.find?_eq_none]
    intro x hx
    simpa using hj x ((mem_orderByOrder s.jobs x).1 hx)
  simp only [reorderJob, hE, hnone, Bool.false_eq_true, if_false]

theorem reorderJob_unknown_id_notFound_witness :
    reorderJob (calmEnv 7) (storeOfJobs seedJobs) 42 1 2
      = (⟨404, .error "Job not found"⟩, storeOfJobs seedJobs) :=
  reorderJob_unknown_id_notFound (calmEnv 7) (storeOfJobs seedJobs) 42 1 2
    (shouldError_calmEnv 7) (by decide)

/-! ## Failure injection -/

/-- C9: when the failure decision of `shouldError(true)` is true, each of the six
write handlers answers 500 with its error message and returns the store as it
was, so all five collections are unchanged and a later `get` of any id returns
the record stored before the call. -/
theorem injected_failure_changes_nothing (env : Env) (s : Store)
    (hE : shouldError true env.random = true) :
    (∀ jobData, createJob env s jobData = (⟨500, .error "Failed to create job"⟩, s)) ∧
    (∀ id updates, updateJob env s id updates = (⟨500, .error "Failed to update job"⟩, s)) ∧
    (∀ id fromOrder toOrder,
      reorderJob env s id fromOrder toOrder = (⟨500, .error "Reorder failed"⟩, s)) ∧
    (∀ id updates,
      updateCandidate env s id updates = (⟨500, .error "Failed to update candidate"⟩, s)) ∧
    (∀ jobId data,
      upsertAssessment env s jobId data = (⟨500, .error "Failed to save assessment"⟩, s)) ∧
    (∀ jobId data,
      submitAssessment env s jobId data = (⟨500, .error "Failed to submit assessment"⟩, s)) ∧
    (∀ id updates k, Table.get (fun j => j.id) (updateJob env s id updates).2.jobs k
      = Table.get (fun j => j.id) s.jobs k) ∧
    (∀ id updates k, Table.get (fun c => c.id) (updateCandidate env s id updates).2.candidates k
      = Table.get (fun c => c.id) s.candidates k) ∧
    (∀ jobId data k, Table.get (fun a => a.id) (upsertAssessment env s jobId data).2.assessments k
      = Table.get (fun a => a.id) s.assessments k) := by
  refine ⟨?_, ?_, ?_, ?_, ?_, ?_, ?_, ?_, ?_⟩
  · intro jobData
    simp only [createJob, hE, if_true]
  · intro id updates
    simp only [updateJob, hE, if_true]
  · intro id fromOrder toOrder
    simp only [reorderJob, hE, if_true]
  · intro id updates
    simp only [updateCandidate, hE, if_true]
  · intro jobId data
    simp only [upsertAssessment, hE, if_true]
  · intro jobId data
    simp only [submitAssessment, hE, if_true]
  · intro id updates k
    simp only [updateJob, hE, if_true]
  · intro id updates k
    simp only [updateCandidate, hE, if_true]
  · intro jobId data k
    simp only [upsertAssessment, hE, if_true]

theorem injected_failure_changes_nothing_witness :
    updateJob (failingEnv 7) (storeOfJobs seedJobs) 4 (statusOnly "active")
      = (⟨500, .error "Failed to update job"⟩, storeOfJobs seedJobs) ∧
    (Table.get (fun j => j.id)
        (updateJob (failingEnv 7) (storeOfJobs seedJobs) 4 (statusOnly "active")).2.jobs 4).map
      (fun j => j.status) = some (some "archived") :=
  ⟨(injected_failure_changes_nothing (failingEnv 7) (storeOfJobs seedJobs)
      (shouldError_failingEnv 7)).2.1 4 (statusOnly "active"),
   by rw [(injected_failure_changes_nothing (failingEnv 7) (storeOfJobs seedJobs)
      (shouldError_failingEnv 7)).2.1 4 (statusOnly "active")]; decide⟩

/-! ## Updates of an id that is not stored -/

/-- C10 (the code at the failing input): an update-job or update-candidate
request that passes the failure injection and names an id with no record is
answered with status 200 and an empty payload, not with NotFound. -/
theorem update_unknown_id_answers_200 (env : Env) (s : Store) (id : Int)
    (hE : shouldError true env.random = false) :
    (∀ updates, (∀ j ∈ s.jobs, j.id ≠ id) →
      updateJob env s id updates = (⟨200, .job none⟩, s)) ∧
    (∀ updates, (∀ c ∈ s.candidates, c.id ≠ id) →
      (updateCandidate env s id updates).1 = ⟨200, .candidate none⟩ ∧
      (updateCandidate env s id updates).2.candidates = s.candidates) := by
  have hmapJ : ∀ updates, (∀ j ∈ s.jobs, j.id ≠ id) →
      Table.update (fun j => j.id) s.jobs id (Job.merge updates) = s.jobs := by
    intro updates hj
    unfold Table.update Table.modifyWhere
    conv_rhs => rw [← List.map_id s.jobs]
    apply List.map_congr_left
    intro x hx
    simp [hj x hx]
  have hmapC : ∀ updates, (∀ c ∈ s.candidates, c.id ≠ id) →
      Table.update (fun c => c.id) s.candidates id (Candidate.merge updates) = s.candidates := by
    intro updates hc
    unfold Table.update Table.modifyWhere
    conv_rhs => rw [← List.map_id s.candidates]
    apply List.map_congr_left
    intro x hx
    simp [hc x hx]
  constructor
  · intro updates hj
    have hget : Table.get (fun j => j.id) s.jobs id = none := by
      unfold Table.get
      rw [List.find?_eq_none]
      intro x hx
      simpa using hj x hx
    simp only [updateJob, hE, Bool.false_eq_true, if_false, hmapJ updates hj, hget]
  · intro updates hc
    have hget : Table.get (fun c => c.id) s.candidates id = none := by
      unfold Table.get
      rw [List.find?_eq_none]
      intro x hx
      simpa using hc x hx
    simp only [updateCandidate, hE, Bool.false_eq_true, if_false, hmapC updates hc, hget,
      and_self]

theorem update_unknown_id_answers_200_witness :
    updateJob (calmEnv 7) (storeOfJobs seedJobs) 999 (statusOnly "archived")
      = (⟨200, .job none⟩, storeOfJobs seedJobs) ∧
    (updateCandidate (calmEnv 7) (storeOfJobs seedJobs) 999 (stageOnly "hired")).1
      = ⟨200, .candidate none⟩ :=
  ⟨(update_unknown_id_answers_200 (calmEnv 7) (storeOfJobs seedJobs) 999
      (shouldError_calmEnv 7)).1 (statusOnly "archived") (by decide),
   ((update_unknown_id_answers_200 (calmEnv 7) (storeOfJobs seedJobs) 999
      (shouldError_calmEnv 7)).2 (stageOnly "hired") (by decide)).1⟩

/-! ## Creating a job -/

theorem Table.add_of_fresh {α : Type} (key : α → Int) (rows : List α) (record : α)
    (h : ∀ r ∈ rows, key r ≠ key record) :
    Table.add key rows record = .ok (rows ++ [record]) := by
  unfold Table.add
  rw [if_neg]
  simpa using h

theorem Table.add_of_stored {α : Type} (key : α → Int) (rows : List α) (record : α)
    (h : ∃ r ∈ rows, key r = key record) :
    Table.add key rows record = .error constraintErrorMessage := by
  unfold Table.add
  rw [if_pos]
  simpa using h

theorem orZero_some (v : Int) : orZero (some v) = v := by
  show (if v = 0 then 0 else v) = v
  split_ifs with h
  · exact h.symm
  · rfl

theorem sorted_getLast_le (l : List Job) (h : l.Sorted Job.orderLE) (m : Job)
    (hm : l.getLast? = some m) : ∀ x ∈ l, x.order ≤ m.order := by
  induction l with
  | nil => intro x hx; cases hx
  | cons a t ih =>
    cases t with
    | nil =>
      intro x hx
      simp only [List.getLast?_singleton, Option.some.injEq] at hm
      simp only [List.mem_singleton] at hx
      rw [hx, hm]
    | cons b t' =>
      rw [List.getLast?_cons_cons] at hm
      have hs := List.sorted_cons.1 h
      intro x hx
      rcases List.mem_cons.1 hx with rfl | hx'
      · have hr := hs.1 m (List.mem_of_getLast?_eq_some hm)
        unfold Job.orderLE at hr
        omega
      · exact ih hs.2 hm x hx'

/-- The last job of the `order` index is a job of greatest order. -/
theorem orderByOrder_last (jobs : List Job) (hne : jobs ≠ []) :
    ∃ m ∈ jobs, (orderByOrder jobs).getLast? = some m ∧ ∀ x ∈ jobs, x.order ≤ m.order := by
  have hperm := List.perm_insertionSort Job.orderLE jobs
  have hne' : orderByOrder jobs ≠ [] := by
    intro h
    apply hne
    have := hperm.length_eq
    unfold orderByOrder at h
    rw [h] at this
    exact List.length_eq_zero.1 this.symm
  have hlast := List.getLast?_eq_getLast (orderByOrder jobs) hne'
  refine ⟨(orderByOrder jobs).getLast hne', ?_, hlast, ?_⟩
  · exact (mem_orderByOrder jobs _).1 (List.getLast_mem hne')
  · intro x hx
    exact sorted_getLast_le (orderByOrder jobs) (List.sorted_insertionSort Job.orderLE jobs) _
      hlast x ((mem_orderByOrder jobs x).2 hx)

/-- The order given to a new job is one more than the greatest stored order,
and 1 when no job is stored. -/
theorem nextOrder_spec (jobs : List Job) :
    (jobs = [] → orZero ((orderByOrder jobs).getLast?.map (fun j => j.order)) + 1 = 1) ∧
    (∀ x ∈ jobs, x.order < orZero ((orderByOrder jobs).getLast?.map (fun j => j.order)) + 1) ∧
    (jobs ≠ [] → ∃ x ∈ jobs,
      orZero ((orderByOrder jobs).getLast?.map (fun j => j.order)) + 1 = x.order + 1) := by
  by_cases hne : jobs = []
  · subst hne
    exact ⟨fun _ => by decide, fun x hx => absurd hx (List.not_mem_nil x), fun h => absurd rfl h⟩
  · obtain ⟨m, hm, hlast, hmax⟩ := orderByOrder_last jobs hne
    rw [hlast, Option.map_some', orZero_some]
    refine ⟨fun h => absurd h hne, ?_, fun _ => ⟨m, hm, rfl⟩⟩
    intro x hx
    have := hmax x hx
    omega

theorem createJob_of_fresh (env : Env) (s : Store) (jobData : JobData)
    (hE : shouldError true env.random = false) (hfresh : ∀ x ∈ s.jobs, x.id ≠ env.now) :
    createJob env s jobData =
      (⟨200, .job (some
          { id := env.now, title := jobData.title, slug := jobData.slug,
            status := jobData.status, tags := jobData.tags,
            order := orZero ((orderByOrder s.jobs).getLast?.map (fun j => j.order)) + 1,
            createdAt := env.date })⟩,
        { s with jobs := s.jobs ++
          [{ id := env.now, title := jobData.title, slug := jobData.slug,
             status := jobData.status, tags := jobData.tags,
             order := orZero ((orderByOrder s.jobs).getLast?.map (fun j => j.order)) + 1,
             createdAt := env.date }] }) := by
  simp only [createJob, hE, Bool.false_eq_true, if_false]
  rw [Table.add_of_fresh (fun j => j.id) s.jobs _ hfresh]

theorem createJob_of_stored (env : Env) (s : Store) (jobData : JobData)
    (hE : shouldError true env.random = false) (hstored : ∃ x ∈ s.jobs, x.id = env.now) :
    createJob env s jobData = (⟨400, .error constraintErrorMessage⟩, s) := by
  simp only [createJob, hE, Bool.false_eq_true, if_false]
  rw [Table.add_of_stored (fun j => j.id) s.jobs _ hstored]

theorem createJob_of_fail (env : Env) (s : Store) (jobData : JobData)
    (hE : shouldError true env.random = true) :
    createJob env s jobData = (⟨500, .error "Failed to create job"⟩, s) := by
  simp only [createJob, hE, if_true]

/-- C8: create-job succeeds exactly when no failure is injected and the id read
from the clock is not yet stored.  When the stored orders are safe integers
(below 2^53 in absolute value, where the addition of the source is exact), a
successful create-job appends to the jobs, and returns, one record whose id
and createdAt are the clock readings, whose title, slug, status and tags are
those of the body (the body's own id, order and createdAt are not used), and
whose order is one more than the greatest stored order (1 when no job is
stored), itself at most 2^53; the stored jobs and the other collections are
unchanged. -/
theorem createJob_spec (env : Env) (s : Store) (jobData : JobData) :
    ((createJob env s jobData).1.status = 200 ↔
      (shouldError true env.random = false ∧ ∀ x ∈ s.jobs, x.id ≠ env.now)) ∧
    (SafeOrders s.jobs → (createJob env s jobData).1.status = 200 →
      ∃ job : Job,
        createJob env s jobData =
          (⟨200, .job (some job)⟩, { s with jobs := s.jobs ++ [job] }) ∧
        job.id = env.now ∧ job.createdAt = env.date ∧
        job.title = jobData.title ∧ job.slug = jobData.slug ∧
        job.status = jobData.status ∧ job.tags = jobData.tags ∧
        (s.jobs = [] → job.order = 1) ∧
        (∀ x ∈ s.jobs, x.order < job.order) ∧
        (s.jobs ≠ [] → ∃ x ∈ s.jobs, job.order = x.order + 1) ∧
        -9007199254740990 ≤ job.order ∧ job.order ≤ 9007199254740992) := by
  cases hE : shouldError true env.random
  · by_cases hfresh : ∀ x ∈ s.jobs, x.id ≠ env.now
    · have hrun := createJob_of_fresh env s jobData hE hfresh
      have hspec := nextOrder_spec s.jobs
      refine ⟨?_, ?_⟩
      · rw [hrun]
        exact ⟨fun _ => ⟨rfl, hfresh⟩, fun _ => rfl⟩
      · intro hsafe _
        refine ⟨_, hrun, rfl, rfl, rfl, rfl, rfl, rfl, hspec.1, hspec.2.1, hspec.2.2, ?_⟩
        by_cases hne : s.jobs = []
        · have h1 := hspec.1 hne
          show -9007199254740990 ≤
              orZero ((orderByOrder s.jobs).getLast?.map (fun j => j.order)) + 1 ∧
            orZero ((orderByOrder s.jobs).getLast?.map (fun j => j.order)) + 1
              ≤ 9007199254740992
          rw [h1]
          decide
        · obtain ⟨x, hx, hxo⟩ := hspec.2.2 hne
          have hb := hsafe x hx
          show -9007199254740990 ≤
              orZero ((orderByOrder s.jobs).getLast?.map (fun j => j.order)) + 1 ∧
            orZero ((orderByOrder s.jobs).getLast?.map (fun j => j.order)) + 1
              ≤ 9007199254740992
          rw [hxo]
          omega
    · have hstored : ∃ x ∈ s.jobs, x.id = env.now := by
        simpa using hfresh
      have hrun := createJob_of_stored env s jobData hE hstored
      rw [hrun]
      refine ⟨?_, ?_⟩
      · constructor
        · intro h
          simp at h
        · intro h
          exact absurd h.2 hfresh
      · intro _ h
        simp at h
  · have hrun := createJob_of_fail env s jobData hE
    rw [hrun]
    refine ⟨?_, ?_⟩
    · constructor
      · intro h
        simp at h
      · intro h
        exact absurd h.1 (by decide)
    · intro _ h
      simp at h

theorem createJob_spec_witness :
    (∃ job : Job,
      createJob (calmEnv 1700000000000) (storeOfJobs seedJobs) crowdedBody =
        (⟨200, .job (some job)⟩,
          { storeOfJobs seedJobs with jobs := (storeOfJobs seedJobs).jobs ++ [job] }) ∧
      job.id = (calmEnv 1700000000000).now ∧ job.createdAt = (calmEnv 1700000000000).date ∧
      job.title = crowdedBody.title ∧ job.slug = crowdedBody.slug ∧
      job.status = crowdedBody.status ∧ job.tags = crowdedBody.tags ∧
      ((storeOfJobs seedJobs).jobs = [] → job.order = 1) ∧
      (∀ x ∈ (storeOfJobs seedJobs).jobs, x.order < job.order) ∧
      ((storeOfJobs seedJobs).jobs ≠ [] →
        ∃ x ∈ (storeOfJobs seedJobs).jobs, job.order = x.order + 1) ∧
      -9007199254740990 ≤ job.order ∧ job.order ≤ 9007199254740992) ∧
    (createJob (calmEnv 1700000000000) (storeOfJobs seedJobs) crowdedBody).2.jobs.map
        (fun j => (j.id, j.order))
      = [(1, 1), (2, 2), (3, 3), (4, 4), (5, 5), (1700000000000, 6)] :=
  ⟨(createJob_spec (calmEnv 1700000000000) (storeOfJobs seedJobs) crowdedBody).2
      (by decide)
      ((createJob_spec (calmEnv 1700000000000) (storeOfJobs seedJobs) crowdedBody).1.2
        ⟨shouldError_calmEnv 1700000000000, by decide⟩),
   by rw [createJob_of_fresh (calmEnv 1700000000000) (storeOfJobs seedJobs) crowdedBody
        (shouldError_calmEnv 1700000000000) (by decide)]; decide⟩

/-! ## Sequences of create and reorder requests -/

theorem uniqueIds_map_reorderRecord (jobs : List Job) (id fromOrder toOrder : Int)
    (hu : UniqueIds jobs) : UniqueIds (jobs.map (reorderRecord id fromOrder toOrder)) := by
  unfold UniqueIds at *
  rw [List.map_map]
  have : (fun j : Job => j.id) ∘ reorderRecord id fromOrder toOrder = fun j : Job => j.id := by
    funext x
    exact reorderRecord_id id fromOrder toOrder x
  rw [this]
  exact hu

theorem uniqueIds_append_fresh (jobs : List Job) (job : Job) (hu : UniqueIds jobs)
    (hfresh : ∀ x ∈ jobs, x.id ≠ job.id) : UniqueIds (jobs ++ [job]) := by
  unfold UniqueIds at *
  rw [List.map_append, List.nodup_append]
  refine ⟨hu, by simp, ?_⟩
  intro a ha hb
  obtain ⟨x, hx, rfl⟩ := List.mem_map.1 ha
  simp only [List.map_cons, List.map_nil, List.mem_singleton] at hb
  exact hfresh x hx hb

/-- Appending a job whose order is the one create-job computes keeps the orders
dense. -/
theorem denseOrders_append_next (jobs : List Job) (job : Job) (hd : DenseOrders jobs)
    (ho : job.order = orZero ((orderByOrder jobs).getLast?.map (fun j => j.order)) + 1) :
    DenseOrders (jobs ++ [job]) := by
  obtain ⟨hn, hb⟩ := (denseOrders_iff jobs).1 hd
  obtain ⟨hempty, hlt, hex⟩ := nextOrder_spec jobs
  rw [← ho] at hempty hlt hex
  have hval : job.order = (jobs.length : Int) + 1 := by
    by_cases hne : jobs = []
    · rw [hempty hne, hne]
      rfl
    · obtain ⟨x, hx, hxo⟩ := hex hne
      have hxb := hb x hx
      have hpos : 0 < jobs.length := List.length_pos.2 hne
      have hmem : ((jobs.length : Nat) : Int) ∈ jobs.map (fun j => j.order) := by
        apply (List.Perm.mem_iff hd).2
        rw [mem_oneTo]
        omega
      obtain ⟨y, hy, hyo⟩ := List.mem_map.1 hmem
      have := hlt y hy
      omega
  rw [denseOrders_iff]
  refine ⟨?_, ?_⟩
  · rw [List.map_append, List.nodup_append]
    refine ⟨hn, by simp, ?_⟩
    intro a ha hb'
    obtain ⟨x, hx, rfl⟩ := List.mem_map.1 ha
    simp only [List.map_cons, List.map_nil, List.mem_singleton] at hb'
    have := hlt x hx
    omega
  · intro y hy
    rw [List.length_append, List.length_singleton]
    rcases List.mem_append.1 hy with h | h
    · have := hb y h
      push_cast
      omega
    · simp only [List.mem_singleton] at h
      rw [h, hval]
      push_cast
      omega

theorem invariant_createJob (env : Env) (s : Store) (jobData : JobData)
    (hu : UniqueIds s.jobs) (hd : DenseOrders s.jobs) :
    UniqueIds (createJob env s jobData).2.jobs ∧ DenseOrders (createJob env s jobData).2.jobs := by
  cases hE : shouldError true env.random
  · by_cases hfresh : ∀ x ∈ s.jobs, x.id ≠ env.now
    · rw [createJob_of_fresh env s jobData hE hfresh]
      exact ⟨uniqueIds_append_fresh s.jobs _ hu hfresh, denseOrders_append_next s.jobs _ hd rfl⟩
    · rw [createJob_of_stored env s jobData hE (by simpa using hfresh)]
      exact ⟨hu, hd⟩
  · rw [createJob_of_fail env s jobData hE]
    exact ⟨hu, hd⟩

theorem invariant_reorderJob (env : Env) (s : Store) (id fromOrder toOrder : Int)
    (hu : UniqueIds s.jobs) (hd : DenseOrders s.jobs)
    (hj : ∃ j ∈ s.jobs, j.id = id ∧ j.order = fromOrder)
    (h1 : 1 ≤ toOrder) (h2 : toOrder ≤ s.jobs.length) :
    UniqueIds (reorderJob env s id fromOrder toOrder).2.jobs ∧
    DenseOrders (reorderJob env s id fromOrder toOrder).2.jobs := by
  rcases reorderJob_snd_cases env s id fromOrder toOrder with h | h
  · rw [h]
    exact ⟨hu, hd⟩
  · rw [h]
    exact ⟨uniqueIds_map_reorderRecord s.jobs id fromOrder toOrder hu,
      denseOrders_map_reorderRecord s.jobs id fromOrder toOrder hu hd hj h1 h2⟩

theorem invariant_runAll (requests : List JobRequest) :
    ∀ s : Store, UniqueIds s.jobs → DenseOrders s.jobs → ValidReorders s requests →
      UniqueIds (runAll s requests).jobs ∧ DenseOrders (runAll s requests).jobs := by
  induction requests with
  | nil =>
    intro s hu hd _
    exact ⟨hu, hd⟩
  | cons r rest ih =>
    intro s hu hd hv
    cases r with
    | create env jobData =>
      have hinv := invariant_createJob env s jobData hu hd
      exact ih (createJob env s jobData).2 hinv.1 hinv.2 hv
    | reorder env id fromOrder toOrder =>
      obtain ⟨⟨hj, h1, h2⟩, hrest⟩ := hv
      have hinv := invariant_reorderJob env s id fromOrder toOrder hu hd hj h1 h2
      exact ih (reorderJob env s id fromOrder toOrder).2 hinv.1 hinv.2 hrest

/-- C2 (as stated, refuted): on the seeded jobs the request to move job 1 from
order 1 to order 10 is accepted (status 200), and so is the request to move
job 1 from order 3 to order 5; after either the orders are not 1..5. -/
theorem accepted_reorder_breaks_density :
    (AllSucceed (storeOfJobs seedJobs) [.reorder (calmEnv 7) 1 1 10] ∧
      (runAll (storeOfJobs seedJobs) [.reorder (calmEnv 7) 1 1 10]).jobs.map (fun j => j.order)
        = [10, 1, 2, 3, 4] ∧
      ¬ DenseOrders (runAll (storeOfJobs seedJobs) [.reorder (calmEnv 7) 1 1 10]).jobs) ∧
    (AllSucceed (storeOfJobs seedJobs) [.reorder (calmEnv 7) 1 3 5] ∧
      (runAll (storeOfJobs seedJobs) [.reorder (calmEnv 7) 1 3 5]).jobs.map (fun j => j.order)
        = [5, 2, 3, 3, 4] ∧
      ¬ DenseOrders (runAll (storeOfJobs seedJobs) [.reorder (calmEnv 7) 1 3 5]).jobs) := by
  have h1 := reorderJob_of_found (calmEnv 7) (storeOfJobs seedJobs) 1 1 10
    (shouldError_calmEnv 7) (by decide)
  have h2 := reorderJob_of_found (calmEnv 7) (storeOfJobs seedJobs) 1 3 5
    (shouldError_calmEnv 7) (by decide)
  simp only [AllSucceed, runAll, List.foldl, JobRequest.run, h1, h2]
  decide

/-- C2 (amended): starting from the seeded jobs, after every sequence of
create-job and reorder-job requests in which each reorder request names a
stored job, gives that job's current order as `fromOrder` and a `toOrder`
between 1 and the number of jobs, the orders of the jobs are exactly 1..N
(and the ids are pairwise distinct). -/
theorem orders_dense_after_valid_requests (s : Store) (requests : List JobRequest)
    (hseed : s.jobs = seedJobs) (hvalid : ValidReorders s requests) :
    DenseOrders (runAll s requests).jobs ∧ UniqueIds (runAll s requests).jobs := by
  have hu : UniqueIds s.jobs := by rw [hseed]; decide
  have hd : DenseOrders s.jobs := by rw [hseed]; decide
  have h := invariant_runAll requests s hu hd hvalid
  exact ⟨h.2, h.1⟩

theorem orders_dense_after_valid_requests_witness :
    DenseOrders (runAll (storeOfJobs seedJobs)
      [.create (calmEnv 1700000000000) crowdedBody, .reorder (calmEnv 7) 1700000000000 6 2,
       .reorder (calmEnv 7) 1 1 6]).jobs ∧
    UniqueIds (runAll (storeOfJobs seedJobs)
      [.create (calmEnv 1700000000000) crowdedBody, .reorder (calmEnv 7) 1700000000000 6 2,
       .reorder (calmEnv 7) 1 1 6]).jobs :=
  orders_dense_after_valid_requests (storeOfJobs seedJobs)
    [.create (calmEnv 1700000000000) crowdedBody, .reorder (calmEnv 7) 1700000000000 6 2,
     .reorder (calmEnv 7) 1 1 6] rfl
    ⟨⟨by decide!, by decide!, by decide!⟩, ⟨by decide!, by decide!, by decide!⟩, trivial⟩

theorem shouldError_calmRead : shouldError false calmRead.random = false := by
  norm_num [shouldError, calmRead]

/-! ## Updating a job -/

theorem Table.get_of_unique {α : Type} (key : α → Int) (rows : List α)
    (hu : (rows.map key).Nodup) (r : α) (hr : r ∈ rows) :
    Table.get key rows (key r) = some r := by
  unfold Table.get
  induction rows with
  | nil => cases hr
  | cons a t ih =>
    rw [List.map_cons, List.nodup_cons] at hu
    rcases List.mem_cons.1 hr with h | h
    · subst h
      exact List.find?_cons_of_pos _ (by simp)
    · have hne : key a ≠ key r := by
        intro heq
        apply hu.1
        rw [heq]
        exact List.mem_map_of_mem key h
      rw [List.find?_cons_of_neg _ (by simpa using hne)]
      exact ih hu.2 h

theorem Table.get_update {α : Type} (key : α → Int) (rows : List α) (k : Int) (change : α → α)
    (hkey : ∀ r, key (change r) = key r) :
    Table.get key (Table.update key rows k change) k = (Table.get key rows k).map change := by
  unfold Table.get Table.update Table.modifyWhere
  induction rows with
  | nil => rfl
  | cons a t ih =>
    by_cases h : key a = k
    · rw [List.map_cons, List.find?_cons_of_pos _ (by simp [h, hkey]),
        List.find?_cons_of_pos _ (by simp [h])]
      simp [h]
    · rw [List.map_cons, List.find?_cons_of_neg _ (by simp [h]),
        List.find?_cons_of_neg _ (by simp [h])]
      exact ih

theorem Table.update_getElem? {α : Type} (key : α → Int) (rows : List α) (k : Int)
    (change : α → α) (i : Nat) :
    (Table.update key rows k change)[i]? =
      rows[i]?.map (fun r => if key r = k then change r else r) := by
  unfold Table.update Table.modifyWhere
  rw [List.getElem?_map]
  congr 1
  funext r
  by_cases h : key r = k <;> simp [h]

theorem Table.update_length {α : Type} (key : α → Int) (rows : List α) (k : Int)
    (change : α → α) : (Table.update key rows k change).length = rows.length := by
  unfold Table.update Table.modifyWhere
  exact List.length_map _ _

theorem Job.merge_keeps_id (updates : JobUpdates) (j : Job) : (Job.merge updates j).id = j.id := rfl

/-- C11: an update-job request that passes the failure injection and names a
stored job answers 200 with, and stores under that id, the record in which
every supplied field has the supplied value and every field not supplied (and
the id) keeps its previous value; the number of jobs and every other job are
unchanged, and so are the other collections. -/
theorem updateJob_merges_supplied_fields (env : Env) (s : Store) (id : Int)
    (updates : JobUpdates) (j : Job)
    (hE : shouldError true env.random = false) (hu : UniqueIds s.jobs)
    (hj : j ∈ s.jobs) (hid : j.id = id) :
    (updateJob env s id updates).1 = ⟨200, .job (some (Job.merge updates j))⟩ ∧
    Table.get (fun x => x.id) (updateJob env s id updates).2.jobs id
      = some (Job.merge updates j) ∧
    ((Job.merge updates j).id = j.id ∧
      (Job.merge updates j).title = (match updates.title with | some v => some v | none => j.title) ∧
      (Job.merge updates j).slug = (match updates.slug with | some v => some v | none => j.slug) ∧
      (Job.merge updates j).status
        = (match updates.status with | some v => some v | none => j.status) ∧
      (Job.merge updates j).tags = (match updates.tags with | some v => some v | none => j.tags) ∧
      (Job.merge updates j).order = (match updates.order with | some v => v | none => j.order) ∧
      (Job.merge updates j).createdAt
        = (match updates.createdAt with | some v => v | none => j.createdAt)) ∧
    (updateJob env s id updates).2.jobs.length = s.jobs.length ∧
    (∀ (i : Nat) (x : Job), s.jobs[i]? = some x →
      (updateJob env s id updates).2.jobs[i]? = some (if x.id = id then Job.merge updates x else x)) ∧
    (∀ (i : Nat) (x : Job), s.jobs[i]? = some x → x.id ≠ id →
      (updateJob env s id updates).2.jobs[i]? = some x) ∧
    (updateJob env s id updates).2.candidates = s.candidates ∧
    (updateJob env s id updates).2.candidateTimeline = s.candidateTimeline ∧
    (updateJob env s id updates).2.assessments = s.assessments ∧
    (updateJob env s id updates).2.assessmentResponses = s.assessmentResponses := by
  have hget : Table.get (fun x : Job => x.id)
      (Table.update (fun x : Job => x.id) s.jobs id (Job.merge updates)) id
      = some (Job.merge updates j) := by
    rw [Table.get_update (fun x : Job => x.id) s.jobs id (Job.merge updates)
      (Job.merge_keeps_id updates), ← hid, Table.get_of_unique (fun x : Job => x.id) s.jobs hu j hj]
    rfl
  have hrun : updateJob env s id updates =
      (⟨200, .job (some (Job.merge updates j))⟩,
        { s with jobs := Table.update (fun x : Job => x.id) s.jobs id (Job.merge updates) }) := by
    simp only [updateJob, hE, Bool.false_eq_true, if_false, hget]
  rw [hrun]
  refine ⟨rfl, hget, ⟨rfl, ?_, ?_, ?_, ?_, ?_, ?_⟩, Table.update_length _ _ _ _, ?_, ?_,
    rfl, rfl, rfl, rfl⟩
  · cases h : updates.title <;> simp [Job.merge, h]
  · cases h : updates.slug <;> simp [Job.merge, h]
  · cases h : updates.status <;> simp [Job.merge, h]
  · cases h : updates.tags <;> simp [Job.merge, h]
  · cases h : updates.order <;> simp [Job.merge, h]
  · cases h : updates.createdAt <;> simp [Job.merge, h]
  · intro i x hx
    show (Table.update (fun x : Job => x.id) s.jobs id (Job.merge updates))[i]? = _
    rw [Table.update_getElem?, hx]
    rfl
  · intro i x hx hne
    show (Table.update (fun x : Job => x.id) s.jobs id (Job.merge updates))[i]? = _
    rw [Table.update_getElem?, hx]
    simp [hne]

theorem updateJob_merges_supplied_fields_witness :
    (updateJob (calmEnv 7) (storeOfJobs seedJobs) 4 (statusOnly "active")).1
      = ⟨200, .job (some
          { id := 4, title := some "DevOps Engineer", slug := some "devops-engineer",
            status := some "active", tags := some ["AWS", "Docker", "Kubernetes"], order := 4,
            createdAt := 1704844800000 })⟩ :=
  (updateJob_merges_supplied_fields (calmEnv 7) (storeOfJobs seedJobs) 4 (statusOnly "active")
    { id := 4, title := some "DevOps Engineer", slug := some "devops-engineer",
      status := some "archived", tags := some ["AWS", "Docker", "Kubernetes"], order := 4,
      createdAt := 1704844800000 }
    (shouldError_calmEnv 7) (by decide) (by decide) rfl).1

/-! ## Updating a candidate and the timeline -/

theorem truthy_some (v : String) : truthy (some v) = true ↔ v ≠ "" := by
  simp [truthy]

theorem truthy_none : truthy none = false := rfl

theorem foldl_max_bounds {α : Type} (key : α → Int) (rows : List α) :
    ∀ init : Int, init ≤ rows.foldl (fun m r => max m (key r)) init ∧
      ∀ r ∈ rows, key r ≤ rows.foldl (fun m r => max m (key r)) init := by
  induction rows with
  | nil =>
    intro init
    exact ⟨le_refl _, fun r hr => absurd hr (List.not_mem_nil r)⟩
  | cons a t ih =>
    intro init
    obtain ⟨h1, h2⟩ := ih (max init (key a))
    rw [List.foldl_cons]
    refine ⟨le_trans (le_max_left _ _) h1, ?_⟩
    intro r hr
    rcases List.mem_cons.1 hr with rfl | h
    · exact le_trans (le_max_right _ _) h1
    · exact h2 r h

/-- The key handed out by the generator is above every stored key. -/
theorem Table.nextKey_gt {α : Type} (key : α → Int) (rows : List α) :
    ∀ r ∈ rows, key r < Table.nextKey key rows := by
  intro r hr
  have := (foldl_max_bounds key rows 0).2 r hr
  unfold Table.nextKey
  omega

/-- The timeline after an update-candidate request. -/
theorem updateCandidate_timeline (env : Env) (s : Store) (id : Int) (updates : CandidateUpdates) :
    (updateCandidate env s id updates).2.candidateTimeline =
      if shouldError true env.random = true then s.candidateTimeline
      else if truthy updates.stage = true then
        s.candidateTimeline ++ [stageEntry env s id updates]
      else s.candidateTimeline := by
  unfold updateCandidate stageEntry
  cases hE : shouldError true env.random <;> cases hs : truthy updates.stage <;> simp

theorem updateCandidate_status (env : Env) (s : Store) (id : Int) (updates : CandidateUpdates) :
    (updateCandidate env s id updates).1.status =
      if shouldError true env.random = true then 500 else 200 := by
  unfold updateCandidate
  cases hE : shouldError true env.random <;> simp

/-- C16 (as stated, refuted): candidate 1 is stored and the body carries the
key `stage` with the empty text; the request is answered 200 and no timeline
entry is appended. -/
theorem empty_stage_appends_nothing :
    (∃ c ∈ candidateStore.candidates, c.id = 1) ∧
    (stageOnly "").stage = some "" ∧
    (updateCandidate (calmEnv 7) candidateStore 1 (stageOnly "")).1.status = 200 ∧
    (updateCandidate (calmEnv 7) candidateStore 1 (stageOnly "")).2.candidateTimeline
      = candidateStore.candidateTimeline := by
  refine ⟨by decide, rfl, ?_, ?_⟩
  · rw [updateCandidate_status, shouldError_calmEnv]
    rfl
  · rw [updateCandidate_timeline, shouldError_calmEnv]
    rfl

/-- C16 (amended): an update-candidate request that passes the failure
injection and whose body has a non-empty stage appends exactly one timeline
entry; it carries the candidate id of the path, the new stage, the time of the
call, a fresh id, and as notes the supplied notes when they are non-empty and
otherwise the text "Moved to {stage} stage". -/
theorem updateCandidate_appends_stage_entry (env : Env) (s : Store) (id : Int)
    (updates : CandidateUpdates) (stage : String)
    (hE : shouldError true env.random = false)
    (hs : updates.stage = some stage) (hne : stage ≠ "") :
    ∃ entry : TimelineEntry,
      (updateCandidate env s id updates).2.candidateTimeline = s.candidateTimeline ++ [entry] ∧
      entry.candidateId = id ∧ entry.stage = stage ∧ entry.timestamp = env.date ∧
      (∀ e ∈ s.candidateTimeline, e.id < entry.id) ∧
      (∀ notes, updates.notes = some notes → notes ≠ "" → entry.notes = notes) ∧
      (updates.notes = none ∨ updates.notes = some "" →
        entry.notes = "Moved to " ++ stage ++ " stage") := by
  have ht : truthy updates.stage = true := by
    rw [hs]
    exact (truthy_some stage).2 hne
  refine ⟨stageEntry env s id updates, ?_, rfl, ?_, rfl, ?_, ?_, ?_⟩
  · rw [updateCandidate_timeline, hE, ht]
    rfl
  · simp [stageEntry, hs]
  · exact Table.nextKey_gt (fun e : TimelineEntry => e.id) s.candidateTimeline
  · intro notes hn hnn
    have : truthy (some notes) = true := (truthy_some notes).2 hnn
    simp [stageEntry, this, hn]
  · intro hn
    have : truthy updates.notes = false := by
      rcases hn with h | h <;> rw [h] <;> rfl
    simp [stageEntry, this, hs]

theorem updateCandidate_appends_stage_entry_witness :
    ∃ entry : TimelineEntry,
      (updateCandidate (calmEnv 7) candidateStore 1 (stageOnly "screen")).2.candidateTimeline
        = candidateStore.candidateTimeline ++ [entry] ∧
      entry.candidateId = 1 ∧ entry.stage = "screen" ∧ entry.timestamp = (calmEnv 7).date ∧
      (∀ e ∈ candidateStore.candidateTimeline, e.id < entry.id) ∧
      (∀ notes, (stageOnly "screen").notes = some notes → notes ≠ "" → entry.notes = notes) ∧
      ((stageOnly "screen").notes = none ∨ (stageOnly "screen").notes = some "" →
        entry.notes = "Moved to " ++ "screen" ++ " stage") :=
  updateCandidate_appends_stage_entry (calmEnv 7) candidateStore 1 (stageOnly "screen") "screen"
    (shouldError_calmEnv 7) rfl (by decide)

/-- C17: whatever the request, update-candidate leaves every timeline entry
that was stored where it was and as it was, and appends at most one entry; two
successive updates of one candidate that pass the failure injection and carry
a non-empty stage add exactly two entries. -/
theorem timeline_is_append_only (env : Env) (s : Store) (id : Int) (updates : CandidateUpdates) :
    (∃ added : List TimelineEntry,
      (updateCandidate env s id updates).2.candidateTimeline = s.candidateTimeline ++ added ∧
      added.length ≤ 1) ∧
    (∀ (i : Nat) (e : TimelineEntry), s.candidateTimeline[i]? = some e →
      (updateCandidate env s id updates).2.candidateTimeline[i]? = some e) ∧
    (∀ (env2 : Env) (updates2 : CandidateUpdates),
      shouldError true env.random = false → shouldError true env2.random = false →
      truthy updates.stage = true → truthy updates2.stage = true →
      ∃ first second : TimelineEntry,
        (updateCandidate env2 (updateCandidate env s id updates).2 id updates2).2.candidateTimeline
          = s.candidateTimeline ++ [first, second] ∧
        first.candidateId = id ∧ second.candidateId = id ∧ first.id < second.id) := by
  have hadd : ∃ added : List TimelineEntry,
      (updateCandidate env s id updates).2.candidateTimeline = s.candidateTimeline ++ added ∧
      added.length ≤ 1 := by
    rw [updateCandidate_timeline]
    split_ifs
    · exact ⟨[], by simp, by simp⟩
    · exact ⟨[stageEntry env s id updates], rfl, by simp⟩
    · exact ⟨[], by simp, by simp⟩
  refine ⟨hadd, ?_, ?_⟩
  · intro i e he
    obtain ⟨added, h, _⟩ := hadd
    rw [h]
    have hi : i < s.candidateTimeline.length := by
      rcases Nat.lt_or_ge i s.candidateTimeline.length with h' | h'
      · exact h'
      · rw [List.getElem?_eq_none h'] at he
        cases he
    rw [List.getElem?_append_left hi]
    exact he
  · intro env2 updates2 hE hE2 ht ht2
    have h1 : (updateCandidate env s id updates).2.candidateTimeline
        = s.candidateTimeline ++ [stageEntry env s id updates] := by
      rw [updateCandidate_timeline, hE, ht]
      rfl
    refine ⟨stageEntry env s id updates,
      stageEntry env2 (updateCandidate env s id updates).2 id updates2, ?_, rfl, rfl, ?_⟩
    · rw [updateCandidate_timeline, hE2, ht2, h1]
      simp
    · have := Table.nextKey_gt (fun e : TimelineEntry => e.id)
        (updateCandidate env s id updates).2.candidateTimeline (stageEntry env s id updates)
        (by rw [h1]; simp)
      exact this

theorem timeline_is_append_only_witness :
    ∃ first second : TimelineEntry,
      (updateCandidate (calmEnv 9)
          (updateCandidate (calmEnv 7) candidateStore 1 (stageOnly "screen")).2 1
          (stageOnly "tech")).2.candidateTimeline
        = candidateStore.candidateTimeline ++ [first, second] ∧
      first.candidateId = 1 ∧ second.candidateId = 1 ∧ first.id < second.id :=
  (timeline_is_append_only (calmEnv 7) candidateStore 1 (stageOnly "screen")).2.2 (calmEnv 9)
    (stageOnly "tech") (shouldError_calmEnv 7) (shouldError_calmEnv 9) (by decide) (by decide)

/-- C29: update-candidate appends a timeline entry exactly when no failure is
injected and the stage of the body is truthy: then it appends one entry for
the id of the path, whether or not a candidate has that id and whatever the
candidate's current stage is; when the body has no stage or an empty one the
timeline is unchanged. -/
theorem updateCandidate_appends_iff_stage_truthy (env : Env) (s : Store) (id : Int)
    (updates : CandidateUpdates) :
    ((updateCandidate env s id updates).2.candidateTimeline ≠ s.candidateTimeline ↔
      (shouldError true env.random = false ∧ truthy updates.stage = true)) ∧
    (shouldError true env.random = false → truthy updates.stage = true →
      (updateCandidate env s id updates).2.candidateTimeline
        = s.candidateTimeline ++ [stageEntry env s id updates] ∧
      (stageEntry env s id updates).candidateId = id ∧
      some (stageEntry env s id updates).stage = updates.stage) ∧
    (updates.stage = none ∨ updates.stage = some "" →
      (updateCandidate env s id updates).2.candidateTimeline = s.candidateTimeline) := by
  refine ⟨?_, ?_, ?_⟩
  · rw [updateCandidate_timeline]
    cases hE : shouldError true env.random <;> cases hs : truthy updates.stage <;> simp
  · intro hE hs
    refine ⟨?_, rfl, ?_⟩
    · rw [updateCandidate_timeline, hE, hs]
      rfl
    · cases h : updates.stage with
      | none => rw [h] at hs; cases hs
      | some v => simp [stageEntry, h]
  · intro h
    have : truthy updates.stage = false := by
      rcases h with h | h <;> rw [h] <;> rfl
    rw [updateCandidate_timeline, this]
    simp

theorem updateCandidate_appends_iff_stage_truthy_witness :
    (updateCandidate (calmEnv 7) candidateStore 999 (stageOnly "applied")).2.candidateTimeline
        = candidateStore.candidateTimeline
          ++ [stageEntry (calmEnv 7) candidateStore 999 (stageOnly "applied")] ∧
      (stageEntry (calmEnv 7) candidateStore 999 (stageOnly "applied")).candidateId = 999 ∧
      some (stageEntry (calmEnv 7) candidateStore 999 (stageOnly "applied")).stage
        = (stageOnly "applied").stage :=
  (updateCandidate_appends_iff_stage_truthy (calmEnv 7) candidateStore 999
    (stageOnly "applied")).2.1 (shouldError_calmEnv 7) (by decide)

/-! ## Reading the timeline -/

/-- C18 (the code at the failing input): get-timeline never answers with
entries; for candidate 1, who has a stored entry, the answer is status 500
with the TypeError of the missing `orderBy`. -/
theorem getTimeline_never_succeeds :
    (∀ (env : Env) (s : Store) (id : Int) (entries : List TimelineEntry),
      getTimeline env s id ≠ .ok entries) ∧
    getTimeline calmRead candidateStore 1 = .error 500 orderByNotAFunctionMessage ∧
    timelineByTimestamp candidateStore.candidateTimeline 1 = candidateStore.candidateTimeline := by
  refine ⟨?_, ?_, by decide⟩
  · intro env s id entries
    unfold getTimeline
    split_ifs <;> simp
  · unfold getTimeline
    rw [shouldError_calmRead]
    rfl

/-! ## Upserting an assessment -/

theorem Table.update_of_absent {α : Type} (key : α → Int) (rows : List α) (k : Int)
    (change : α → α) (h : ∀ r ∈ rows, key r ≠ k) : Table.update key rows k change = rows := by
  unfold Table.update Table.modifyWhere
  conv_rhs => rw [← List.map_id rows]
  apply List.map_congr_left
  intro x hx
  simp [h x hx]

theorem Table.update_append {α : Type} (key : α → Int) (rows more : List α) (k : Int)
    (change : α → α) :
    Table.update key (rows ++ more) k change
      = Table.update key rows k change ++ Table.update key more k change := by
  unfold Table.update Table.modifyWhere
  exact List.map_append _ _ _

theorem Table.update_map_eq {α β : Type} (key : α → Int) (rows : List α) (k : Int)
    (change : α → α) (g : α → β) (h : ∀ r ∈ rows, key r = k → g (change r) = g r) :
    (Table.update key rows k change).map g = rows.map g := by
  unfold Table.update Table.modifyWhere
  rw [List.map_map]
  apply List.map_congr_left
  intro x hx
  by_cases hk : key x = k
  · simp [hk, h x hx hk]
  · simp [hk]

theorem Table.get_append_of_absent {α : Type} (key : α → Int) (rows more : List α) (k : Int)
    (h : ∀ r ∈ rows, key r ≠ k) :
    Table.get key (rows ++ more) k = Table.get key more k := by
  unfold Table.get
  rw [List.find?_append]
  have : List.find? (fun r => key r == k) rows = none := by
    rw [List.find?_eq_none]
    intro x hx
    simpa using h x hx
  rw [this]
  rfl

theorem Assessment.merge_same_id (d : AssessmentData) (a : Assessment) :
    (Assessment.merge d a).id = a.id := rfl

theorem filter_jobId_eq_nil (rows : List Assessment) (jobId : Int)
    (h : ∀ a ∈ rows, a.jobId ≠ jobId) : rows.filter (fun a => a.jobId == jobId) = [] := by
  rw [List.filter_eq_nil_iff]
  intro a ha
  simpa using h a ha

theorem firstAssessmentOfJob_eq_none (rows : List Assessment) (jobId : Int)
    (h : ∀ a ∈ rows, a.jobId ≠ jobId) : firstAssessmentOfJob rows jobId = none := by
  unfold firstAssessmentOfJob
  rw [filter_jobId_eq_nil rows jobId h]
  rfl

theorem firstAssessmentOfJob_mem (rows : List Assessment) (jobId : Int) (a : Assessment)
    (h : firstAssessmentOfJob rows jobId = some a) : a ∈ rows ∧ a.jobId = jobId := by
  unfold firstAssessmentOfJob at h
  have hmem : a ∈ (rows.filter (fun a => a.jobId == jobId)).insertionSort (fun a b => a.id ≤ b.id) :=
    List.mem_of_mem_head? h
  have hmem2 := (List.perm_insertionSort (fun a b : Assessment => a.id ≤ b.id)
    (rows.filter (fun a => a.jobId == jobId))).mem_iff.1 hmem
  rw [List.mem_filter] at hmem2
  exact ⟨hmem2.1, by simpa using hmem2.2⟩

theorem firstAssessmentOfJob_cases (rows : List Assessment) (jobId : Int) :
    (firstAssessmentOfJob rows jobId = none ∧ ∀ a ∈ rows, a.jobId ≠ jobId) ∨
    ∃ a, firstAssessmentOfJob rows jobId = some a ∧ a ∈ rows ∧ a.jobId = jobId := by
  cases h : firstAssessmentOfJob rows jobId with
  | some a => exact Or.inr ⟨a, rfl, firstAssessmentOfJob_mem rows jobId a h⟩
  | none =>
    left
    refine ⟨rfl, ?_⟩
    intro a ha hj
    unfold firstAssessmentOfJob at h
    rw [List.head?_eq_none_iff] at h
    have hlen := (List.perm_insertionSort (fun a b : Assessment => a.id ≤ b.id)
      (rows.filter (fun a => a.jobId == jobId))).length_eq
    rw [h] at hlen
    have hnil : rows.filter (fun a => a.jobId == jobId) = [] :=
      List.length_eq_zero.1 hlen.symm
    have hin : a ∈ rows.filter (fun a => a.jobId == jobId) := by
      rw [List.mem_filter]
      exact ⟨ha, by simpa using hj⟩
    rw [hnil] at hin
    cases hin

theorem upsertAssessment_of_fail (env : Env) (s : Store) (jobId : Int) (data : AssessmentData)
    (hE : shouldError true env.random = true) :
    upsertAssessment env s jobId data = (⟨500, .error "Failed to save assessment"⟩, s) := by
  simp only [upsertAssessment, hE, if_true]

theorem upsertAssessment_of_existing (env : Env) (s : Store) (jobId : Int)
    (data : AssessmentData) (existing : Assessment)
    (hE : shouldError true env.random = false)
    (hex : firstAssessmentOfJob s.assessments jobId = some existing) :
    upsertAssessment env s jobId data =
      (⟨200, .assessment (Table.get (fun a => a.id)
          (Table.update (fun a => a.id) s.assessments existing.id (Assessment.merge data))
          existing.id)⟩,
        { s with assessments :=
            Table.update (fun a => a.id) s.assessments existing.id (Assessment.merge data) }) := by
  simp only [upsertAssessment, hE, hex, Bool.false_eq_true, if_false]

theorem upsertAssessment_of_new (env : Env) (s : Store) (jobId : Int) (data : AssessmentData)
    (hE : shouldError true env.random = false)
    (hnone : ∀ a ∈ s.assessments, a.jobId ≠ jobId)
    (hfresh : ∀ a ∈ s.assessments, a.id ≠ env.now) :
    upsertAssessment env s jobId data =
      (⟨200, .assessment (some
          { id := env.now, jobId := jobId, title := data.title, sections := data.sections,
            createdAt := env.date })⟩,
        { s with assessments := s.assessments ++
          [{ id := env.now, jobId := jobId, title := data.title, sections := data.sections,
             createdAt := env.date }] }) := by
  simp only [upsertAssessment, hE, firstAssessmentOfJob_eq_none s.assessments jobId hnone,
    Bool.false_eq_true, if_false]
  rw [Table.add_of_fresh (fun a : Assessment => a.id) s.assessments _ hfresh]

theorem upsertAssessment_of_collision (env : Env) (s : Store) (jobId : Int)
    (data : AssessmentData) (hE : shouldError true env.random = false)
    (hnone : ∀ a ∈ s.assessments, a.jobId ≠ jobId)
    (hstored : ∃ a ∈ s.assessments, a.id = env.now) :
    upsertAssessment env s jobId data = (⟨400, .error constraintErrorMessage⟩, s) := by
  simp only [upsertAssessment, hE, firstAssessmentOfJob_eq_none s.assessments jobId hnone,
    Bool.false_eq_true, if_false]
  rw [Table.add_of_stored (fun a : Assessment => a.id) s.assessments _ hstored]

/-- The store after an assessment for job 7 was created at the clock value
1700000000000: a second call in the same millisecond, for job 8, which has no
assessment, reads the same clock value, is answered 400 and creates nothing. -/
theorem upsert_same_millisecond_creates_nothing :
    (upsertAssessment (calmEnv 1700000000000) seededStore 7 (titledAssessment "Draft")).1.status
      = 200 ∧
    (∀ a ∈ (upsertAssessment (calmEnv 1700000000000) seededStore 7
        (titledAssessment "Draft")).2.assessments, a.jobId ≠ 8) ∧
    upsertAssessment (calmEnv 1700000000000)
        (upsertAssessment (calmEnv 1700000000000) seededStore 7 (titledAssessment "Draft")).2 8
        (titledAssessment "Other")
      = (⟨400, .error constraintErrorMessage⟩,
          (upsertAssessment (calmEnv 1700000000000) seededStore 7 (titledAssessment "Draft")).2) := by
  have h1 := upsertAssessment_of_new (calmEnv 1700000000000) seededStore 7
    (titledAssessment "Draft") (shouldError_calmEnv 1700000000000) (by decide) (by decide)
  rw [h1]
  refine ⟨rfl, by decide, ?_⟩
  exact upsertAssessment_of_collision (calmEnv 1700000000000) _ 8 (titledAssessment "Other")
    (shouldError_calmEnv 1700000000000) (by decide) (by decide)

/-- C19, as amended: for a jobId that has no assessment and an upsert that
passes the failure injection, the clock value decides.  When it is the id of a
stored assessment the call is answered 400 and creates nothing.  When it is
not, the call appends exactly one assessment, with that jobId and the clock
value as id, and returns it; a second upsert for the same jobId (no failure
injected) then overwrites that same record with the supplied fields, keeps its
id, and leaves the number of assessments unchanged. -/
theorem upsertAssessment_creates_then_updates (env1 env2 : Env) (s : Store) (jobId : Int)
    (data1 data2 : AssessmentData)
    (hE1 : shouldError true env1.random = false) (hE2 : shouldError true env2.random = false)
    (hnone : ∀ a ∈ s.assessments, a.jobId ≠ jobId) :
    ((∃ a ∈ s.assessments, a.id = env1.now) →
      upsertAssessment env1 s jobId data1 = (⟨400, .error constraintErrorMessage⟩, s)) ∧
    ((∀ a ∈ s.assessments, a.id ≠ env1.now) →
      ∃ created : Assessment,
        upsertAssessment env1 s jobId data1 =
          (⟨200, .assessment (some created)⟩,
            { s with assessments := s.assessments ++ [created] }) ∧
        created.jobId = jobId ∧ created.id = env1.now ∧
        (upsertAssessment env2 (upsertAssessment env1 s jobId data1).2 jobId data2).1
          = ⟨200, .assessment (some (Assessment.merge data2 created))⟩ ∧
        (upsertAssessment env2 (upsertAssessment env1 s jobId data1).2 jobId data2).2.assessments
          = s.assessments ++ [Assessment.merge data2 created] ∧
        (Assessment.merge data2 created).id = created.id ∧
        (upsertAssessment env2 (upsertAssessment env1 s jobId data1).2 jobId
            data2).2.assessments.length
          = (upsertAssessment env1 s jobId data1).2.assessments.length) := by
  refine ⟨fun hstored => upsertAssessment_of_collision env1 s jobId data1 hE1 hnone hstored, ?_⟩
  intro hfresh
  have hrun1 := upsertAssessment_of_new env1 s jobId data1 hE1 hnone hfresh
  refine ⟨_, hrun1, rfl, rfl, ?_⟩
  rw [hrun1]
  have hfirst : firstAssessmentOfJob
      (s.assessments ++
        [{ id := env1.now, jobId := jobId, title := data1.title, sections := data1.sections,
           createdAt := env1.date }]) jobId
      = some { id := env1.now, jobId := jobId, title := data1.title, sections := data1.sections,
               createdAt := env1.date } := by
    unfold firstAssessmentOfJob
    rw [List.filter_append, filter_jobId_eq_nil s.assessments jobId hnone]
    simp
  have hrun2 := upsertAssessment_of_existing env2
    { s with assessments := s.assessments ++
        [{ id := env1.now, jobId := jobId, title := data1.title, sections := data1.sections,
           createdAt := env1.date }] } jobId data2 _ hE2 hfirst
  have hupd : Table.update (fun a : Assessment => a.id)
      (s.assessments ++
        [{ id := env1.now, jobId := jobId, title := data1.title, sections := data1.sections,
           createdAt := env1.date }]) env1.now (Assessment.merge data2)
      = s.assessments ++ [Assessment.merge data2
          { id := env1.now, jobId := jobId, title := data1.title, sections := data1.sections,
            createdAt := env1.date }] := by
    rw [Table.update_append, Table.update_of_absent _ _ _ _ hfresh]
    simp [Table.update, Table.modifyWhere]
  rw [hrun2]
  simp only [hupd]
  refine ⟨?_, trivial, rfl, by simp⟩
  rw [Table.get_append_of_absent _ _ _ _ hfresh]
  simp [Table.get, Assessment.merge]

theorem upsertAssessment_creates_then_updates_witness :
    (∃ created : Assessment,
      upsertAssessment (calmEnv 1700000000000) seededStore 7 (titledAssessment "Draft") =
        (⟨200, .assessment (some created)⟩,
          { seededStore with assessments := seededStore.assessments ++ [created] }) ∧
      created.jobId = 7 ∧ created.id = (calmEnv 1700000000000).now ∧
      (upsertAssessment (calmEnv 1700000000500)
          (upsertAssessment (calmEnv 1700000000000) seededStore 7 (titledAssessment "Draft")).2 7
          (titledAssessment "Final")).1
        = ⟨200, .assessment (some (Assessment.merge (titledAssessment "Final") created))⟩ ∧
      (upsertAssessment (calmEnv 1700000000500)
          (upsertAssessment (calmEnv 1700000000000) seededStore 7 (titledAssessment "Draft")).2 7
          (titledAssessment "Final")).2.assessments
        = seededStore.assessments ++ [Assessment.merge (titledAssessment "Final") created] ∧
      (Assessment.merge (titledAssessment "Final") created).id = created.id ∧
      (upsertAssessment (calmEnv 1700000000500)
          (upsertAssessment (calmEnv 1700000000000) seededStore 7 (titledAssessment "Draft")).2 7
          (titledAssessment "Final")).2.assessments.length
        = (upsertAssessment (calmEnv 1700000000000) seededStore 7
            (titledAssessment "Draft")).2.assessments.length) ∧
    upsertAssessment (calmEnv 1700000000000)
        { seededStore with assessments := seededStore.assessments ++
          [{ id := 1700000000000, jobId := 7, title := some "Draft", sections := none,
             createdAt := 1700000000000 }] } 8 (titledAssessment "Other")
      = (⟨400, .error constraintErrorMessage⟩,
          { seededStore with assessments := seededStore.assessments ++
            [{ id := 1700000000000, jobId := 7, title := some "Draft", sections := none,
               createdAt := 1700000000000 }] }) :=
  ⟨(upsertAssessment_creates_then_updates (calmEnv 1700000000000) (calmEnv 1700000000500)
      seededStore 7 (titledAssessment "Draft") (titledAssessment "Final")
      (shouldError_calmEnv 1700000000000) (shouldError_calmEnv 1700000000500)
      (by decide)).2 (by decide),
   (upsertAssessment_creates_then_updates (calmEnv 1700000000000) (calmEnv 1700000000500)
      { seededStore with assessments := seededStore.assessments ++
        [{ id := 1700000000000, jobId := 7, title := some "Draft", sections := none,
           createdAt := 1700000000000 }] } 8 (titledAssessment "Other")
      (titledAssessment "Final") (shouldError_calmEnv 1700000000000)
      (shouldError_calmEnv 1700000000500) (by decide)).1 (by decide)⟩

theorem invariant_upsertAssessment (env : Env) (s : Store) (jobId : Int) (data : AssessmentData)
    (hk : data.jobId = none ∨ data.jobId = some jobId)
    (hu : UniqueAssessmentIds s.assessments) (hd : DistinctJobIds s.assessments) :
    UniqueAssessmentIds (upsertAssessment env s jobId data).2.assessments ∧
    DistinctJobIds (upsertAssessment env s jobId data).2.assessments := by
  cases hE : shouldError true env.random
  · rcases firstAssessmentOfJob_cases s.assessments jobId with ⟨_, hnone⟩ | ⟨a, ha, hmem, hjob⟩
    · by_cases hfresh : ∀ a ∈ s.assessments, a.id ≠ env.now
      · rw [upsertAssessment_of_new env s jobId data hE hnone hfresh]
        constructor
        · unfold UniqueAssessmentIds at *
          rw [List.map_append, List.nodup_append]
          refine ⟨hu, by simp, ?_⟩
          intro x hx hx'
          obtain ⟨r, hr, rfl⟩ := List.mem_map.1 hx
          simp only [List.map_cons, List.map_nil, List.mem_singleton] at hx'
          exact hfresh r hr hx'
        · unfold DistinctJobIds at *
          rw [List.map_append, List.nodup_append]
          refine ⟨hd, by simp, ?_⟩
          intro x hx hx'
          obtain ⟨r, hr, rfl⟩ := List.mem_map.1 hx
          simp only [List.map_cons, List.map_nil, List.mem_singleton] at hx'
          exact hnone r hr hx'
      · rw [upsertAssessment_of_collision env s jobId data hE hnone (by simpa using hfresh)]
        exact ⟨hu, hd⟩
    · rw [upsertAssessment_of_existing env s jobId data a hE ha]
      constructor
      · unfold UniqueAssessmentIds at *
        rw [Table.update_map_eq (fun a : Assessment => a.id) s.assessments a.id
          (Assessment.merge data) (fun a => a.id) (fun r _ _ => rfl)]
        exact hu
      · unfold DistinctJobIds at *
        rw [Table.update_map_eq (fun a : Assessment => a.id) s.assessments a.id
          (Assessment.merge data) (fun a => a.jobId)]
        · exact hd
        · intro r hr hid
          have hra : r = a := List.inj_on_of_nodup_map hu hr hmem hid
          rw [hra]
          rcases hk with h | h <;> simp [Assessment.merge, h, hjob]
  · rw [upsertAssessment_of_fail env s jobId data hE]
    exact ⟨hu, hd⟩

theorem invariant_runUpserts (requests : List UpsertRequest) :
    ∀ s : Store, UniqueAssessmentIds s.assessments → DistinctJobIds s.assessments →
      (∀ r ∈ requests, r.KeepsJobId) →
      UniqueAssessmentIds (runUpserts s requests).assessments ∧
      DistinctJobIds (runUpserts s requests).assessments := by
  induction requests with
  | nil =>
    intro s hu hd _
    exact ⟨hu, hd⟩
  | cons r rest ih =>
    intro s hu hd hk
    have hstep := invariant_upsertAssessment r.env s r.jobId r.data
      (hk r (List.mem_cons_self r rest)) hu hd
    exact ih (upsertAssessment r.env s r.jobId r.data).2 hstep.1 hstep.2
      (fun x hx => hk x (List.mem_cons_of_mem r hx))

/-- C20 (as stated, refuted): on the seeded assessments (jobIds 1 and 2) the
request `PUT /api/assessments/1` with a body whose jobId is 2 is answered 200
and leaves two assessments with jobId 2. -/
theorem upsert_body_jobId_breaks_uniqueness :
    DistinctJobIds seededStore.assessments ∧
    (upsertAssessment (calmEnv 7) seededStore 1 (assessmentForJob 2)).1.status = 200 ∧
    (runUpserts seededStore [⟨calmEnv 7, 1, assessmentForJob 2⟩]).assessments.map
        (fun a => (a.id, a.jobId)) = [(1, 2), (2, 2)] ∧
    ¬ DistinctJobIds (runUpserts seededStore [⟨calmEnv 7, 1, assessmentForJob 2⟩]).assessments := by
  decide!

/-- C20 (amended): starting from the seeded assessments, after every sequence
of upsert-assessment requests whose bodies carry no jobId or the jobId of
their path, no two stored assessments share a jobId (and none share an id). -/
theorem distinct_jobIds_after_upserts (s : Store) (requests : List UpsertRequest)
    (hseed : s.assessments = seedAssessments) (hk : ∀ r ∈ requests, r.KeepsJobId) :
    DistinctJobIds (runUpserts s requests).assessments ∧
    UniqueAssessmentIds (runUpserts s requests).assessments := by
  have hu : UniqueAssessmentIds s.assessments := by rw [hseed]; decide
  have hd : DistinctJobIds s.assessments := by rw [hseed]; decide
  have h := invariant_runUpserts requests s hu hd hk
  exact ⟨h.2, h.1⟩

theorem distinct_jobIds_after_upserts_witness :
    DistinctJobIds (runUpserts seededStore
      [⟨calmEnv 1700000000000, 7, titledAssessment "Draft"⟩,
       ⟨calmEnv 1700000000500, 1, assessmentForJob 1⟩]).assessments ∧
    UniqueAssessmentIds (runUpserts seededStore
      [⟨calmEnv 1700000000000, 7, titledAssessment "Draft"⟩,
       ⟨calmEnv 1700000000500, 1, assessmentForJob 1⟩]).assessments :=
  distinct_jobIds_after_upserts seededStore
    [⟨calmEnv 1700000000000, 7, titledAssessment "Draft"⟩,
     ⟨calmEnv 1700000000500, 1, assessmentForJob 1⟩] rfl
    (by
      intro r hr
      simp only [List.mem_cons, List.mem_singleton, List.not_mem_nil, or_false] at hr
      rcases hr with rfl | rfl
      · exact Or.inl rfl
      · exact Or.inr rfl)

/-! ## The filters of the list handlers -/

theorem includes_iff (text part : String) : includes text part = true ↔ IsSubstring part text := by
  unfold includes IsSubstring
  rw [List.any_eq_true]
  constructor
  · rintro ⟨rest, hrest, hpre⟩
    rw [List.mem_tails] at hrest
    rw [List.isPrefixOf_iff_prefix] at hpre
    obtain ⟨before, hb⟩ := hrest
    obtain ⟨after, ha⟩ := hpre
    refine ⟨before, after, ?_⟩
    rw [← hb, ← ha, List.append_assoc]
  · rintro ⟨before, after, h⟩
    refine ⟨part.data ++ after, ?_, ?_⟩
    · rw [List.mem_tails]
      exact ⟨before, by rw [h, List.append_assoc]⟩
    · rw [List.isPrefixOf_iff_prefix]
      exact ⟨after, rfl⟩

theorem toLowerCase_eq_empty (text : String) : toLowerCase text = "" ↔ text = "" := by
  unfold toLowerCase
  constructor
  · intro h
    have hd : (String.mk (text.data.map Char.toLower)).data = ("" : String).data := by rw [h]
    have hnil : text.data = [] := by simpa using hd
    cases text
    simp_all
  · intro h
    rw [h]
    rfl

theorem filterThrowing_ok {α : Type} (test : α → Except String Bool) (l r : List α)
    (h : filterThrowing test l = .ok r) :
    r = l.filter (holds test) ∧ ∀ x ∈ l, ∃ keep, test x = .ok keep := by
  induction l generalizing r with
  | nil =>
    simp only [filterThrowing, Except.ok.injEq] at h
    exact ⟨h.symm, fun x hx => absurd hx (List.not_mem_nil x)⟩
  | cons a t ih =>
    unfold filterThrowing at h
    cases ha : test a with
    | error m => rw [ha] at h; cases h
    | ok keep =>
      rw [ha] at h
      cases ht : filterThrowing test t with
      | error m => rw [ht] at h; cases h
      | ok kept =>
        rw [ht] at h
        simp only [Except.ok.injEq] at h
        obtain ⟨hk, hall⟩ := ih kept ht
        constructor
        · rw [← h, List.filter_cons]
          have : holds test a = keep := by simp [holds, ha]
          rw [this, hk]
        · intro x hx
          rcases List.mem_cons.1 hx with rfl | hx'
          · exact ⟨keep, ha⟩
          · exact hall x hx'

theorem filterThrowing_of_total {α : Type} (test : α → Except String Bool) (l : List α)
    (h : ∀ x ∈ l, ∃ keep, test x = .ok keep) :
    filterThrowing test l = .ok (l.filter (holds test)) := by
  induction l with
  | nil => rfl
  | cons a t ih =>
    obtain ⟨keep, ha⟩ := h a (List.mem_cons_self a t)
    have ht := ih (fun x hx => h x (List.mem_cons_of_mem a hx))
    unfold filterThrowing
    rw [ha, ht]
    have : holds test a = keep := by simp [holds, ha]
    rw [List.filter_cons, this]

theorem jobPasses_iff {lower : String → String} (search status : String) (job : Job) :
    jobPasses lower search status job = true ↔ JobPasses lower search status job := by
  unfold jobPasses JobPasses
  simp only [Bool.and_eq_true, Bool.or_eq_true, beq_iff_eq]
  apply and_congr
  · rw [or_assoc]
    apply or_congr Iff.rfl
    apply or_congr
    · cases job.title with
      | none => simp
      | some t => simp [includes_iff]
    · cases job.tags with
      | none => simp
      | some tags => simp [includes_iff, List.any_eq_true]
  · rfl

theorem jobMatchesSearch_holds {lower : String → String} (search : String) (job : Job) (keep : Bool)
    (hne : search ≠ "") (h : jobMatchesSearch lower search job = .ok keep) :
    keep = jobPasses lower search "" job := by
  unfold jobMatchesSearch at h
  unfold jobPasses
  cases ht : job.title with
  | none => rw [ht] at h; cases h
  | some t =>
    rw [ht] at h
    simp only at h
    by_cases hinc : includes (lower t) (lower search) = true
    · rw [if_pos hinc] at h
      simp only [Except.ok.injEq] at h
      simp [← h, hinc]
    · rw [if_neg hinc] at h
      cases hg : job.tags with
      | none => rw [hg] at h; cases h
      | some tags =>
        rw [hg] at h
        simp only [Except.ok.injEq] at h
        simp [← h, hinc, hne]

theorem jobMatchesSearch_total {lower : String → String} (search : String) (job : Job)
    (h : job.title.isSome = true ∧ job.tags.isSome = true) :
    ∃ keep, jobMatchesSearch lower search job = .ok keep := by
  unfold jobMatchesSearch
  obtain ⟨t, ht⟩ := Option.isSome_iff_exists.1 h.1
  obtain ⟨g, hg⟩ := Option.isSome_iff_exists.1 h.2
  rw [ht, hg]
  simp only
  split_ifs
  · exact ⟨true, rfl⟩
  · exact ⟨_, rfl⟩

/-- When the filters of list-jobs return, they return the jobs that pass. -/
theorem filterJobs_ok {lower : String → String} (search status : String) (jobs found : List Job)
    (h : filterJobs lower search status jobs = .ok found) :
    found = jobs.filter (jobPasses lower search status) := by
  unfold filterJobs at h
  by_cases hs : search = ""
  · subst hs
    simp only [ne_eq, not_true_eq_false, if_false, Except.ok.injEq] at h
    rw [← h]
    by_cases hst : status = ""
    · subst hst
      simp only [ne_eq, not_true_eq_false, if_false]
      exact (List.filter_eq_self.2 (fun x _ => by simp [jobPasses])).symm
    · simp only [ne_eq, hst, not_false_eq_true, if_true]
      apply List.filter_congr
      intro x _
      simp [jobPasses, hst]
  · rw [if_pos hs] at h
    cases hf : filterThrowing (jobMatchesSearch lower search) jobs with
    | error m => rw [hf] at h; cases h
    | ok kept =>
      rw [hf] at h
      simp only [Except.ok.injEq] at h
      obtain ⟨hk, hall⟩ := filterThrowing_ok _ _ _ hf
      have hkept : kept = jobs.filter (jobPasses lower search "") := by
        rw [hk]
        apply List.filter_congr
        intro x hx
        obtain ⟨keep, hkeep⟩ := hall x hx
        rw [← jobMatchesSearch_holds search x keep hs hkeep]
        simp [holds, hkeep]
      rw [← h, hkept]
      by_cases hst : status = ""
      · subst hst
        simp
      · simp only [ne_eq, hst, not_false_eq_true, if_true, List.filter_filter]
        apply List.filter_congr
        intro x _
        have hst' : (status == "") = false := by simpa using hst
        simp only [jobPasses, hst', Bool.false_or]
        simp [Bool.and_comm]

theorem filterJobs_returns {lower : String → String} (search status : String) (jobs : List Job)
    (h : search = "" ∨ JobsHaveText jobs) :
    ∃ found, filterJobs lower search status jobs = .ok found := by
  unfold filterJobs
  by_cases hs : search = ""
  · simp [hs]
  · rcases h with h | h
    · exact absurd h hs
    · rw [if_pos hs, filterThrowing_of_total _ _
        (fun x hx => jobMatchesSearch_total search x (h x hx))]
      exact ⟨_, rfl⟩

theorem candidateMatchesSearch_holds {lower : String → String}
    (search : String) (c : Candidate) (keep : Bool)
    (hne : search ≠ "") (h : candidateMatchesSearch lower search c = .ok keep) :
    keep = candidatePasses lower search "" c := by
  unfold candidateMatchesSearch at h
  unfold candidatePasses
  cases hn : c.name with
  | none => rw [hn] at h; cases h
  | some t =>
    rw [hn] at h
    simp only at h
    by_cases hinc : includes (lower t) (lower search) = true
    · rw [if_pos hinc] at h
      simp only [Except.ok.injEq] at h
      simp [← h, hinc]
    · rw [if_neg hinc] at h
      cases hg : c.email with
      | none => rw [hg] at h; cases h
      | some email =>
        rw [hg] at h
        simp only [Except.ok.injEq] at h
        simp [← h, hinc, hne]

theorem candidateMatchesSearch_total {lower : String → String} (search : String) (c : Candidate)
    (h : c.name.isSome = true ∧ c.email.isSome = true) :
    ∃ keep, candidateMatchesSearch lower search c = .ok keep := by
  unfold candidateMatchesSearch
  obtain ⟨t, ht⟩ := Option.isSome_iff_exists.1 h.1
  obtain ⟨g, hg⟩ := Option.isSome_iff_exists.1 h.2
  rw [ht, hg]
  simp only
  split_ifs
  · exact ⟨true, rfl⟩
  · exact ⟨_, rfl⟩

/-- When the filters of list-candidates return, they return the candidates
that pass. -/
theorem filterCandidates_ok {lower : String → String}
    (search stage : String) (candidates found : List Candidate)
    (h : filterCandidates lower search stage candidates = .ok found) :
    found = candidates.filter (candidatePasses lower search stage) := by
  unfold filterCandidates at h
  by_cases hs : search = ""
  · subst hs
    simp only [ne_eq, not_true_eq_false, if_false, Except.ok.injEq] at h
    rw [← h]
    by_cases hst : stage = ""
    · subst hst
      simp only [ne_eq, not_true_eq_false, if_false]
      exact (List.filter_eq_self.2 (fun x _ => by simp [candidatePasses])).symm
    · simp only [ne_eq, hst, not_false_eq_true, if_true]
      apply List.filter_congr
      intro x _
      simp [candidatePasses, hst]
  · rw [if_pos hs] at h
    cases hf : filterThrowing (candidateMatchesSearch lower search) candidates with
    | error m => rw [hf] at h; cases h
    | ok kept =>
      rw [hf] at h
      simp only [Except.ok.injEq] at h
      obtain ⟨hk, hall⟩ := filterThrowing_ok _ _ _ hf
      have hkept : kept = candidates.filter (candidatePasses lower search "") := by
        rw [hk]
        apply List.filter_congr
        intro x hx
        obtain ⟨keep, hkeep⟩ := hall x hx
        rw [← candidateMatchesSearch_holds search x keep hs hkeep]
        simp [holds, hkeep]
      rw [← h, hkept]
      by_cases hst : stage = ""
      · subst hst
        simp
      · simp only [ne_eq, hst, not_false_eq_true, if_true, List.filter_filter]
        apply List.filter_congr
        intro x _
        have hst' : (stage == "") = false := by simpa using hst
        simp only [candidatePasses, hst', Bool.false_or]
        simp [Bool.and_comm]

theorem filterCandidates_returns {lower : String → String}
    (search stage : String) (candidates : List Candidate)
    (h : search = "" ∨ CandidatesHaveText candidates) :
    ∃ found, filterCandidates lower search stage candidates = .ok found := by
  unfold filterCandidates
  by_cases hs : search = ""
  · simp [hs]
  · rcases h with h | h
    · exact absurd h hs
    · rw [if_pos hs, filterThrowing_of_total _ _
        (fun x hx => candidateMatchesSearch_total search x (h x hx))]
      exact ⟨_, rfl⟩

/-! ## Slices and pages -/

theorem jsSlice_sublist {α : Type} (array : List α) (start stop : Int) :
    (jsSlice array start stop).Sublist array := by
  unfold jsSlice
  exact (List.take_sublist _ _).trans (List.drop_sublist _ _)

/-- For a page number of at least 1 and a page size of at least 1 the slice
of a page is the run of `pageSize` records after the first
`(page - 1) * pageSize`. -/
theorem jsSlice_page {α : Type} (records : List α) (k n : Nat) :
    jsSlice records (((k : Int) + 1 - 1) * (n : Int)) (((k : Int) + 1 - 1) * (n : Int) + (n : Int))
      = (records.drop (k * n)).take n := by
  unfold jsSlice relativeIndex
  have h1 : ((k : Int) + 1 - 1) * (n : Int) = ((k * n : Nat) : Int) := by push_cast; ring
  have h2 : ((k : Int) + 1 - 1) * (n : Int) + (n : Int) = ((k * n + n : Nat) : Int) := by
    push_cast; ring
  rw [h2, h1]
  have hn1 : ¬ (((k * n : Nat) : Int) < 0) := by omega
  have hn2 : ¬ (((k * n + n : Nat) : Int) < 0) := by omega
  simp only [hn1, hn2, if_false, Int.toNat_ofNat]
  rcases Nat.le_total (k * n) records.length with hle | hle
  · rw [Nat.min_eq_left hle]
    rcases Nat.le_total (k * n + n) records.length with hle2 | hle2
    · rw [Nat.min_eq_left hle2, Nat.add_sub_cancel_left]
    · rw [Nat.min_eq_right hle2]
      rw [List.take_of_length_le (by rw [List.length_drop]),
        List.take_of_length_le (by rw [List.length_drop]; omega)]
  · rw [Nat.min_eq_right hle, Nat.min_eq_right (by omega)]
    rw [List.drop_of_length_le (le_refl _), List.drop_of_length_le hle]
    simp

theorem ceilDiv_spec (a b : Int) (hb : 0 < b) :
    a ≤ ceilDiv a b * b ∧ (ceilDiv a b - 1) * b < a := by
  unfold ceilDiv
  rw [Int.fdiv_eq_ediv _ (le_of_lt hb)]
  have h1 := Int.ediv_add_emod (-a) b
  have h2 := Int.emod_nonneg (-a) (ne_of_gt hb)
  have h3 := Int.emod_lt_of_pos (-a) hb
  have e1 : -(-a / b) * b = -(b * (-a / b)) := by ring
  have e2 : (-(-a / b) - 1) * b = -(b * (-a / b)) - b := by ring
  rw [e1, e2]
  constructor <;> omega

theorem ceilDiv_unique (a b z : Int) (hb : 0 < b) (h1 : a ≤ z * b) (h2 : (z - 1) * b < a) :
    ceilDiv a b = z := by
  obtain ⟨c1, c2⟩ := ceilDiv_spec a b hb
  have hlt1 : (z - 1) * b < ceilDiv a b * b := lt_of_lt_of_le h2 c1
  have hlt2 : (ceilDiv a b - 1) * b < z * b := lt_of_lt_of_le c2 h1
  have k1 := lt_of_mul_lt_mul_right hlt1 (le_of_lt hb)
  have k2 := lt_of_mul_lt_mul_right hlt2 (le_of_lt hb)
  omega

/-- The integer `ceilDiv a b` is the ceiling of the quotient `a / b`. -/
theorem ceilDiv_eq_ceil (a b : Int) (hb : 0 < b) : ceilDiv a b = ⌈(a : ℚ) / (b : ℚ)⌉ := by
  obtain ⟨c1, c2⟩ := ceilDiv_spec a b hb
  symm
  rw [Int.ceil_eq_iff]
  have hbq : (0 : ℚ) < (b : ℚ) := by exact_mod_cast hb
  constructor
  · rw [lt_div_iff₀ hbq]
    have : (((ceilDiv a b - 1) * b : Int) : ℚ) < ((a : Int) : ℚ) := by exact_mod_cast c2
    push_cast at this
    exact this
  · rw [div_le_iff₀ hbq]
    have : ((a : Int) : ℚ) ≤ ((ceilDiv a b * b : Int) : ℚ) := by exact_mod_cast c1
    push_cast at this
    exact this

theorem ceilDiv_nonneg (a b : Int) (ha : 0 ≤ a) (hb : 0 < b) : 0 ≤ ceilDiv a b := by
  obtain ⟨c1, _⟩ := ceilDiv_spec a b hb
  by_contra hneg
  have h1 : ceilDiv a b ≤ -1 := by omega
  have h2 : ceilDiv a b * b ≤ -1 * b := Int.mul_le_mul_of_nonneg_right h1 (le_of_lt hb)
  omega

/-! ## The list handlers -/

theorem orderBy_default (jobs : List Job) : orderBy "order" jobs = .ok (orderByOrder jobs) := by
  unfold orderBy
  rw [if_pos rfl]

theorem mem_indexOrder {κ : Type} (before : κ → κ → Bool) [DecidableEq κ]
    (key : Job → Option κ) (jobs : List Job) (j : Job) (h : j ∈ indexOrder before key jobs) :
    j ∈ jobs := by
  unfold indexOrder at h
  have := (List.perm_insertionSort _ _).mem_iff.1 h
  exact (List.mem_filter.1 this).1

theorem mem_of_orderBy (sort : String) (jobs sorted : List Job)
    (h : orderBy sort jobs = .ok sorted) : ∀ j ∈ sorted, j ∈ jobs := by
  intro j hj
  unfold orderBy at h
  split_ifs at h <;> simp only [Except.ok.injEq] at h <;> rw [← h] at hj
  · exact (mem_orderByOrder jobs j).1 hj
  · exact mem_indexOrder _ _ jobs j hj
  · exact mem_indexOrder _ _ jobs j hj
  · exact mem_indexOrder _ _ jobs j hj
  · exact mem_indexOrder _ _ jobs j hj
  · exact mem_indexOrder _ _ jobs j hj
  · exact mem_indexOrder _ _ jobs j hj

theorem listJobs_ok {lower : String → String} (env : Env) (s : Store) (q : JobsQuery) (p : Page Job)
    (h : listJobs lower env s q = .ok p) :
    shouldError false env.random = false ∧
    ∃ sorted found, orderBy (orText q.sort "order") s.jobs = .ok sorted ∧
      filterJobs lower (q.search.getD "") (q.status.getD "") sorted = .ok found ∧
      p = paginate found (orDefault q.page 1) (orDefault q.pageSize 10) := by
  unfold listJobs at h
  cases hE : shouldError false env.random
  · refine ⟨rfl, ?_⟩
    rw [hE] at h
    simp only [Bool.false_eq_true, if_false] at h
    cases hs : orderBy (orText q.sort "order") s.jobs with
    | error m => rw [hs] at h; cases h
    | ok sorted =>
      rw [hs] at h
      simp only at h
      cases hf : filterJobs lower (q.search.getD "") (q.status.getD "") sorted with
      | error m => rw [hf] at h; cases h
      | ok found =>
        rw [hf] at h
        simp only [ListResponse.ok.injEq] at h
        exact ⟨sorted, found, rfl, hf, h.symm⟩
  · rw [hE] at h
    simp only [if_true] at h
    cases h

theorem listJobs_of_calm {lower : String → String}
    (env : Env) (s : Store) (q : JobsQuery) (sorted found : List Job)
    (hE : shouldError false env.random = false)
    (hs : orderBy (orText q.sort "order") s.jobs = .ok sorted)
    (hf : filterJobs lower (q.search.getD "") (q.status.getD "") sorted = .ok found) :
    listJobs lower env s q =
      .ok (paginate found (orDefault q.page 1) (orDefault q.pageSize 10)) := by
  unfold listJobs
  simp only [hE, Bool.false_eq_true, if_false, hs, hf]

theorem listCandidates_ok {lower : String → String}
    (env : Env) (s : Store) (q : CandidatesQuery) (p : Page Candidate)
    (h : listCandidates lower env s q = .ok p) :
    shouldError false env.random = false ∧
    ∃ found, filterCandidates lower (q.search.getD "") (q.stage.getD "")
        (candidatesToArray s.candidates) = .ok found ∧
      p = paginate found (orDefault q.page 1) (orDefault q.pageSize 50) := by
  unfold listCandidates at h
  cases hE : shouldError false env.random
  · refine ⟨rfl, ?_⟩
    rw [hE] at h
    simp only [Bool.false_eq_true, if_false] at h
    cases hf : filterCandidates lower (q.search.getD "") (q.stage.getD "")
        (candidatesToArray s.candidates) with
    | error m => rw [hf] at h; cases h
    | ok found =>
      rw [hf] at h
      simp only [ListResponse.ok.injEq] at h
      exact ⟨found, rfl, h.symm⟩
  · rw [hE] at h
    simp only [if_true] at h
    cases h

theorem listCandidates_of_calm {lower : String → String}
    (env : Env) (s : Store) (q : CandidatesQuery)
    (found : List Candidate) (hE : shouldError false env.random = false)
    (hf : filterCandidates lower (q.search.getD "") (q.stage.getD "")
        (candidatesToArray s.candidates) = .ok found) :
    listCandidates lower env s q
      = .ok (paginate found (orDefault q.page 1) (orDefault q.pageSize 50)) := by
  unfold listCandidates
  simp only [hE, Bool.false_eq_true, if_false, hf]

/-- List-jobs returns a page whenever no failure is injected, the sort key is
the default one, and the search is empty or every job has a title and tags. -/
theorem listJobs_returns {lower : String → String} (env : Env) (s : Store) (q : JobsQuery)
    (hE : shouldError false env.random = false) (hsort : orText q.sort "order" = "order")
    (htext : q.search.getD "" = "" ∨ JobsHaveText s.jobs) :
    ∃ p, listJobs lower env s q = .ok p := by
  have htext' : q.search.getD "" = "" ∨ JobsHaveText (orderByOrder s.jobs) := by
    rcases htext with h | h
    · exact Or.inl h
    · exact Or.inr (fun j hj => h j ((mem_orderByOrder s.jobs j).1 hj))
  obtain ⟨found, hf⟩ := filterJobs_returns (q.search.getD "") (q.status.getD "") _ htext'
  exact ⟨_, listJobs_of_calm env s q _ found hE (by rw [hsort]; exact orderBy_default s.jobs) hf⟩

theorem mem_candidatesToArray (candidates : List Candidate) (c : Candidate) :
    c ∈ candidatesToArray candidates ↔ c ∈ candidates :=
  (List.perm_insertionSort _ candidates).mem_iff

/-- List-candidates returns a page whenever no failure is injected and the
search is empty or every candidate has a name and an email. -/
theorem listCandidates_returns {lower : String → String}
    (env : Env) (s : Store) (q : CandidatesQuery)
    (hE : shouldError false env.random = false)
    (htext : q.search.getD "" = "" ∨ CandidatesHaveText s.candidates) :
    ∃ p, listCandidates lower env s q = .ok p := by
  have htext' : q.search.getD "" = "" ∨ CandidatesHaveText (candidatesToArray s.candidates) := by
    rcases htext with h | h
    · exact Or.inl h
    · exact Or.inr (fun c hc => h c ((mem_candidatesToArray s.candidates c).1 hc))
  obtain ⟨found, hf⟩ := filterCandidates_returns (q.search.getD "") (q.stage.getD "") _ htext'
  exact ⟨_, listCandidates_of_calm env s q found hE hf⟩

/-- The jobs found by list-jobs under the default sort key. -/
theorem listJobs_found {lower : String → String}
    (env : Env) (s : Store) (q : JobsQuery) (p : Page Job)
    (hsort : orText q.sort "order" = "order") (h : listJobs lower env s q = .ok p) :
    p = paginate ((orderByOrder s.jobs).filter
          (jobPasses lower (q.search.getD "") (q.status.getD "")))
        (orDefault q.page 1) (orDefault q.pageSize 10) := by
  obtain ⟨_, sorted, found, hs, hf, hp⟩ := listJobs_ok env s q p h
  rw [hsort, orderBy_default] at hs
  simp only [Except.ok.injEq] at hs
  rw [← hs] at hf
  rw [hp, filterJobs_ok _ _ _ _ hf]

/-- The candidates found by list-candidates. -/
theorem listCandidates_found {lower : String → String}
    (env : Env) (s : Store) (q : CandidatesQuery) (p : Page Candidate)
    (h : listCandidates lower env s q = .ok p) :
    p = paginate ((candidatesToArray s.candidates).filter
          (candidatePasses lower (q.search.getD "") (q.stage.getD "")))
        (orDefault q.page 1) (orDefault q.pageSize 50) := by
  obtain ⟨_, found, hf, hp⟩ := listCandidates_ok env s q p h
  rw [hp, filterCandidates_ok _ _ _ _ hf]

theorem length_filter_orderByOrder (jobs : List Job) (p : Job → Bool) :
    ((orderByOrder jobs).filter p).length = (jobs.filter p).length :=
  ((List.perm_insertionSort Job.orderLE jobs).filter p).length_eq

theorem length_filter_candidatesToArray (candidates : List Candidate) (p : Candidate → Bool) :
    ((candidatesToArray candidates).filter p).length = (candidates.filter p).length :=
  ((List.perm_insertionSort _ candidates).filter p).length_eq

/-- C12: when a list handler returns a page (list-jobs under the default sort
key), `total` is the number of records of the collection that pass the
filters, whatever the page, and for a positive page size `totalPages` is the
ceiling of `total / pageSize`: the least number of pages of that size that
hold `total` records.  A page is returned whenever no failure is injected and
the search is empty or the records have their text fields.  With 23 records
and a page size of 10 there are 3 pages. -/
theorem list_total_and_totalPages (lower : String → String) (env : Env) (s : Store) :
    (∀ (q : JobsQuery) (p : Page Job), orText q.sort "order" = "order" →
      listJobs lower env s q = .ok p →
      p.total =
        ((s.jobs.filter (jobPasses lower (q.search.getD "") (q.status.getD ""))).length : Int) ∧
      p.pageSize = orDefault q.pageSize 10 ∧
      (0 < p.pageSize →
        p.totalPages = ⌈(p.total : ℚ) / (p.pageSize : ℚ)⌉ ∧
        p.total ≤ p.totalPages * p.pageSize ∧ (p.totalPages - 1) * p.pageSize < p.total)) ∧
    (∀ (q : CandidatesQuery) (p : Page Candidate), listCandidates lower env s q = .ok p →
      p.total = ((s.candidates.filter
          (candidatePasses lower (q.search.getD "") (q.stage.getD ""))).length : Int) ∧
      p.pageSize = orDefault q.pageSize 50 ∧
      (0 < p.pageSize →
        p.totalPages = ⌈(p.total : ℚ) / (p.pageSize : ℚ)⌉ ∧
        p.total ≤ p.totalPages * p.pageSize ∧ (p.totalPages - 1) * p.pageSize < p.total)) ∧
    (shouldError false env.random = false →
      (∀ q : JobsQuery, orText q.sort "order" = "order" →
        (q.search.getD "" = "" ∨ JobsHaveText s.jobs) → ∃ p, listJobs lower env s q = .ok p) ∧
      (∀ q : CandidatesQuery, (q.search.getD "" = "" ∨ CandidatesHaveText s.candidates) →
        ∃ p, listCandidates lower env s q = .ok p)) ∧
    ceilDiv 23 10 = 3 ∧ ⌈((23 : Int) : ℚ) / ((10 : Int) : ℚ)⌉ = 3 := by
  refine ⟨?_, ?_, ?_, by decide, ?_⟩
  · intro q p hsort h
    rw [listJobs_found env s q p hsort h]
    refine ⟨?_, rfl, ?_⟩
    · simp only [paginate]
      rw [length_filter_orderByOrder]
    · intro hpos
      simp only [paginate] at hpos ⊢
      exact ⟨ceilDiv_eq_ceil _ _ hpos, ceilDiv_spec _ _ hpos⟩
  · intro q p h
    rw [listCandidates_found env s q p h]
    refine ⟨?_, rfl, ?_⟩
    · simp only [paginate]
      rw [length_filter_candidatesToArray]
    · intro hpos
      simp only [paginate] at hpos ⊢
      exact ⟨ceilDiv_eq_ceil _ _ hpos, ceilDiv_spec _ _ hpos⟩
  · intro hE
    exact ⟨fun q hsort htext => listJobs_returns env s q hE hsort htext,
      fun q htext => listCandidates_returns env s q hE htext⟩
  · rw [← ceilDiv_eq_ceil 23 10 (by decide)]
    decide

theorem list_total_and_totalPages_witness :
    (paginate (candidatesToArray (numberedCandidates 23)) 1 10).totalPages
      = ⌈((paginate (candidatesToArray (numberedCandidates 23)) 1 10).total : ℚ)
          / ((paginate (candidatesToArray (numberedCandidates 23)) 1 10).pageSize : ℚ)⌉ ∧
    (paginate (candidatesToArray (numberedCandidates 23)) 1 10).total = 23 ∧
    (paginate (candidatesToArray (numberedCandidates 23)) 1 10).totalPages = 3 :=
  ⟨(((list_total_and_totalPages toLowerCase calmRead (storeOfCandidates (numberedCandidates 23))).2.1
      (pageQuery 1 10) (paginate (candidatesToArray (numberedCandidates 23)) 1 10)
      (listCandidates_of_calm calmRead (storeOfCandidates (numberedCandidates 23))
        (pageQuery 1 10) (candidatesToArray (numberedCandidates 23)) shouldError_calmRead
        rfl)).2.2 (by decide)).1,
   by decide, by decide⟩

theorem paginate_beyond {α : Type} (records : List α) (page pageSize : Int)
    (hn : 0 < pageSize) (hp : ceilDiv (records.length : Int) pageSize < page) :
    (paginate records page pageSize).items = [] := by
  obtain ⟨c1, _⟩ := ceilDiv_spec (records.length : Int) pageSize hn
  have hle : ceilDiv (records.length : Int) pageSize * pageSize ≤ (page - 1) * pageSize :=
    Int.mul_le_mul_of_nonneg_right (by omega) (le_of_lt hn)
  have hstart : (records.length : Int) ≤ (page - 1) * pageSize := le_trans c1 hle
  simp only [paginate, jsSlice]
  have hrel : relativeIndex records.length ((page - 1) * pageSize) = records.length := by
    unfold relativeIndex
    rw [if_neg (by omega)]
    apply Nat.min_eq_right
    omega
  rw [hrel, List.drop_of_length_le (le_refl _)]
  exact List.take_nil

/-- C13 (as stated, refuted): with the five seeded jobs and a page size of 10
there is one page; the page parameter 0 lies below 1 and is served as page 1,
all five jobs.  With a page size of 2 (three pages) the page parameter -1 is
served the slice from -4 to -2: the jobs at orders 2 and 3. -/
theorem page_below_one_is_not_empty :
    listJobs toLowerCase calmRead (storeOfJobs seedJobs) (searchQuery "" 0 10)
      = .ok (paginate (orderByOrder seedJobs) 1 10) ∧
    (paginate (orderByOrder seedJobs) 1 10).totalPages = 1 ∧
    (paginate (orderByOrder seedJobs) 1 10).items.map (fun j => j.id) = [1, 2, 3, 4, 5] ∧
    listJobs toLowerCase calmRead (storeOfJobs seedJobs) (searchQuery "" (-1) 2)
      = .ok (paginate (orderByOrder seedJobs) (-1) 2) ∧
    (paginate (orderByOrder seedJobs) (-1) 2).totalPages = 3 ∧
    (paginate (orderByOrder seedJobs) (-1) 2).items.map (fun j => j.id) = [2, 3] := by
  refine ⟨?_, by decide, by decide, ?_, by decide, by decide⟩
  · exact listJobs_of_calm calmRead (storeOfJobs seedJobs) (searchQuery "" 0 10)
      (orderByOrder seedJobs) (orderByOrder seedJobs) shouldError_calmRead rfl rfl
  · exact listJobs_of_calm calmRead (storeOfJobs seedJobs) (searchQuery "" (-1) 2)
      (orderByOrder seedJobs) (orderByOrder seedJobs) shouldError_calmRead rfl rfl

/-- C13 (amended): when a list handler returns a page for a positive page size
and a page number above `totalPages`, the items are empty; and it does return
a page, not an error, whenever no failure is injected and the search is empty
or the records have their text fields (list-jobs: under the default sort
key). -/
theorem page_beyond_last_is_empty (lower : String → String) (env : Env) (s : Store) :
    (∀ (q : JobsQuery) (p : Page Job), listJobs lower env s q = .ok p →
      0 < p.pageSize → p.totalPages < p.page → p.items = []) ∧
    (∀ (q : CandidatesQuery) (p : Page Candidate), listCandidates lower env s q = .ok p →
      0 < p.pageSize → p.totalPages < p.page → p.items = []) ∧
    (shouldError false env.random = false →
      (∀ q : JobsQuery, orText q.sort "order" = "order" →
        (q.search.getD "" = "" ∨ JobsHaveText s.jobs) → ∃ p, listJobs lower env s q = .ok p) ∧
      (∀ q : CandidatesQuery, (q.search.getD "" = "" ∨ CandidatesHaveText s.candidates) →
        ∃ p, listCandidates lower env s q = .ok p)) := by
  refine ⟨?_, ?_, ?_⟩
  · intro q p h hn hp
    obtain ⟨_, sorted, found, _, _, rfl⟩ := listJobs_ok env s q p h
    exact paginate_beyond found _ _ hn hp
  · intro q p h hn hp
    obtain ⟨_, found, _, rfl⟩ := listCandidates_ok env s q p h
    exact paginate_beyond found _ _ hn hp
  · intro hE
    exact ⟨fun q hsort htext => listJobs_returns env s q hE hsort htext,
      fun q htext => listCandidates_returns env s q hE htext⟩

theorem page_beyond_last_is_empty_witness :
    (paginate (candidatesToArray (numberedCandidates 23)) 4 10).items = [] ∧
    (paginate (candidatesToArray (numberedCandidates 23)) 4 10).total = 23 ∧
    listCandidates toLowerCase calmRead (storeOfCandidates (numberedCandidates 23)) (pageQuery 4 10)
      = .ok (paginate (candidatesToArray (numberedCandidates 23)) 4 10) :=
  ⟨(page_beyond_last_is_empty toLowerCase calmRead (storeOfCandidates (numberedCandidates 23))).2.1
      (pageQuery 4 10) (paginate (candidatesToArray (numberedCandidates 23)) 4 10)
      (listCandidates_of_calm calmRead (storeOfCandidates (numberedCandidates 23))
        (pageQuery 4 10) (candidatesToArray (numberedCandidates 23)) shouldError_calmRead rfl)
      (by decide) (by decide),
   by decide,
   listCandidates_of_calm calmRead (storeOfCandidates (numberedCandidates 23))
     (pageQuery 4 10) (candidatesToArray (numberedCandidates 23)) shouldError_calmRead rfl⟩

theorem jobMatchesSearch_lower {lower : String → String} (search search2 : String)
    (h : lower search2 = lower search) :
    jobMatchesSearch lower search2 = jobMatchesSearch lower search := by
  funext job
  unfold jobMatchesSearch
  rw [h]

theorem filterJobs_lower {lower : String → String} (search search2 status : String)
    (jobs : List Job) (h : lower search2 = lower search)
    (hempty : search2 = "" ↔ search = "") :
    filterJobs lower search2 status jobs = filterJobs lower search status jobs := by
  unfold filterJobs
  rw [jobMatchesSearch_lower search search2 h]
  by_cases hs : search = ""
  · rw [if_neg (not_not.2 hs), if_neg (not_not.2 (hempty.2 hs))]
  · rw [if_pos hs, if_pos (fun h2 => hs (hempty.1 h2))]

/-- C14: whatever function the engine's `toLowerCase` is, when the filters of
list-jobs return, they return exactly the jobs for which the search is empty
or the lower-cased title or some lower-cased tag contains the lower-cased
search, and the status is empty or equals the job's status; two searches with
the same lower-casing (both empty or both not) give the same result, so the
result does not depend on the letter case of the search; empty filters return
every job, and the filters do return when the search is empty or every job has
a title and tags.  The items of a page of list-jobs are stored jobs that pass
the filters, and the search "react" is passed by the job titled "Senior
Frontend Developer" with the tag "React", the two texts "React" and "react"
having the same lower-casing. -/
theorem listJobs_matches_exactly (lower : String → String) (search status : String)
    (jobs : List Job) :
    (∀ found, filterJobs lower search status jobs = .ok found →
      found = jobs.filter (jobPasses lower search status) ∧
      ∀ job, job ∈ found ↔ job ∈ jobs ∧ JobPasses lower search status job) ∧
    (∀ search2, lower search2 = lower search → (search2 = "" ↔ search = "") →
      filterJobs lower search2 status jobs = filterJobs lower search status jobs) ∧
    filterJobs lower "" "" jobs = .ok jobs ∧
    (search = "" ∨ JobsHaveText jobs →
      ∃ found, filterJobs lower search status jobs = .ok found) ∧
    (∀ (env : Env) (s : Store) (q : JobsQuery) (p : Page Job),
      listJobs lower env s q = .ok p →
      ∀ job ∈ p.items,
        job ∈ s.jobs ∧ JobPasses lower (q.search.getD "") (q.status.getD "") job) ∧
    (lower "React" = lower "react" →
      ∀ (job : Job) (tags : List String), job.title = some "Senior Frontend Developer" →
        job.tags = some tags → "React" ∈ tags → JobPasses lower "react" "" job) := by
  refine ⟨?_, ?_, ?_, ?_, ?_, ?_⟩
  · intro found h
    have hf := filterJobs_ok search status jobs found h
    refine ⟨hf, ?_⟩
    intro job
    rw [hf, List.mem_filter, jobPasses_iff]
  · intro search2 h hempty
    exact filterJobs_lower search search2 status jobs h hempty
  · simp [filterJobs]
  · exact filterJobs_returns search status jobs
  · intro env s q p h job hjob
    obtain ⟨_, sorted, found, hs, hf, rfl⟩ := listJobs_ok env s q p h
    have hsub : job ∈ found := (jsSlice_sublist found _ _).subset hjob
    rw [filterJobs_ok _ _ _ _ hf, List.mem_filter, jobPasses_iff] at hsub
    exact ⟨mem_of_orderBy _ _ _ hs job hsub.1, hsub.2⟩
  · intro hreact job tags _ htags hmem
    refine ⟨Or.inr (Or.inr ⟨tags, "React", htags, hmem, ?_⟩), Or.inl rfl⟩
    rw [hreact]
    exact ⟨[], [], by simp⟩

theorem listJobs_matches_exactly_witness :
    (∃ found, filterJobs toLowerCase "react" "" seedJobs = .ok found) ∧
    (seedJobs.filter (jobPasses toLowerCase "react" "")).map (fun j => (j.title, j.tags))
      = [(some "Senior Frontend Developer", some ["React", "TypeScript", "CSS"]),
         (some "Full Stack Engineer", some ["Node.js", "React", "PostgreSQL"])] ∧
    filterJobs toLowerCase "REACT" "" seedJobs = filterJobs toLowerCase "react" "" seedJobs ∧
    (∀ job ∈ seedJobs, ∀ tags, job.title = some "Senior Frontend Developer" →
      job.tags = some tags → "React" ∈ tags → JobPasses toLowerCase "react" "" job) :=
  ⟨(listJobs_matches_exactly toLowerCase "react" "" seedJobs).2.2.2.1 (Or.inr (by decide)),
   by decide,
   (listJobs_matches_exactly toLowerCase "react" "" seedJobs).2.1 "REACT" (by decide)
     (by decide),
   fun job _ tags =>
     (listJobs_matches_exactly toLowerCase "react" "" seedJobs).2.2.2.2.2 (by decide) job tags⟩

/-- A title with an accented capital: an engine that lower-cases "CAFÉ Manager"
to "café manager" makes the search "café" match it. -/
theorem jobMatchesSearch_accented (lower : String → String) (job : Job)
    (htitle : job.title = some "CAFÉ Manager")
    (h1 : lower "CAFÉ Manager" = "café manager") (h2 : lower "café" = "café") :
    jobMatchesSearch lower "café" job = .ok true := by
  unfold jobMatchesSearch
  rw [htitle]
  simp only
  rw [h1, h2, if_pos (by decide)]

/-- C15: under the default sort key the jobs of a page of list-jobs are in
ascending order of their `order` field, and they form a sub-sequence of the
filtered jobs, which form a sub-sequence of the collection sorted by order. -/
theorem listJobs_keeps_order (lower : String → String)
    (env : Env) (s : Store) (q : JobsQuery) (p : Page Job)
    (hsort : orText q.sort "order" = "order") (h : listJobs lower env s q = .ok p) :
    p.items.Pairwise (fun a b => a.order ≤ b.order) ∧
    p.items.Sublist
      ((orderByOrder s.jobs).filter (jobPasses lower (q.search.getD "") (q.status.getD ""))) ∧
    ((orderByOrder s.jobs).filter (jobPasses lower (q.search.getD "") (q.status.getD ""))).Sublist
      (orderByOrder s.jobs) ∧
    p.items.Sublist (orderByOrder s.jobs) ∧
    (orderByOrder s.jobs).Pairwise (fun a b => a.order ≤ b.order) ∧
    (orderByOrder s.jobs).Perm s.jobs := by
  have hp := listJobs_found env s q p hsort h
  have hsorted : (orderByOrder s.jobs).Pairwise (fun a b => a.order ≤ b.order) := by
    have := List.sorted_insertionSort Job.orderLE s.jobs
    refine List.Pairwise.imp ?_ this
    intro a b hab
    unfold Job.orderLE at hab
    omega
  have h1 : p.items.Sublist
      ((orderByOrder s.jobs).filter (jobPasses lower (q.search.getD "") (q.status.getD ""))) := by
    rw [hp]
    exact jsSlice_sublist _ _ _
  have h2 := List.filter_sublist (p := jobPasses lower (q.search.getD "") (q.status.getD ""))
    (orderByOrder s.jobs)
  exact ⟨List.Pairwise.sublist (h1.trans h2) hsorted, h1, h2, h1.trans h2, hsorted,
    List.perm_insertionSort Job.orderLE s.jobs⟩

theorem listJobs_keeps_order_witness :
    (paginate (orderByOrder seedJobs) 1 10).items.Pairwise (fun a b => a.order ≤ b.order) ∧
    (paginate (orderByOrder seedJobs) 1 10).items.map (fun j => j.order) = [1, 2, 3, 4, 5] :=
  ⟨(listJobs_keeps_order toLowerCase calmRead (storeOfJobs seedJobs) (searchQuery "" 1 10)
      (paginate (orderByOrder seedJobs) 1 10) rfl
      (listJobs_of_calm calmRead (storeOfJobs seedJobs) (searchQuery "" 1 10)
        (orderByOrder seedJobs) (orderByOrder seedJobs) shouldError_calmRead rfl rfl)).1,
   by decide⟩

/-! ## The pages of a list -/

theorem paginate_items_page {α : Type} (records : List α) (k n : Nat) :
    (paginate records ((k : Int) + 1) (n : Int)).items = (records.drop (k * n)).take n := by
  simp only [paginate]
  exact jsSlice_page records k n

theorem flatMap_pages {α : Type} (records : List α) (n : Nat) :
    ∀ count : Nat, (List.range count).flatMap (fun k => (records.drop (k * n)).take n)
      = records.take (count * n) := by
  intro count
  induction count with
  | zero => simp
  | succ c ih =>
    rw [List.range_succ, List.flatMap_append, ih, Nat.succ_mul, List.take_add]
    simp

/-- The number of pages, as a natural number, bounds the records from above
and, less one page, from below. -/
theorem totalPages_bounds (length n : Nat) (hn : 1 ≤ n) :
    length ≤ (ceilDiv (length : Int) (n : Int)).toNat * n ∧
    (0 < length → 0 < (ceilDiv (length : Int) (n : Int)).toNat ∧
      ((ceilDiv (length : Int) (n : Int)).toNat - 1) * n < length) := by
  have hn' : (0 : Int) < (n : Int) := by omega
  obtain ⟨c1, c2⟩ := ceilDiv_spec (length : Int) (n : Int) hn'
  have hnn := ceilDiv_nonneg (length : Int) (n : Int) (by omega) hn'
  obtain ⟨t, ht⟩ := Int.eq_ofNat_of_zero_le hnn
  rw [ht] at c1 c2
  rw [ht, Int.toNat_ofNat]
  constructor
  · exact_mod_cast c1
  · intro hpos
    have ht0 : 0 < t := by
      rcases Nat.eq_zero_or_pos t with h0 | h0
      · rw [h0] at c1
        simp at c1
        omega
      · exact h0
    refine ⟨ht0, ?_⟩
    have hcast : (((t - 1 : Nat) : Int)) = (t : Int) - 1 := by omega
    have : (((t - 1) * n : Nat) : Int) < (length : Int) := by
      push_cast
      rw [hcast]
      exact c2
    exact_mod_cast this

/-- The pages 1 to `totalPages` of a list, one after the other, are the list:
every page before the last holds `pageSize` records and the last holds between
1 and `pageSize`. -/
theorem pages_cover {α : Type} (records : List α) (n : Nat) (hn : 1 ≤ n) :
    (List.range (ceilDiv (records.length : Int) (n : Int)).toNat).flatMap
        (fun k => (paginate records ((k : Int) + 1) (n : Int)).items) = records ∧
    (∀ k : Nat, k + 1 < (ceilDiv (records.length : Int) (n : Int)).toNat →
      (paginate records ((k : Int) + 1) (n : Int)).items.length = n) ∧
    (∀ k : Nat, k + 1 = (ceilDiv (records.length : Int) (n : Int)).toNat →
      1 ≤ (paginate records ((k : Int) + 1) (n : Int)).items.length ∧
      (paginate records ((k : Int) + 1) (n : Int)).items.length ≤ n) := by
  obtain ⟨hb1, hb2⟩ := totalPages_bounds records.length n hn
  refine ⟨?_, ?_, ?_⟩
  · have hfun : (fun k : Nat => (paginate records ((k : Int) + 1) (n : Int)).items)
        = fun k : Nat => (records.drop (k * n)).take n := by
      funext k
      exact paginate_items_page records k n
    rw [hfun, flatMap_pages, List.take_of_length_le hb1]
  · intro k hk
    rw [paginate_items_page, List.length_take, List.length_drop]
    have hpos : 0 < records.length := by
      rcases Nat.eq_zero_or_pos records.length with h0 | h0
      · rw [h0] at hk
        simp [ceilDiv] at hk
      · exact h0
    obtain ⟨_, hlt⟩ := hb2 hpos
    have hmul : (k + 1) * n ≤ ((ceilDiv (records.length : Int) (n : Int)).toNat - 1) * n :=
      Nat.mul_le_mul_right n (by omega)
    rw [Nat.succ_mul] at hmul
    omega
  · intro k hk
    rw [paginate_items_page, List.length_take, List.length_drop]
    have hpos : 0 < records.length := by
      rcases Nat.eq_zero_or_pos records.length with h0 | h0
      · rw [h0] at hk
        simp [ceilDiv] at hk
      · exact h0
    obtain ⟨_, hlt⟩ := hb2 hpos
    have hk' : (ceilDiv (records.length : Int) (n : Int)).toNat - 1 = k := by omega
    rw [hk'] at hlt
    omega

theorem orDefault_some (v fallback : Int) (h : v ≠ 0) : orDefault (some v) fallback = v := by
  simp [orDefault, h]

theorem listJobs_page {lower : String → String}
    (env : Env) (s : Store) (q : JobsQuery) (found : List Job) (k n : Nat)
    (hn : 1 ≤ n) (hE : shouldError false env.random = false)
    (hsort : orText q.sort "order" = "order")
    (hf : filterJobs lower (q.search.getD "") (q.status.getD "") (orderByOrder s.jobs) =
      .ok found) :
    listJobs lower env s { q with page := some ((k : Int) + 1), pageSize := some (n : Int) }
      = .ok (paginate found ((k : Int) + 1) (n : Int)) := by
  have h := listJobs_of_calm env s
    { q with page := some ((k : Int) + 1), pageSize := some (n : Int) } (orderByOrder s.jobs)
    found hE (by rw [hsort]; exact orderBy_default s.jobs) hf
  rw [h]
  simp only [orDefault_some ((k : Int) + 1) 1 (by omega), orDefault_some (n : Int) 10 (by omega)]

theorem listCandidates_page {lower : String → String} (env : Env) (s : Store) (q : CandidatesQuery)
    (found : List Candidate) (k n : Nat) (hn : 1 ≤ n)
    (hE : shouldError false env.random = false)
    (hf : filterCandidates lower (q.search.getD "") (q.stage.getD "")
        (candidatesToArray s.candidates) = .ok found) :
    listCandidates lower env s { q with page := some ((k : Int) + 1), pageSize := some (n : Int) }
      = .ok (paginate found ((k : Int) + 1) (n : Int)) := by
  have h := listCandidates_of_calm env s
    { q with page := some ((k : Int) + 1), pageSize := some (n : Int) } found hE hf
  rw [h]
  simp only [orDefault_some ((k : Int) + 1) 1 (by omega), orDefault_some (n : Int) 50 (by omega)]

/-- C27: for a page size of at least 1, when no failure is injected and the
filter does not throw (list-jobs: default sort key), the items the list
handler returns for the pages 1, 2, ..., totalPages, one after the other, are
exactly the filtered list; every page before the last holds `pageSize` items
and the last between 1 and `pageSize`. -/
theorem list_pages_partition (lower : String → String)
    (s : Store) (n : Nat) (hn : 1 ≤ n) (env : Nat → Env)
    (hE : ∀ k, shouldError false (env k).random = false) :
    (∀ q : JobsQuery, orText q.sort "order" = "order" →
      (q.search.getD "" = "" ∨ JobsHaveText s.jobs) →
      ∃ (found : List Job) (pages : Nat),
        found = (orderByOrder s.jobs).filter
          (jobPasses lower (q.search.getD "") (q.status.getD "")) ∧
        (∀ k : Nat, listJobs lower (env k) s
            { q with page := some ((k : Int) + 1), pageSize := some (n : Int) }
          = .ok (paginate found ((k : Int) + 1) (n : Int))) ∧
        (pages : Int) = (paginate found 1 (n : Int)).totalPages ∧
        (List.range pages).flatMap (fun k => (listJobs lower (env k) s
            { q with page := some ((k : Int) + 1), pageSize := some (n : Int) }).items) = found ∧
        (∀ k : Nat, k + 1 < pages → (listJobs lower (env k) s
            { q with page := some ((k : Int) + 1), pageSize := some (n : Int) }).items.length = n) ∧
        (∀ k : Nat, k + 1 = pages →
          1 ≤ (listJobs lower (env k) s
            { q with page := some ((k : Int) + 1), pageSize := some (n : Int) }).items.length ∧
          (listJobs lower (env k) s
            { q with page := some ((k : Int) + 1), pageSize := some (n : Int) }).items.length ≤ n)) ∧
    (∀ q : CandidatesQuery, (q.search.getD "" = "" ∨ CandidatesHaveText s.candidates) →
      ∃ (found : List Candidate) (pages : Nat),
        found = (candidatesToArray s.candidates).filter
          (candidatePasses lower (q.search.getD "") (q.stage.getD "")) ∧
        (∀ k : Nat, listCandidates lower (env k) s
            { q with page := some ((k : Int) + 1), pageSize := some (n : Int) }
          = .ok (paginate found ((k : Int) + 1) (n : Int))) ∧
        (pages : Int) = (paginate found 1 (n : Int)).totalPages ∧
        (List.range pages).flatMap (fun k => (listCandidates lower (env k) s
            { q with page := some ((k : Int) + 1), pageSize := some (n : Int) }).items) = found ∧
        (∀ k : Nat, k + 1 < pages → (listCandidates lower (env k) s
            { q with page := some ((k : Int) + 1), pageSize := some (n : Int) }).items.length = n) ∧
        (∀ k : Nat, k + 1 = pages →
          1 ≤ (listCandidates lower (env k) s
            { q with page := some ((k : Int) + 1), pageSize := some (n : Int) }).items.length ∧
          (listCandidates lower (env k) s
            { q with page := some ((k : Int) + 1), pageSize := some (n : Int) }).items.length ≤ n)) := by
  have hn' : (0 : Int) < (n : Int) := by omega
  constructor
  · intro q hsort htext
    have htext' : q.search.getD "" = "" ∨ JobsHaveText (orderByOrder s.jobs) := by
      rcases htext with h | h
      · exact Or.inl h
      · exact Or.inr (fun j hj => h j ((mem_orderByOrder s.jobs j).1 hj))
    obtain ⟨found, hf⟩ := filterJobs_returns (q.search.getD "") (q.status.getD "") _ htext'
    have hpage := fun k => listJobs_page (env k) s q found k n hn (hE k) hsort hf
    obtain ⟨hc1, hc2, hc3⟩ := pages_cover found n hn
    refine ⟨found, (ceilDiv (found.length : Int) (n : Int)).toNat, filterJobs_ok _ _ _ _ hf,
      hpage, ?_, ?_, ?_, ?_⟩
    · simp only [paginate]
      exact Int.toNat_of_nonneg (ceilDiv_nonneg _ _ (by omega) hn')
    · simp only [hpage, ListResponse.items]
      exact hc1
    · intro k hk
      simp only [hpage, ListResponse.items]
      exact hc2 k hk
    · intro k hk
      simp only [hpage, ListResponse.items]
      exact hc3 k hk
  · intro q htext
    have htext' : q.search.getD "" = "" ∨ CandidatesHaveText (candidatesToArray s.candidates) := by
      rcases htext with h | h
      · exact Or.inl h
      · exact Or.inr (fun c hc => h c ((mem_candidatesToArray s.candidates c).1 hc))
    obtain ⟨found, hf⟩ := filterCandidates_returns (q.search.getD "") (q.stage.getD "") _ htext'
    have hpage := fun k => listCandidates_page (env k) s q found k n hn (hE k) hf
    obtain ⟨hc1, hc2, hc3⟩ := pages_cover found n hn
    refine ⟨found, (ceilDiv (found.length : Int) (n : Int)).toNat,
      filterCandidates_ok _ _ _ _ hf, hpage, ?_, ?_, ?_, ?_⟩
    · simp only [paginate]
      exact Int.toNat_of_nonneg (ceilDiv_nonneg _ _ (by omega) hn')
    · simp only [hpage, ListResponse.items]
      exact hc1
    · intro k hk
      simp only [hpage, ListResponse.items]
      exact hc2 k hk
    · intro k hk
      simp only [hpage, ListResponse.items]
      exact hc3 k hk

theorem list_pages_partition_witness :
    ∃ (found : List Job) (pages : Nat),
      found = (orderByOrder (storeOfJobs seedJobs).jobs).filter
        (jobPasses toLowerCase ((searchQuery "" 1 2).search.getD "")
          ((searchQuery "" 1 2).status.getD "")) ∧
      (∀ k : Nat, listJobs toLowerCase calmRead (storeOfJobs seedJobs)
          { searchQuery "" 1 2 with page := some ((k : Int) + 1), pageSize := some ((2 : Nat) : Int) }
        = .ok (paginate found ((k : Int) + 1) ((2 : Nat) : Int))) ∧
      (pages : Int) = (paginate found 1 ((2 : Nat) : Int)).totalPages ∧
      (List.range pages).flatMap (fun k => (listJobs toLowerCase calmRead (storeOfJobs seedJobs)
          { searchQuery "" 1 2 with page := some ((k : Int) + 1),
                                    pageSize := some ((2 : Nat) : Int) }).items) = found ∧
      (∀ k : Nat, k + 1 < pages → (listJobs toLowerCase calmRead (storeOfJobs seedJobs)
          { searchQuery "" 1 2 with page := some ((k : Int) + 1),
                                    pageSize := some ((2 : Nat) : Int) }).items.length = 2) ∧
      (∀ k : Nat, k + 1 = pages →
        1 ≤ (listJobs toLowerCase calmRead (storeOfJobs seedJobs)
          { searchQuery "" 1 2 with page := some ((k : Int) + 1),
                                    pageSize := some ((2 : Nat) : Int) }).items.length ∧
        (listJobs toLowerCase calmRead (storeOfJobs seedJobs)
          { searchQuery "" 1 2 with page := some ((k : Int) + 1),
                                    pageSize := some ((2 : Nat) : Int) }).items.length ≤ 2) :=
  (list_pages_partition toLowerCase (storeOfJobs seedJobs) 2 (by decide) (fun _ => calmRead)
    (fun _ => shouldError_calmRead)).1 (searchQuery "" 1 2) rfl (Or.inl rfl)

/-! ## The stages of the candidates -/

theorem Draw.index_lt (d : Draw) (n : Nat) (hn : 0 < n) : d.index n < n := by
  unfold Draw.index
  have hnq : (0 : ℚ) < (n : ℚ) := by exact_mod_cast hn
  have h0 : 0 ≤ d.value * (n : ℚ) := mul_nonneg d.nonneg (le_of_lt hnq)
  have h1 : d.value * (n : ℚ) < (n : ℚ) := by
    have := mul_lt_mul_of_pos_right d.below hnq
    simpa using this
  have hf0 : 0 ≤ Int.floor (d.value * (n : ℚ)) := Int.floor_nonneg.2 h0
  have hf1 : Int.floor (d.value * (n : ℚ)) < (n : Int) := by
    rw [Int.floor_lt]
    exact_mod_cast h1
  omega

theorem getD_mem_of_lt (l : List String) (i : Nat) (h : i < l.length) : l.getD i "" ∈ l := by
  rw [List.getD_eq_getElem l "" h]
  exact List.getElem_mem h

theorem generatedCandidate_stage (random : Nat → Draw) (localDate : Int → Int → Int → Int)
    (i : Nat) : (generatedCandidate random localDate i).stage ∈ stages := by
  unfold generatedCandidate
  exact getD_mem_of_lt stages _ (Draw.index_lt _ _ (by decide))

theorem generatedCandidate_id (random : Nat → Draw) (localDate : Int → Int → Int → Int)
    (i : Nat) : (generatedCandidate random localDate i).id = (i : Int) := rfl

/-- The candidates stored by the seeding have one of the six stages. -/
theorem stagesValid_seeded (random : Nat → Draw) (localDate : Int → Int → Int → Int) :
    StagesValid ((generateCandidates random localDate).map SeedCandidate.toCandidate) := by
  intro c hc
  obtain ⟨sc, hsc, rfl⟩ := List.mem_map.1 hc
  unfold generateCandidates at hsc
  obtain ⟨k, _, rfl⟩ := List.mem_map.1 hsc
  exact ⟨_, generatedCandidate_stage random localDate (k + 1), rfl⟩

theorem updateCandidate_candidates (env : Env) (s : Store) (id : Int)
    (updates : CandidateUpdates) :
    (updateCandidate env s id updates).2.candidates =
      if shouldError true env.random = true then s.candidates
      else Table.update (fun c => c.id) s.candidates id (Candidate.merge updates) := by
  unfold updateCandidate
  cases hE : shouldError true env.random <;> simp

theorem stagesValid_updateCandidate (env : Env) (s : Store) (id : Int)
    (updates : CandidateUpdates)
    (hallowed : updates.stage = none ∨ ∃ v ∈ stages, updates.stage = some v)
    (hv : StagesValid s.candidates) :
    StagesValid (updateCandidate env s id updates).2.candidates := by
  rw [updateCandidate_candidates]
  split_ifs
  · exact hv
  · intro c hc
    unfold Table.update Table.modifyWhere at hc
    obtain ⟨c0, hc0, rfl⟩ := List.mem_map.1 hc
    split_ifs
    · rcases hallowed with h | ⟨v, hv', h⟩
      · obtain ⟨w, hw, hcw⟩ := hv c0 hc0
        exact ⟨w, hw, by simp [Candidate.merge, h, hcw]⟩
      · exact ⟨v, hv', by simp [Candidate.merge, h]⟩
    · exact hv c0 hc0

theorem stagesValid_runCandidateUpdates (requests : List CandidateRequest) :
    ∀ s : Store, StagesValid s.candidates → (∀ r ∈ requests, r.StageAllowed) →
      StagesValid (runCandidateUpdates s requests).candidates := by
  induction requests with
  | nil =>
    intro s hv _
    exact hv
  | cons r rest ih =>
    intro s hv hall
    exact ih (updateCandidate r.env s r.id r.updates).2
      (stagesValid_updateCandidate r.env s r.id r.updates (hall r (List.mem_cons_self r rest)) hv)
      (fun x hx => hall x (List.mem_cons_of_mem r hx))

theorem storeOfCandidates_candidates (candidates : List Candidate) :
    (storeOfCandidates candidates).candidates = candidates := rfl

/-- C21 (as stated, refuted): on a store seeded with generated candidates, the
request to set the stage of candidate 1 to "banana" is answered 200, and after
it a stored candidate has a stage that is none of the six values. -/
theorem unknown_stage_is_stored :
    (updateCandidate (calmEnv 7)
      (storeOfCandidates ((generateCandidates (fun _ => zeroDraw) utcDate).map
        SeedCandidate.toCandidate)) 1 (stageOnly "banana")).1.status = 200 ∧
    ¬ StagesValid (runCandidateUpdates
      (storeOfCandidates ((generateCandidates (fun _ => zeroDraw) utcDate).map
        SeedCandidate.toCandidate))
      [⟨calmEnv 7, 1, stageOnly "banana"⟩]).candidates := by
  constructor
  · rw [updateCandidate_status, shouldError_calmEnv]
    rfl
  · intro h
    have hmem : Candidate.merge (stageOnly "banana")
        (generatedCandidate (fun _ => zeroDraw) utcDate 1).toCandidate ∈
        (runCandidateUpdates
          (storeOfCandidates ((generateCandidates (fun _ => zeroDraw) utcDate).map
            SeedCandidate.toCandidate))
          [⟨calmEnv 7, 1, stageOnly "banana"⟩]).candidates := by
      simp only [runCandidateUpdates, List.foldl]
      rw [updateCandidate_candidates, shouldError_calmEnv]
      simp only [Bool.false_eq_true, if_false, Table.update, Table.modifyWhere]
      apply List.mem_map.2
      refine ⟨(generatedCandidate (fun _ => zeroDraw) utcDate 1).toCandidate, ?_, ?_⟩
      · apply List.mem_map.2
        refine ⟨generatedCandidate (fun _ => zeroDraw) utcDate 1, ?_, rfl⟩
        unfold generateCandidates
        exact List.mem_map.2 ⟨0, List.mem_range.2 (by decide), rfl⟩
      · simp [SeedCandidate.toCandidate, generatedCandidate_id]
    obtain ⟨v, hv, hstage⟩ := h _ hmem
    have hb : v = "banana" := by
      simp [Candidate.merge, stageOnly] at hstage
      exact hstage.symm
    rw [hb] at hv
    revert hv
    decide

/-- C21 (amended): starting from the generated candidates, after every
sequence of update-candidate requests whose bodies carry no stage or one of
the six stages, the stage of every stored candidate is one of the six values
applied, screen, tech, offer, hired, rejected. -/
theorem stages_valid_after_allowed_updates (random : Nat → Draw)
    (localDate : Int → Int → Int → Int) (s : Store) (requests : List CandidateRequest)
    (hseed : s.candidates = (generateCandidates random localDate).map SeedCandidate.toCandidate)
    (hall : ∀ r ∈ requests, r.StageAllowed) :
    StagesValid (runCandidateUpdates s requests).candidates := by
  apply stagesValid_runCandidateUpdates requests s _ hall
  rw [hseed]
  exact stagesValid_seeded random localDate

theorem stages_valid_after_allowed_updates_witness :
    StagesValid (runCandidateUpdates
      (storeOfCandidates ((generateCandidates (fun _ => zeroDraw) utcDate).map
        SeedCandidate.toCandidate))
      [⟨calmEnv 7, 1, stageOnly "hired"⟩, ⟨calmEnv 9, 2, stageWithNotes "tech" "call"⟩]).candidates :=
  stages_valid_after_allowed_updates (fun _ => zeroDraw) utcDate
    (storeOfCandidates ((generateCandidates (fun _ => zeroDraw) utcDate).map
      SeedCandidate.toCandidate))
    [⟨calmEnv 7, 1, stageOnly "hired"⟩, ⟨calmEnv 9, 2, stageWithNotes "tech" "call"⟩]
    (storeOfCandidates_candidates _)
    (by
      intro r hr
      simp only [List.mem_cons, List.mem_singleton, List.not_mem_nil, or_false] at hr
      rcases hr with rfl | rfl
      · exact Or.inr ⟨"hired", by decide, rfl⟩
      · exact Or.inr ⟨"tech", by decide, rfl⟩)

/-! ## The seeded assessments -/

/-- C25 (as stated, refuted): no question of the seeded assessments has the
type file-upload, which is one of the six question types. -/
theorem seed_has_no_file_upload :
    "file-upload" ∈ questionTypes ∧ "file-upload" ∉ typesOfQuestions seedAssessments := by
  decide

/-- C25 (amended): two assessments are seeded, for the jobIds 1 and 2, with 2
sections and 1 section; the types of their questions are question types and
cover the five types single-choice, multi-choice, short-text, long-text and
numeric, every type but file-upload. -/
theorem seed_assessments_shape :
    seedAssessments.map (fun a => a.jobId) = [1, 2] ∧
    seedAssessments.map (fun a => (a.sections.getD []).length) = [2, 1] ∧
    (∀ a ∈ seedAssessments, 1 ≤ (a.sections.getD []).length ∧ (a.sections.getD []).length ≤ 2) ∧
    (∀ t ∈ typesOfQuestions seedAssessments, t ∈ questionTypes) ∧
    (∀ t ∈ questionTypes, t ≠ "file-upload" → t ∈ typesOfQuestions seedAssessments) := by
  have htypes : typesOfQuestions seedAssessments
      = ["single-choice", "multi-choice", "short-text", "long-text", "numeric", "single-choice",
         "short-text"] := by decide
  rw [htypes]
  refine ⟨by decide, by decide, by decide, by decide, by decide⟩

/-! ## Ids taken from the clock -/

theorem submitAssessment_of_fresh (env : Env) (s : Store) (jobId : Int) (data : SubmissionData)
    (hE : shouldError true env.random = false)
    (hfresh : ∀ r ∈ s.assessmentResponses, r.id ≠ env.now) :
    submitAssessment env s jobId data =
      (⟨200, .submitted env.now⟩,
        { s with assessmentResponses := s.assessmentResponses ++
          [{ id := env.now, assessmentId := jobId, candidateId := data.candidateId,
             responses := data.responses, submittedAt := env.date }] }) := by
  simp only [submitAssessment, hE, Bool.false_eq_true, if_false]
  rw [Table.add_of_fresh (fun r : AssessmentResponse => r.id) s.assessmentResponses _ hfresh]

theorem submitAssessment_of_stored (env : Env) (s : Store) (jobId : Int) (data : SubmissionData)
    (hE : shouldError true env.random = false)
    (hstored : ∃ r ∈ s.assessmentResponses, r.id = env.now) :
    submitAssessment env s jobId data = (⟨400, .error constraintErrorMessage⟩, s) := by
  simp only [submitAssessment, hE, Bool.false_eq_true, if_false]
  rw [Table.add_of_stored (fun r : AssessmentResponse => r.id) s.assessmentResponses _ hstored]

/-- C22 (as stated, refuted): two create-job calls that read the same clock
millisecond: the first is answered 200, the second finds its id stored and is
answered 400, creating nothing. -/
theorem same_millisecond_create_fails :
    (createJob (calmEnv 1700000000000) (storeOfJobs seedJobs) crowdedBody).1.status = 200 ∧
    (createJob (calmEnv 1700000000000)
      (createJob (calmEnv 1700000000000) (storeOfJobs seedJobs) crowdedBody).2
      (titleOnly "Second")).1 = ⟨400, .error constraintErrorMessage⟩ ∧
    (createJob (calmEnv 1700000000000)
      (createJob (calmEnv 1700000000000) (storeOfJobs seedJobs) crowdedBody).2
      (titleOnly "Second")).2
      = (createJob (calmEnv 1700000000000) (storeOfJobs seedJobs) crowdedBody).2 := by
  have h1 := createJob_of_fresh (calmEnv 1700000000000) (storeOfJobs seedJobs) crowdedBody
    (shouldError_calmEnv 1700000000000) (by decide)
  rw [h1]
  refine ⟨rfl, ?_⟩
  have h2 := createJob_of_stored (calmEnv 1700000000000) _ (titleOnly "Second")
    (shouldError_calmEnv 1700000000000)
    (show ∃ x ∈ ({ storeOfJobs seedJobs with jobs := (storeOfJobs seedJobs).jobs ++
        [{ id := (calmEnv 1700000000000).now, title := crowdedBody.title,
           slug := crowdedBody.slug, status := crowdedBody.status, tags := crowdedBody.tags,
           order := orZero ((orderByOrder (storeOfJobs seedJobs).jobs).getLast?.map
             (fun j => j.order)) + 1,
           createdAt := (calmEnv 1700000000000).date }] } : Store).jobs,
        x.id = (calmEnv 1700000000000).now from
      ⟨_, List.mem_append_right _ (List.mem_singleton_self _), rfl⟩)
  rw [h2]
  exact ⟨rfl, rfl⟩

/-- C22 (amended): a create-job, upsert-assessment (for a jobId without
assessment) or submit-response call that passes the failure injection and
reads a clock value greater than every id of its collection succeeds and
stores a record whose id is that clock value, different from and greater than
every id of the collection; a call that reads a clock value already stored as
an id fails with status 400 and stores nothing. -/
theorem create_with_later_clock (env : Env) (s : Store)
    (hE : shouldError true env.random = false) :
    (∀ jobData, (∀ j ∈ s.jobs, j.id < env.now) →
      ∃ job : Job, createJob env s jobData =
          (⟨200, .job (some job)⟩, { s with jobs := s.jobs ++ [job] }) ∧
        job.id = env.now ∧ ∀ j ∈ s.jobs, j.id ≠ job.id ∧ j.id < job.id) ∧
    (∀ jobId data, (∀ a ∈ s.assessments, a.jobId ≠ jobId) →
      (∀ a ∈ s.assessments, a.id < env.now) →
      ∃ created : Assessment, upsertAssessment env s jobId data =
          (⟨200, .assessment (some created)⟩,
            { s with assessments := s.assessments ++ [created] }) ∧
        created.id = env.now ∧ ∀ a ∈ s.assessments, a.id ≠ created.id ∧ a.id < created.id) ∧
    (∀ jobId data, (∀ r ∈ s.assessmentResponses, r.id < env.now) →
      ∃ submission : AssessmentResponse, submitAssessment env s jobId data =
          (⟨200, .submitted submission.id⟩,
            { s with assessmentResponses := s.assessmentResponses ++ [submission] }) ∧
        submission.id = env.now ∧
        ∀ r ∈ s.assessmentResponses, r.id ≠ submission.id ∧ r.id < submission.id) ∧
    (∀ jobData, (∃ j ∈ s.jobs, j.id = env.now) →
      createJob env s jobData = (⟨400, .error constraintErrorMessage⟩, s)) ∧
    (∀ jobId data, (∀ a ∈ s.assessments, a.jobId ≠ jobId) →
      (∃ a ∈ s.assessments, a.id = env.now) →
      upsertAssessment env s jobId data = (⟨400, .error constraintErrorMessage⟩, s)) ∧
    (∀ jobId data, (∃ r ∈ s.assessmentResponses, r.id = env.now) →
      submitAssessment env s jobId data = (⟨400, .error constraintErrorMessage⟩, s)) := by
  refine ⟨?_, ?_, ?_, ?_, ?_, ?_⟩
  · intro jobData hlt
    have hfresh : ∀ j ∈ s.jobs, j.id ≠ env.now := fun j hj => ne_of_lt (hlt j hj)
    exact ⟨_, createJob_of_fresh env s jobData hE hfresh, rfl,
      fun j hj => ⟨hfresh j hj, hlt j hj⟩⟩
  · intro jobId data hnone hlt
    have hfresh : ∀ a ∈ s.assessments, a.id ≠ env.now := fun a ha => ne_of_lt (hlt a ha)
    exact ⟨_, upsertAssessment_of_new env s jobId data hE hnone hfresh, rfl,
      fun a ha => ⟨hfresh a ha, hlt a ha⟩⟩
  · intro jobId data hlt
    have hfresh : ∀ r ∈ s.assessmentResponses, r.id ≠ env.now :=
      fun r hr => ne_of_lt (hlt r hr)
    exact ⟨{ id := env.now, assessmentId := jobId, candidateId := data.candidateId,
             responses := data.responses, submittedAt := env.date },
      submitAssessment_of_fresh env s jobId data hE hfresh, rfl,
      fun r hr => ⟨hfresh r hr, hlt r hr⟩⟩
  · intro jobData hstored
    exact createJob_of_stored env s jobData hE hstored
  · intro jobId data hnone hstored
    exact upsertAssessment_of_collision env s jobId data hE hnone hstored
  · intro jobId data hstored
    exact submitAssessment_of_stored env s jobId data hE hstored

theorem create_with_later_clock_witness :
    ∃ job : Job, createJob (calmEnv 1700000000000) seededStore (titleOnly "QA") =
        (⟨200, .job (some job)⟩, { seededStore with jobs := seededStore.jobs ++ [job] }) ∧
      job.id = (calmEnv 1700000000000).now ∧
      ∀ j ∈ seededStore.jobs, j.id ≠ job.id ∧ j.id < job.id :=
  (create_with_later_clock (calmEnv 1700000000000) seededStore
    (shouldError_calmEnv 1700000000000)).1 (titleOnly "QA") (by decide)

/-! ## Seeding twice -/

theorem bulkAdd_seedJobs : Table.bulkAdd (fun j : Job => j.id) [] seedJobs = (seedJobs, false) := by
  decide

theorem initializeDatabase_of_jobs (random : Nat → Draw) (localDate : Int → Int → Int → Int)
    (addDays : Int → Int → Int) (s : Store) (h : s.jobs ≠ []) :
    initializeDatabase random localDate addDays s = { store := s, error := none } := by
  unfold initializeDatabase
  have hlen : s.jobs.length ≠ 0 := fun h0 => h (List.length_eq_zero.1 h0)
  simp only [hlen, if_false]

theorem initializeDatabase_jobs (random : Nat → Draw) (localDate : Int → Int → Int → Int)
    (addDays : Int → Int → Int) (s : Store) (h : s.jobs = []) :
    (initializeDatabase random localDate addDays s).store.jobs = seedJobs := by
  unfold initializeDatabase
  simp only [h, List.length_nil, if_true, bulkAdd_seedJobs]
  split_ifs <;> rfl

/-- C23: when the jobs collection is not empty, `initializeDatabase` returns
the store as it is, with no error; and whatever the store was, a second run
after a first one returns the store the first run left, with no error. -/
theorem initializeDatabase_twice (random random2 : Nat → Draw)
    (localDate localDate2 : Int → Int → Int → Int) (addDays addDays2 : Int → Int → Int)
    (s : Store) :
    (s.jobs ≠ [] →
      initializeDatabase random localDate addDays s = { store := s, error := none }) ∧
    (initializeDatabase random localDate addDays s).store.jobs ≠ [] ∧
    initializeDatabase random2 localDate2 addDays2
        (initializeDatabase random localDate addDays s).store
      = { store := (initializeDatabase random localDate addDays s).store, error := none } := by
  have hne : (initializeDatabase random localDate addDays s).store.jobs ≠ [] := by
    by_cases h : s.jobs = []
    · rw [initializeDatabase_jobs random localDate addDays s h]
      decide
    · rw [initializeDatabase_of_jobs random localDate addDays s h]
      exact h
  exact ⟨initializeDatabase_of_jobs random localDate addDays s, hne,
    initializeDatabase_of_jobs random2 localDate2 addDays2 _ hne⟩

theorem initializeDatabase_twice_witness :
    initializeDatabase (fun _ => zeroDraw) utcDate utcAddDays seededStore
      = { store := seededStore, error := none } :=
  (initializeDatabase_twice (fun _ => zeroDraw) (fun _ => zeroDraw) utcDate utcDate utcAddDays
    utcAddDays seededStore).1 (by decide)

/-! ## The generated timelines -/

/-- The entries of one candidate: the entry `applied` at `createdAt`, then one
entry for each stage up to the candidate's, the `k`-th of them (from 0) dated
`7 * (k + 1)` days after `createdAt`; the ids count up from the counter. -/
theorem candidateEntries_eq (addDays : Int → Int → Int) (timelineId : Int) (c : SeedCandidate) :
    candidateEntries addDays timelineId c =
      { id := timelineId, candidateId := c.id, stage := "applied", timestamp := c.createdAt,
        notes := "Application submitted" } ::
      (List.range (stagesUpTo c.stage).length).map (fun (k : Nat) =>
        { id := timelineId + 1 + (k : Int)
          candidateId := c.id
          stage := (stagesUpTo c.stage).getD k ""
          timestamp := addDays c.createdAt (7 * ((k : Int) + 1))
          notes := "Moved to " ++ (stagesUpTo c.stage).getD k "" ++ " stage" }) := by
  obtain ⟨id, name, email, stage, jobId, createdAt⟩ := c
  by_cases h : stage ∈ progression
  · have hcases : stage = "screen" ∨ stage = "tech" ∨ stage = "offer" ∨ stage = "hired" ∨
        stage = "rejected" := by
      simpa [progression] using h
    rcases hcases with rfl | rfl | rfl | rfl | rfl <;>
      simp [candidateEntries, indexOfStage, stagesUpTo, progression, List.range_succ,
        List.indexOf, List.findIdx, List.findIdx.go]
  · simp [candidateEntries, indexOfStage, stagesUpTo, h]

theorem candidateEntries_content (addDays : Int → Int → Int) (timelineId : Int)
    (c : SeedCandidate) :
    (candidateEntries addDays timelineId c).map TimelineEntry.content =
      (c.id, "applied", c.createdAt, "Application submitted") ::
      (List.range (stagesUpTo c.stage).length).map (fun (k : Nat) =>
        (c.id, (stagesUpTo c.stage).getD k "", addDays c.createdAt (7 * ((k : Int) + 1)),
          "Moved to " ++ (stagesUpTo c.stage).getD k "" ++ " stage")) := by
  rw [candidateEntries_eq, List.map_cons, List.map_map]
  rfl

theorem candidateEntries_getElem? (addDays : Int → Int → Int) (timelineId : Int)
    (c : SeedCandidate) (k : Nat) :
    ((candidateEntries addDays timelineId c)[k + 1]? =
      if k < (stagesUpTo c.stage).length then
        some { id := timelineId + 1 + (k : Int)
               candidateId := c.id
               stage := (stagesUpTo c.stage).getD k ""
               timestamp := addDays c.createdAt (7 * ((k : Int) + 1))
               notes := "Moved to " ++ (stagesUpTo c.stage).getD k "" ++ " stage" }
      else none) := by
  rw [candidateEntries_eq, List.getElem?_cons_succ, List.getElem?_map]
  by_cases h : k < (stagesUpTo c.stage).length
  · rw [if_pos h, List.getElem?_range h]
    rfl
  · rw [if_neg h, List.getElem?_eq_none (by simpa using h)]
    rfl

theorem candidateEntries_id (addDays : Int → Int → Int) (timelineId : Int) (c : SeedCandidate)
    (i : Nat) (e : TimelineEntry) (h : (candidateEntries addDays timelineId c)[i]? = some e) :
    e.id = timelineId + (i : Int) := by
  cases i with
  | zero =>
    rw [candidateEntries_eq] at h
    simp only [List.getElem?_cons_zero, Option.some.injEq] at h
    rw [← h]
    simp
  | succ k =>
    rw [candidateEntries_getElem?] at h
    split_ifs at h
    simp only [Option.some.injEq] at h
    rw [← h]
    push_cast
    ring

theorem generateCandidateTimelinesFrom_content (addDays : Int → Int → Int)
    (candidates : List SeedCandidate) :
    ∀ timelineId : Int,
      (generateCandidateTimelinesFrom addDays timelineId candidates).map TimelineEntry.content =
        candidates.flatMap (fun c =>
          (c.id, "applied", c.createdAt, "Application submitted") ::
          (List.range (stagesUpTo c.stage).length).map (fun (k : Nat) =>
            (c.id, (stagesUpTo c.stage).getD k "", addDays c.createdAt (7 * ((k : Int) + 1)),
              "Moved to " ++ (stagesUpTo c.stage).getD k "" ++ " stage"))) := by
  induction candidates with
  | nil => intro _; rfl
  | cons c rest ih =>
    intro timelineId
    rw [generateCandidateTimelinesFrom, List.map_append, candidateEntries_content, ih,
      List.flatMap_cons]

theorem generateCandidateTimelinesFrom_id (addDays : Int → Int → Int)
    (candidates : List SeedCandidate) :
    ∀ (timelineId : Int) (i : Nat) (e : TimelineEntry),
      (generateCandidateTimelinesFrom addDays timelineId candidates)[i]? = some e →
      e.id = timelineId + (i : Int) := by
  induction candidates with
  | nil =>
    intro t i e h
    simp [generateCandidateTimelinesFrom] at h
  | cons c rest ih =>
    intro t i e h
    rw [generateCandidateTimelinesFrom, List.getElem?_append] at h
    split_ifs at h with hi
    · exact candidateEntries_id addDays t c i e h
    · have := ih _ _ e h
      rw [this]
      have hle : (candidateEntries addDays t c).length ≤ i := by omega
      push_cast [Nat.cast_sub hle]
      ring

/-- C24: for every list of candidates, `generateCandidateTimelines` emits, in
the order of the candidates, for each one an entry `applied` at `createdAt`
and then one entry for each stage of screen, tech, offer, hired, rejected up
to and including the candidate's stage (none when the stage is `applied`), the
`k`-th of them dated `7 * k` days after `createdAt` and each 7 days after the
one before; the ids count 1, 2, 3, ...; a candidate in the stage `rejected`
gets the six entries applied, screen, tech, offer, hired, rejected. -/
theorem generateCandidateTimelines_entries (addDays : Int → Int → Int)
    (candidates : List SeedCandidate) :
    (generateCandidateTimelines addDays candidates).map TimelineEntry.content =
      candidates.flatMap (fun c =>
        (c.id, "applied", c.createdAt, "Application submitted") ::
        (List.range (stagesUpTo c.stage).length).map (fun (k : Nat) =>
          (c.id, (stagesUpTo c.stage).getD k "", addDays c.createdAt (7 * ((k : Int) + 1)),
            "Moved to " ++ (stagesUpTo c.stage).getD k "" ++ " stage"))) ∧
    (∀ (i : Nat) (e : TimelineEntry),
      (generateCandidateTimelines addDays candidates)[i]? = some e → e.id = (i : Int) + 1) ∧
    (stagesUpTo "applied" = [] ∧ stagesUpTo "screen" = ["screen"] ∧
      stagesUpTo "tech" = ["screen", "tech"] ∧ stagesUpTo "offer" = ["screen", "tech", "offer"] ∧
      stagesUpTo "hired" = ["screen", "tech", "offer", "hired"] ∧
      stagesUpTo "rejected" = ["screen", "tech", "offer", "hired", "rejected"]) ∧
    (∀ (timelineId : Int) (c : SeedCandidate), c.stage = "rejected" →
      (candidateEntries addDays timelineId c).map (fun e => e.stage)
        = ["applied", "screen", "tech", "offer", "hired", "rejected"]) ∧
    (∀ (timelineId : Int) (c : SeedCandidate) (e : TimelineEntry),
      (candidateEntries addDays timelineId c)[1]? = some e →
      e.timestamp = addDays c.createdAt 7) ∧
    ((∀ t a b : Int, addDays (addDays t a) b = addDays t (a + b)) →
      ∀ (timelineId : Int) (c : SeedCandidate) (k : Nat) (e1 e2 : TimelineEntry),
        (candidateEntries addDays timelineId c)[k + 1]? = some e1 →
        (candidateEntries addDays timelineId c)[k + 2]? = some e2 →
        e2.timestamp = addDays e1.timestamp 7) := by
  refine ⟨generateCandidateTimelinesFrom_content addDays candidates 1, ?_, by decide, ?_, ?_, ?_⟩
  · intro i e h
    have := generateCandidateTimelinesFrom_id addDays candidates 1 i e h
    rw [this]
    ring
  · intro t c hc
    obtain ⟨id, name, email, stage, jobId, createdAt⟩ := c
    simp only at hc
    subst hc
    rw [candidateEntries_eq]
    rfl
  · intro t c e h
    rw [candidateEntries_getElem? addDays t c 0] at h
    split_ifs at h
    simp only [Option.some.injEq] at h
    rw [← h]
    simp
  · intro hadd t c k e1 e2 h1 h2
    rw [candidateEntries_getElem?] at h1 h2
    split_ifs at h1 h2
    simp only [Option.some.injEq] at h1 h2
    rw [← h1, ← h2]
    simp only
    rw [hadd]
    congr 1

theorem generateCandidateTimelines_entries_witness :
    (generateCandidateTimelines utcAddDays [rejectedCandidate]).map
        (fun e => (e.id, e.stage, e.timestamp))
      = [(1, "applied", 1704067200000), (2, "screen", 1704672000000),
         (3, "tech", 1705276800000), (4, "offer", 1705881600000),
         (5, "hired", 1706486400000), (6, "rejected", 1707091200000)] ∧
    (∀ (timelineId : Int) (c : SeedCandidate) (k : Nat) (e1 e2 : TimelineEntry),
      (candidateEntries utcAddDays timelineId c)[k + 1]? = some e1 →
      (candidateEntries utcAddDays timelineId c)[k + 2]? = some e2 →
      e2.timestamp = utcAddDays e1.timestamp 7) :=
  ⟨by decide,
   (generateCandidateTimelines_entries utcAddDays [rejectedCandidate]).2.2.2.2.2
     (by intro t a b; unfold utcAddDays; ring)⟩

/-! ## Slugs -/

theorem isSlugChar_not_whitespace (c : Char) (h : isSlugChar c = true) :
    isJsWhitespace c = false := by
  simp only [isSlugChar, Bool.or_eq_true, Bool.and_eq_true, decide_eq_true_eq,
    beq_iff_eq] at h
  simp only [isJsWhitespace, Bool.or_eq_false_iff, Bool.and_eq_false_imp, decide_eq_true_eq,
    decide_eq_false_iff_not, beq_eq_false_iff_ne, ne_eq]
  omega

theorem isSlugChar_toLower (c : Char) (h : isSlugChar c = true) : Char.toLower c = c := by
  simp only [isSlugChar, Bool.or_eq_true, Bool.and_eq_true, decide_eq_true_eq,
    beq_iff_eq] at h
  unfold Char.toLower
  have : ¬ (c.toNat ≥ 65 ∧ c.toNat ≤ 90) := by omega
  simp only [this, if_false]

theorem isHyphen_eq (c : Char) (h : isHyphen c = true) : c = '-' := by
  simp only [isHyphen, beq_iff_eq] at h
  have := Char.ofNat_toNat c
  rw [h] at this
  exact this.symm

theorem isSlugChar_hyphen : isSlugChar '-' = true := by decide

theorem mem_collapseRuns (inClass : Char → Bool) (c : Char) :
    ∀ (chars : List Char) (inRun : Bool), c ∈ collapseRuns inClass inRun chars →
      c = '-' ∨ (c ∈ chars ∧ inClass c = false)
  | [], _, h => by simp [collapseRuns] at h
  | d :: rest, inRun, h => by
    unfold collapseRuns at h
    by_cases hd : inClass d = true
    · rw [if_pos hd] at h
      cases inRun with
      | true =>
        simp only [if_true] at h
        rcases mem_collapseRuns inClass c rest true h with h1 | ⟨h1, h2⟩
        · exact Or.inl h1
        · exact Or.inr ⟨List.mem_cons_of_mem _ h1, h2⟩
      | false =>
        simp only [Bool.false_eq_true, if_false, List.mem_cons] at h
        rcases h with h | h
        · exact Or.inl h
        · rcases mem_collapseRuns inClass c rest true h with h1 | ⟨h1, h2⟩
          · exact Or.inl h1
          · exact Or.inr ⟨List.mem_cons_of_mem _ h1, h2⟩
    · rw [if_neg hd] at h
      simp only [List.mem_cons] at h
      rcases h with h | h
      · subst h
        exact Or.inr ⟨List.mem_cons_self _ _, by simpa using hd⟩
      · rcases mem_collapseRuns inClass c rest false h with h1 | ⟨h1, h2⟩
        · exact Or.inl h1
        · exact Or.inr ⟨List.mem_cons_of_mem _ h1, h2⟩

theorem collapseRuns_of_none (inClass : Char → Bool) :
    ∀ (chars : List Char) (inRun : Bool), (∀ c ∈ chars, inClass c = false) →
      collapseRuns inClass inRun chars = chars
  | [], _, _ => by simp [collapseRuns]
  | d :: rest, inRun, h => by
    have hd : ¬ inClass d = true := by simp [h d (List.mem_cons_self _ _)]
    unfold collapseRuns
    rw [if_neg hd, collapseRuns_of_none inClass rest false
      (fun c hc => h c (List.mem_cons_of_mem _ hc))]

theorem collapseRuns_hyphen_chain :
    ∀ (chars : List Char) (inRun : Bool),
      (collapseRuns isHyphen inRun chars).Chain'
          (fun a b => ¬ (isHyphen a = true ∧ isHyphen b = true)) ∧
        (inRun = true → ∀ x ∈ (collapseRuns isHyphen inRun chars).head?, isHyphen x = false)
  | [], _ => by simp [collapseRuns]
  | d :: rest, inRun => by
    unfold collapseRuns
    by_cases hd : isHyphen d = true
    · rw [if_pos hd]
      cases inRun with
      | true =>
        rw [if_pos rfl]
        exact collapseRuns_hyphen_chain rest true
      | false =>
        simp only [Bool.false_eq_true, if_false, false_implies, and_true]
        have ih := collapseRuns_hyphen_chain rest true
        rw [List.chain'_cons']
        refine ⟨fun y hy hh => ?_, ih.1⟩
        have := ih.2 rfl y hy
        rw [this] at hh
        exact absurd hh.2 (by simp)
    · rw [if_neg hd]
      have ih := collapseRuns_hyphen_chain rest false
      refine ⟨?_, fun _ x hx => ?_⟩
      · rw [List.chain'_cons']
        exact ⟨fun y _ hh => hd hh.1, ih.1⟩
      · simp only [List.head?_cons, Option.mem_def, Option.some.injEq] at hx
        subst hx
        simpa using hd

theorem collapseRuns_hyphen_fixed :
    ∀ (chars : List Char) (inRun : Bool),
      chars.Chain' (fun a b => ¬ (isHyphen a = true ∧ isHyphen b = true)) →
      (inRun = true → ∀ x ∈ chars.head?, isHyphen x = false) →
      collapseRuns isHyphen inRun chars = chars
  | [], _, _, _ => by simp [collapseRuns]
  | d :: rest, inRun, hc, hh => by
    rw [List.chain'_cons'] at hc
    unfold collapseRuns
    by_cases hd : isHyphen d = true
    · rw [if_pos hd]
      cases inRun with
      | true =>
        have := hh rfl d (by simp)
        rw [this] at hd
        exact absurd hd (by simp)
      | false =>
        simp only [Bool.false_eq_true, if_false]
        rw [collapseRuns_hyphen_fixed rest true hc.2, ← isHyphen_eq d hd]
        intro _ x hx
        have := hc.1 x hx
        by_contra hne
        exact this ⟨hd, by simpa using hne⟩
    · rw [if_neg hd, collapseRuns_hyphen_fixed rest false hc.2 (by simp)]

theorem dropWhile_of_none {α : Type} (p : α → Bool) (l : List α) (h : ∀ c ∈ l, p c = false) :
    l.dropWhile p = l := by
  cases l with
  | nil => rfl
  | cons a rest => simp [List.dropWhile, h a (List.mem_cons_self _ _)]

theorem jsTrim_of_none (chars : List Char) (h : ∀ c ∈ chars, isJsWhitespace c = false) :
    jsTrim chars = chars := by
  unfold jsTrim
  rw [dropWhile_of_none _ _ h, dropWhile_of_none _ _ (by simpa using h), List.reverse_reverse]

/-- The result of the two replacements by hyphens: only slug characters, no
two hyphens in a row. -/
theorem collapsed_shape (lowered : String) :
    (∀ c ∈ collapseRuns isHyphen false
        (collapseRuns isJsWhitespace false (lowered.data.filter isSlugSource)),
      isSlugChar c = true) ∧
    (collapseRuns isHyphen false
        (collapseRuns isJsWhitespace false (lowered.data.filter isSlugSource))).Chain'
      (fun a b => ¬ (isHyphen a = true ∧ isHyphen b = true)) := by
  refine ⟨fun c hc => ?_, (collapseRuns_hyphen_chain _ false).1⟩
  rcases mem_collapseRuns _ c _ _ hc with h | ⟨h, _⟩
  · rw [h]; exact isSlugChar_hyphen
  · rcases mem_collapseRuns _ c _ _ h with h | ⟨h, hw⟩
    · rw [h]; exact isSlugChar_hyphen
    · have := (List.mem_filter.1 h).2
      simp only [isSlugSource, Bool.or_eq_true] at this
      rcases this with h1 | h1
      · exact h1
      · rw [hw] at h1; exact absurd h1 (by simp)

theorem slugOfLowered_data (lowered : String) :
    (slugOfLowered lowered).data = collapseRuns isHyphen false
        (collapseRuns isJsWhitespace false (lowered.data.filter isSlugSource)) := by
  unfold slugOfLowered
  exact jsTrim_of_none _ (fun c hc => isSlugChar_not_whitespace c ((collapsed_shape lowered).1 c hc))

theorem slugShaped_slugOfLowered (lowered : String) : SlugShaped (slugOfLowered lowered) := by
  unfold SlugShaped
  rw [slugOfLowered_data]
  exact collapsed_shape lowered

theorem generateSlug_of_slugShaped (text : String) (h : SlugShaped text) :
    generateSlug text = text := by
  have hlow : toLowerCase text = text := by
    unfold toLowerCase
    have : text.data.map Char.toLower = text.data := by
      conv_rhs => rw [← List.map_id text.data]
      exact List.map_congr_left (fun c hc => isSlugChar_toLower c (h.1 c hc))
    rw [this]
  have hws : ∀ c ∈ text.data, isJsWhitespace c = false :=
    fun c hc => isSlugChar_not_whitespace c (h.1 c hc)
  have hfilter : text.data.filter isSlugSource = text.data :=
    List.filter_eq_self.2 (fun c hc => by simp [isSlugSource, h.1 c hc])
  unfold generateSlug slugOfLowered
  rw [hlow, hfilter, collapseRuns_of_none _ _ _ hws,
    collapseRuns_hyphen_fixed _ false h.2 (by simp), jsTrim_of_none _ hws]

/-- C30: for every title, and for whatever string lowercasing turns it into,
`generateSlug` returns a string made only of lowercase ASCII letters, digits
and hyphens, with no whitespace and no two hyphens next to each other, and
applying `generateSlug` to that result returns it unchanged. -/
theorem generateSlug_shape (title lowered : String) :
    (SlugShaped (generateSlug title) ∧
      (∀ c ∈ (generateSlug title).data, isJsWhitespace c = false) ∧
      generateSlug (generateSlug title) = generateSlug title) ∧
    (SlugShaped (slugOfLowered lowered) ∧
      (∀ c ∈ (slugOfLowered lowered).data, isJsWhitespace c = false) ∧
      generateSlug (slugOfLowered lowered) = slugOfLowered lowered) := by
  have key : ∀ text : String, SlugShaped (slugOfLowered text) ∧
      (∀ c ∈ (slugOfLowered text).data, isJsWhitespace c = false) ∧
      generateSlug (slugOfLowered text) = slugOfLowered text := fun text =>
    ⟨slugShaped_slugOfLowered text,
      fun c hc => isSlugChar_not_whitespace c ((slugShaped_slugOfLowered text).1 c hc),
      generateSlug_of_slugShaped _ (slugShaped_slugOfLowered text)⟩
  exact ⟨key (toLowerCase title), key lowered⟩

/-- The slug of a title with capitals, brackets, runs of blanks and runs of
hyphens; blanks at the ends become hyphens, which `trim` leaves in place. -/
theorem generateSlug_samples :
    generateSlug "Senior  Frontend -- Developer (React)!" = "senior-frontend-developer-react" ∧
    generateSlug " Hello World " = "-hello-world-" := by
  decide

/-! ## Drag and drop -/

theorem oneTo_getElem? (n i : Nat) (h : i < n) : (oneTo n)[i]? = some ((i : Int) + 1) := by
  unfold oneTo
  rw [List.getElem?_map, List.getElem?_range h]
  rfl

theorem pairwise_oneTo (n : Nat) : (oneTo n).Pairwise (fun a b => a < b) := by
  unfold oneTo
  rw [List.pairwise_map]
  exact (List.pairwise_lt_range n).imp (by intro a b h; omega)

/-- In a list whose orders read 1, 2, ..., N the job at index `i` has order
`i + 1`. -/
theorem order_of_index (jobs : List Job)
    (hdense : jobs.map (fun j => j.order) = oneTo jobs.length) (i : Nat) (x : Job)
    (h : jobs[i]? = some x) : x.order = (i : Int) + 1 := by
  obtain ⟨hi, _⟩ := List.getElem?_eq_some.1 h
  have h1 : (jobs.map (fun j => j.order))[i]? = some x.order := by
    rw [List.getElem?_map, h]
    rfl
  rw [hdense, oneTo_getElem? _ _ hi] at h1
  exact (Option.some.inj h1).symm

theorem mem_take_index {α : Type} (l : List α) (n : Nat) (x : α) (h : x ∈ l.take n) :
    ∃ i, i < n ∧ l[i]? = some x := by
  obtain ⟨i, hi⟩ := List.mem_iff_getElem?.1 h
  rw [List.getElem?_take] at hi
  by_cases hlt : i < n
  · rw [if_pos hlt] at hi
    exact ⟨i, hlt, hi⟩
  · rw [if_neg hlt] at hi
    exact absurd hi (by simp)

theorem mem_drop_index {α : Type} (l : List α) (n : Nat) (x : α) (h : x ∈ l.drop n) :
    ∃ i, n ≤ i ∧ l[i]? = some x := by
  obtain ⟨i, hi⟩ := List.mem_iff_getElem?.1 h
  rw [List.getElem?_drop] at hi
  exact ⟨n + i, Nat.le_add_right _ _, hi⟩

theorem pairwise_append_of_bound {α : Type} (k : α → Int) (X Y : List α) (b : Int)
    (pX : X.Pairwise (fun a c => k a < k c)) (pY : Y.Pairwise (fun a c => k a < k c))
    (hX : ∀ x ∈ X, k x ≤ b) (hY : ∀ y ∈ Y, b < k y) :
    (X ++ Y).Pairwise (fun a c => k a < k c) :=
  List.pairwise_append.2 ⟨pX, pY, fun x hx y hy => lt_of_le_of_lt (hX x hx) (hY y hy)⟩

/-- The two `splice` calls when the job is dropped further down the list. -/
theorem splice_later {α : Type} (l : List α) (src dst : Nat) (m : α) (hlt : src < dst)
    (hlen : src < l.length) :
    (l.take src ++ l.drop (src + 1)).take dst ++ m :: (l.take src ++ l.drop (src + 1)).drop dst =
      l.take src ++ ((l.drop (src + 1)).take (dst - src) ++ m :: l.drop (dst + 1)) := by
  have h1 : (l.take src).length = src := List.length_take_of_le (by omega)
  have h2 : src + 1 + (dst - src) = dst + 1 := by omega
  have hT : (l.take src).take dst = l.take src := List.take_of_length_le (by rw [h1]; omega)
  have hD : (l.take src).drop dst = [] := List.drop_of_length_le (by rw [h1]; omega)
  rw [List.take_append_eq_append_take, List.drop_append_eq_append_drop, h1, hT, hD,
    List.drop_drop, h2]
  simp

/-- The two `splice` calls when the job is dropped further up the list. -/
theorem splice_earlier {α : Type} (l : List α) (src dst : Nat) (m : α) (hlt : dst < src)
    (hlen : src < l.length) :
    (l.take src ++ l.drop (src + 1)).take dst ++ m :: (l.take src ++ l.drop (src + 1)).drop dst =
      l.take dst ++ m :: ((l.take src).drop dst ++ l.drop (src + 1)) := by
  have h1 : (l.take src).length = src := List.length_take_of_le (by omega)
  have h0 : dst - src = 0 := by omega
  rw [List.take_append_eq_append_take, List.drop_append_eq_append_drop, h1, h0, List.take_take,
    Nat.min_eq_left (by omega)]
  simp

/-- The list after the two `splice` calls holds the same jobs as before. -/
theorem splice_perm {α : Type} (l : List α) (src dst : Nat) (m : α) (h : l[src]? = some m) :
    ((l.take src ++ l.drop (src + 1)).take dst ++
        m :: (l.take src ++ l.drop (src + 1)).drop dst).Perm l := by
  obtain ⟨hi, hm⟩ := List.getElem?_eq_some.1 h
  have hl : l = l.take src ++ m :: l.drop (src + 1) := by
    conv_lhs => rw [← List.take_append_drop src l, List.drop_eq_getElem_cons hi, hm]
  refine List.perm_middle.trans ?_
  rw [List.take_append_drop]
  conv_rhs => rw [hl]
  exact List.perm_middle.symm

/-- After the two `splice` calls, the orders the reorder request gives the jobs
increase along the list. -/
theorem spliced_sorted (jobs : List Job) (src dst : Nat) (moved : Job)
    (hu : UniqueIds jobs) (hdense : jobs.map (fun j => j.order) = oneTo jobs.length)
    (hsrc : jobs[src]? = some moved) (hne : src ≠ dst) :
    ((jobs.take src ++ jobs.drop (src + 1)).take dst ++
        moved :: (jobs.take src ++ jobs.drop (src + 1)).drop dst).Pairwise
      (fun a c => (reorderRecord moved.id moved.order ((dst : Int) + 1) a).order <
        (reorderRecord moved.id moved.order ((dst : Int) + 1) c).order) := by
  obtain ⟨hsrcN, _⟩ := List.getElem?_eq_some.1 hsrc
  have hmo : moved.order = (src : Int) + 1 := order_of_index jobs hdense src moved hsrc
  have hmem : moved ∈ jobs := List.getElem?_mem hsrc
  have hsorted : jobs.Pairwise (fun a c => a.order < c.order) := by
    have := pairwise_oneTo jobs.length
    rw [← hdense, List.pairwise_map] at this
    exact this
  have hnodup : (jobs.map (fun j => j.order)).Nodup := by
    rw [hdense]
    exact nodup_oneTo _
  obtain ⟨k, hkdef⟩ : ∃ k : Job → Int,
      k = fun x => (reorderRecord moved.id moved.order ((dst : Int) + 1) x).order := ⟨_, rfl⟩
  suffices hgoal : ((jobs.take src ++ jobs.drop (src + 1)).take dst ++
      moved :: (jobs.take src ++ jobs.drop (src + 1)).drop dst).Pairwise
        (fun a c => k a < k c) by
    rw [hkdef] at hgoal
    exact hgoal
  have hk : ∀ x ∈ jobs, k x =
      if x.order = (src : Int) + 1 then (dst : Int) + 1
      else if (src : Int) < dst then
        (if (src : Int) + 2 ≤ x.order ∧ x.order ≤ (dst : Int) + 1 then x.order - 1 else x.order)
      else (if (dst : Int) + 1 ≤ x.order ∧ x.order ≤ (src : Int) then x.order + 1
        else x.order) := by
    intro x hx
    rw [hkdef]
    show (reorderRecord moved.id moved.order ((dst : Int) + 1) x).order = _
    rw [reorderRecord_order, hmo]
    have key := id_eq_iff_order_eq jobs hu hnodup moved x hmem hx
    rw [hmo] at key
    by_cases h : x.id = moved.id
    · rw [if_pos h, if_pos (key.1 h)]
    · rw [if_neg h, if_neg (mt key.2 h)]
      split_ifs <;> omega
  have hkm : k moved = (dst : Int) + 1 := by
    rw [hk moved hmem, if_pos hmo]
  rcases Nat.lt_or_gt_of_ne hne with hlt | hgt
  · rw [splice_later jobs src dst moved hlt hsrcN]
    have zA : ∀ x ∈ jobs.take src, k x = x.order ∧ x.order ≤ (src : Int) := by
      intro x hx
      obtain ⟨i, hi, hix⟩ := mem_take_index _ _ _ hx
      have ho := order_of_index jobs hdense i x hix
      rw [hk x (List.getElem?_mem hix)]
      refine ⟨?_, by omega⟩
      split_ifs <;> omega
    have zB : ∀ x ∈ (jobs.drop (src + 1)).take (dst - src),
        k x = x.order - 1 ∧ (src : Int) + 2 ≤ x.order ∧ x.order ≤ (dst : Int) + 1 := by
      intro x hx
      obtain ⟨i, hi, hix⟩ := mem_take_index _ _ _ hx
      rw [List.getElem?_drop] at hix
      have ho := order_of_index jobs hdense _ x hix
      rw [hk x (List.getElem?_mem hix)]
      refine ⟨?_, by omega, by omega⟩
      split_ifs <;> omega
    have zC : ∀ x ∈ jobs.drop (dst + 1), k x = x.order ∧ (dst : Int) + 2 ≤ x.order := by
      intro x hx
      obtain ⟨i, hi, hix⟩ := mem_drop_index _ _ _ hx
      have ho := order_of_index jobs hdense i x hix
      rw [hk x (List.getElem?_mem hix)]
      refine ⟨?_, by omega⟩
      split_ifs <;> omega
    have pA : (jobs.take src).Pairwise (fun a c => k a < k c) :=
      (hsorted.sublist (List.take_sublist _ _)).imp_of_mem
        (@fun a c ha hc h => by rw [(zA a ha).1, (zA c hc).1]; exact h)
    have pB : ((jobs.drop (src + 1)).take (dst - src)).Pairwise (fun a c => k a < k c) :=
      (hsorted.sublist ((List.take_sublist _ _).trans (List.drop_sublist _ _))).imp_of_mem
        (@fun a c ha hc h => by rw [(zB a ha).1, (zB c hc).1]; omega)
    have pC : (jobs.drop (dst + 1)).Pairwise (fun a c => k a < k c) :=
      (hsorted.sublist (List.drop_sublist _ _)).imp_of_mem
        (@fun a c ha hc h => by rw [(zC a ha).1, (zC c hc).1]; exact h)
    have pmC : (moved :: jobs.drop (dst + 1)).Pairwise (fun a c => k a < k c) :=
      List.pairwise_cons.2 ⟨fun c hc => by
        have := zC c hc
        rw [hkm, this.1]
        omega, pC⟩
    have hmC : ∀ y ∈ moved :: jobs.drop (dst + 1), (dst : Int) < k y := by
      intro y hy
      rcases List.mem_cons.1 hy with h | h
      · rw [h, hkm]
        omega
      · have := zC y h
        rw [this.1]
        omega
    refine pairwise_append_of_bound k _ _ (src : Int) pA
      (pairwise_append_of_bound k _ _ (dst : Int) pB pmC (fun x hx => ?_) hmC)
      (fun x hx => (zA x hx).1 ▸ (zA x hx).2) (fun y hy => ?_)
    · have := zB x hx
      rw [this.1]
      omega
    · rcases List.mem_append.1 hy with h | h
      · have := zB y h
        rw [this.1]
        omega
      · have := hmC y h
        omega
  · have hgt' : dst < src := hgt
    rw [splice_earlier jobs src dst moved hgt' hsrcN]
    have zA : ∀ x ∈ jobs.take dst, k x = x.order ∧ x.order ≤ (dst : Int) := by
      intro x hx
      obtain ⟨i, hi, hix⟩ := mem_take_index _ _ _ hx
      have ho := order_of_index jobs hdense i x hix
      rw [hk x (List.getElem?_mem hix)]
      refine ⟨?_, by omega⟩
      split_ifs <;> omega
    have zB : ∀ x ∈ (jobs.take src).drop dst,
        k x = x.order + 1 ∧ (dst : Int) + 1 ≤ x.order ∧ x.order ≤ (src : Int) := by
      intro x hx
      obtain ⟨i, hi, hix⟩ := mem_drop_index _ _ _ hx
      rw [List.getElem?_take] at hix
      have hlt : i < src := by
        by_contra hcon
        rw [if_neg hcon] at hix
        exact absurd hix (by simp)
      rw [if_pos hlt] at hix
      have ho := order_of_index jobs hdense _ x hix
      rw [hk x (List.getElem?_mem hix)]
      refine ⟨?_, by omega, by omega⟩
      split_ifs <;> omega
    have zC : ∀ x ∈ jobs.drop (src + 1), k x = x.order ∧ (src : Int) + 2 ≤ x.order := by
      intro x hx
      obtain ⟨i, hi, hix⟩ := mem_drop_index _ _ _ hx
      have ho := order_of_index jobs hdense i x hix
      rw [hk x (List.getElem?_mem hix)]
      refine ⟨?_, by omega⟩
      split_ifs <;> omega
    have pA : (jobs.take dst).Pairwise (fun a c => k a < k c) :=
      (hsorted.sublist (List.take_sublist _ _)).imp_of_mem
        (@fun a c ha hc h => by rw [(zA a ha).1, (zA c hc).1]; exact h)
    have pB : ((jobs.take src).drop dst).Pairwise (fun a c => k a < k c) :=
      (hsorted.sublist ((List.drop_sublist _ _).trans (List.take_sublist _ _))).imp_of_mem
        (@fun a c ha hc h => by rw [(zB a ha).1, (zB c hc).1]; omega)
    have pC : (jobs.drop (src + 1)).Pairwise (fun a c => k a < k c) :=
      (hsorted.sublist (List.drop_sublist _ _)).imp_of_mem
        (@fun a c ha hc h => by rw [(zC a ha).1, (zC c hc).1]; exact h)
    have pBC : ((jobs.take src).drop dst ++ jobs.drop (src + 1)).Pairwise
        (fun a c => k a < k c) :=
      pairwise_append_of_bound k _ _ ((src : Int) + 1) pB pC
        (fun x hx => by
          have := zB x hx
          rw [this.1]
          omega)
        (fun y hy => by
          have := zC y hy
          rw [this.1]
          omega)
    have hBC : ∀ y ∈ (jobs.take src).drop dst ++ jobs.drop (src + 1), (dst : Int) + 1 < k y := by
      intro y hy
      rcases List.mem_append.1 hy with h | h
      · have := zB y h
        rw [this.1]
        omega
      · have := zC y h
        rw [this.1]
        omega
    refine pairwise_append_of_bound k _ _ (dst : Int) pA
      (List.pairwise_cons.2 ⟨fun c hc => by rw [hkm]; exact hBC c hc, pBC⟩)
      (fun x hx => (zA x hx).1 ▸ (zA x hx).2) (fun y hy => ?_)
    rcases List.mem_cons.1 hy with h | h
    · rw [h, hkm]
      omega
    · have := hBC y h
      omega


/-- C28: the local list holds every job of the store, sorted by order, with
orders 1, 2, ..., N; a job is dragged from `sourceIndex` to a different
`destIndex` of the list, and the request is not hit by the injected failure.
Then `handleDragEnd` sends the request with the moved job's id, its order as
`fromOrder` and `destIndex + 1` as `toOrder`, the reorder handler answers 200,
and the store's jobs sorted by order are, job for job, the list the two
`splice` calls produced (each job carrying its new order), so the two
sequences of ids are the same and the orders read 1, 2, ..., N again. -/
theorem handleDragEnd_agrees_with_reorderJob (env : Env) (s : Store) (jobs : List Job)
    (result : DragResult) (destIndex : Nat) (movedJob : Job)
    (hE : shouldError true env.random = false) (hu : UniqueIds s.jobs)
    (hperm : jobs.Perm s.jobs)
    (hdense : jobs.map (fun j => j.order) = oneTo jobs.length)
    (hsrc : jobs[result.sourceIndex]? = some movedJob)
    (hid : result.draggableId = movedJob.id)
    (hdest : result.destIndex = some destIndex) (hlt : destIndex < jobs.length)
    (hne : result.sourceIndex ≠ destIndex) :
    ∃ outcome, handleDragEnd jobs result = some outcome ∧
      outcome.jobId = movedJob.id ∧ outcome.fromOrder = movedJob.order ∧
      outcome.toOrder = (destIndex : Int) + 1 ∧
      (reorderJob env s outcome.jobId outcome.fromOrder outcome.toOrder).1 = ⟨200, .success⟩ ∧
      orderByOrder (reorderJob env s outcome.jobId outcome.fromOrder outcome.toOrder).2.jobs =
        outcome.jobs.map (reorderRecord outcome.jobId outcome.fromOrder outcome.toOrder) ∧
      (orderByOrder (reorderJob env s outcome.jobId outcome.fromOrder outcome.toOrder).2.jobs).map
          (fun j => j.id) = outcome.jobs.map (fun j => j.id) ∧
      (orderByOrder (reorderJob env s outcome.jobId outcome.fromOrder outcome.toOrder).2.jobs).map
          (fun j => j.order) = oneTo jobs.length := by
  have hmemJ : movedJob ∈ jobs := List.getElem?_mem hsrc
  have hmemS : movedJob ∈ s.jobs := hperm.subset hmemJ
  have huJ : UniqueIds jobs := (hperm.map (fun j : Job => j.id)).nodup_iff.2 hu
  have hfound := reorderJob_of_found env s movedJob.id movedJob.order ((destIndex : Int) + 1) hE
    ⟨movedJob, hmemS, rfl⟩
  have hmo : movedJob.order = (result.sourceIndex : Int) + 1 :=
    order_of_index jobs hdense _ movedJob hsrc
  have hlen : s.jobs.length = jobs.length := hperm.length_eq.symm
  have hdS : DenseOrders s.jobs := by
    unfold DenseOrders
    rw [hlen, ← hdense]
    exact (hperm.map (fun j => j.order)).symm
  have hdS2 := denseOrders_map_reorderRecord s.jobs movedJob.id movedJob.order
    ((destIndex : Int) + 1) hu hdS ⟨movedJob, hmemS, rfl, rfl⟩ (by omega) (by omega)
  have hperm2 : (orderByOrder (s.jobs.map
        (reorderRecord movedJob.id movedJob.order ((destIndex : Int) + 1)))).Perm
      (((jobs.take result.sourceIndex ++ jobs.drop (result.sourceIndex + 1)).take destIndex ++
        movedJob :: (jobs.take result.sourceIndex ++
          jobs.drop (result.sourceIndex + 1)).drop destIndex).map
        (reorderRecord movedJob.id movedJob.order ((destIndex : Int) + 1))) :=
    (List.perm_insertionSort _ _).trans
      ((((splice_perm jobs result.sourceIndex destIndex movedJob hsrc).trans hperm).map _).symm)
  have hs2 : (((jobs.take result.sourceIndex ++
      jobs.drop (result.sourceIndex + 1)).take destIndex ++
        movedJob :: (jobs.take result.sourceIndex ++
          jobs.drop (result.sourceIndex + 1)).drop destIndex).map
        (reorderRecord movedJob.id movedJob.order ((destIndex : Int) + 1))).Pairwise
      (fun a c => a.order < c.order) :=
    List.pairwise_map.2
      (spliced_sorted jobs result.sourceIndex destIndex movedJob huJ hdense hsrc hne)
  have hnd : ((orderByOrder (s.jobs.map
      (reorderRecord movedJob.id movedJob.order ((destIndex : Int) + 1)))).map
        (fun j => j.order)).Nodup :=
    (hperm2.map (fun j : Job => j.order)).nodup_iff.2
      (List.pairwise_map.2 (hs2.imp (fun h => ne_of_lt h)))
  have hs1 : (orderByOrder (s.jobs.map
      (reorderRecord movedJob.id movedJob.order ((destIndex : Int) + 1)))).Pairwise
        (fun a c => a.order < c.order) := by
    have hsorted : (orderByOrder (s.jobs.map
        (reorderRecord movedJob.id movedJob.order ((destIndex : Int) + 1)))).Pairwise
          Job.orderLE := List.sorted_insertionSort Job.orderLE _
    refine (hsorted.and (List.pairwise_map.1 hnd)).imp ?_
    rintro a c ⟨h1, h2⟩
    rcases h1 with h1 | h1
    · exact h1
    · exact absurd h1.1 h2
  haveI : IsAntisymm Job (fun a c => a.order < c.order) :=
    ⟨fun a c h1 h2 => absurd h1 (not_lt_of_gt h2)⟩
  have hsort := List.eq_of_perm_of_sorted hperm2 hs1 hs2
  refine ⟨⟨(jobs.take result.sourceIndex ++
      jobs.drop (result.sourceIndex + 1)).take destIndex ++
        movedJob :: (jobs.take result.sourceIndex ++
          jobs.drop (result.sourceIndex + 1)).drop destIndex,
      result.draggableId, movedJob.order, (destIndex : Int) + 1⟩, ?_, hid, rfl, rfl, ?_⟩
  · unfold handleDragEnd
    rw [hdest]
    simp only [hne, if_false, hsrc]
  · dsimp only
    rw [hid, hfound]
    dsimp only
    refine ⟨rfl, hsort, ?_, ?_⟩
    · rw [hsort, List.map_map]
      exact List.map_congr_left (fun x _ => reorderRecord_id _ _ _ x)
    · haveI : IsAntisymm Int (fun a c => a < c) :=
        ⟨fun a c h1 h2 => absurd h1 (not_lt_of_gt h2)⟩
      refine List.eq_of_perm_of_sorted ?_ (List.pairwise_map.2 hs1) (pairwise_oneTo _)
      unfold DenseOrders at hdS2
      have h1 := ((List.perm_insertionSort Job.orderLE (s.jobs.map
        (reorderRecord movedJob.id movedJob.order ((destIndex : Int) + 1)))).map
          (fun j : Job => j.order)).trans hdS2
      rw [List.length_map, hlen] at h1
      exact h1

theorem handleDragEnd_agrees_with_reorderJob_witness :
    ∃ outcome, handleDragEnd seedJobs ⟨3, 2, some 0⟩ = some outcome ∧
      outcome.jobId = 3 ∧ outcome.fromOrder = 3 ∧ outcome.toOrder = ((0 : Nat) : Int) + 1 ∧
      (reorderJob (calmEnv 7) (storeOfJobs seedJobs) outcome.jobId outcome.fromOrder
        outcome.toOrder).1 = ⟨200, .success⟩ ∧
      orderByOrder (reorderJob (calmEnv 7) (storeOfJobs seedJobs) outcome.jobId
          outcome.fromOrder outcome.toOrder).2.jobs =
        outcome.jobs.map (reorderRecord outcome.jobId outcome.fromOrder outcome.toOrder) ∧
      (orderByOrder (reorderJob (calmEnv 7) (storeOfJobs seedJobs) outcome.jobId
          outcome.fromOrder outcome.toOrder).2.jobs).map (fun j => j.id) =
        outcome.jobs.map (fun j => j.id) ∧
      (orderByOrder (reorderJob (calmEnv 7) (storeOfJobs seedJobs) outcome.jobId
          outcome.fromOrder outcome.toOrder).2.jobs).map (fun j => j.order) =
        oneTo seedJobs.length :=
  handleDragEnd_agrees_with_reorderJob (calmEnv 7) (storeOfJobs seedJobs) seedJobs
    ⟨3, 2, some 0⟩ 0
    { id := 3, title := some "UI/UX Designer", slug := some "ui-ux-designer",
      status := some "active", tags := some ["Figma", "Design Systems", "User Research"],
      order := 3, createdAt := 1706745600000 }
    (shouldError_calmEnv 7) (by decide) (List.Perm.refl _) (by decide) (by decide) rfl rfl
    (by decide) (by decide)

/-- Dragging the third seeded job to the top: the list shown and the ids of
the stored jobs sorted by order after the request. -/
theorem handleDragEnd_sample :
    (handleDragEnd seedJobs ⟨3, 2, some 0⟩).map (fun o => (o.jobs.map (fun j => j.id)).take 4) =
      some [3, 1, 2, 4] ∧
    ((orderByOrder (seedJobs.map (reorderRecord 3 3 1))).map (fun j => j.id)).take 4 =
      [3, 1, 2, 4] := by
  decide

end TalentFlow
